import Mathlib

/-!
# Verification of the inode-cache and ext2 metadata core

This development gives a shallow embedding of the inode cache manager
(`src/fs/inode.c`) and of the ext2 metadata demo
(`src/tools/demo/vfs/ext2/ext2.c`): the bitmap free-count routine, the
block-address resolution chain, the LRU bitmap cache, and the consistency
checkers.  External collaborators (buffer cache `bread`/`brelse`, the disk)
are modelled as total oracles; `printk` output and buffer releases are
recorded in logs so that diagnostic-only behaviour is observable.
Sequential (single-thread-of-control) semantics: a wait on a lock that is
already held cannot make progress and is modelled by a distinguished
`stuck` outcome; `panic` is a distinguished fatal outcome.
-/

/-- Outcome of a stateful operation: normal result, a fatal `panic` (the C
`panic()` call halts the system), or `stuck` (the sequential execution waits
forever / cannot proceed). -/
inductive Res (α : Type) where
  | ok : α → Res α
  | panic : String → Res α
  | stuck : Res α
deriving Repr

/-- Sequencing of stateful outcomes; `panic` and `stuck` propagate. -/
def Res.bind {α β : Type} : Res α → (α → Res β) → Res β
  | .ok a, f => f a
  | .panic m, _ => .panic m
  | .stuck, _ => .stuck

@[simp] theorem Res.bind_ok {α β : Type} (a : α) (f : α → Res β) :
    Res.bind (.ok a) f = f a := rfl

@[simp] theorem Res.bind_panic {α β : Type} (m : String) (f : α → Res β) :
    Res.bind (.panic m) f = .panic m := rfl

@[simp] theorem Res.bind_stuck {α β : Type} (f : α → Res β) :
    Res.bind .stuck f = .stuck := rfl

namespace Ext2

/-- A disk-block buffer's payload (`b_data`): a byte array, each entry an
octet `< 256`. -/
abbrev Buf := List Nat

/-- `static int nibblemap[] = {4, 3, 3, 2, 3, 2, 2, 1, 3, 2, 2, 1, 2, 1, 1, 0};`
(ext2.c line 885): maps a 4-bit value to the count of zero bits within it. -/
def nibblemap : List Nat := [4, 3, 3, 2, 3, 2, 2, 1, 3, 2, 2, 1, 2, 1, 1, 0]

/-- Zero-bit contribution of one byte in `ext2_counts_free`:
`nibblemap[b & 0xf] + nibblemap[(b >> 4) & 0xf]` (ext2.c lines 896-897).
`b & 0xf` is `b % 16`; `(b >> 4) & 0xf` extracts bits 4..7, i.e.
`(b / 16) % 16` (the `& 0xf` mask makes this independent of `char`
signedness). -/
def nibbleFree (b : Nat) : Nat :=
  nibblemap.getD (b % 16) 0 + nibblemap.getD (b / 16 % 16) 0

/-- `ext2_counts_free(map, numchars)` (ext2.c lines 887-900): `0` for a NULL
buffer, else the sum of the nibble-table counts over the first `numchars`
bytes of `b_data`. -/
def ext2_counts_free (map : Option Buf) (numchars : Nat) : Nat :=
  match map with
  | none => 0
  | some data => ((data.take numchars).map nibbleFree).sum

/-- Number of zero bits among the 8 bits of one octet (the specification's
counting function, independent of the nibble table). -/
def zeroBitsByte (b : Nat) : Nat :=
  ((List.range 8).filter (fun k => b.testBit k = false)).length

/-- Number of zero bits in the first `w` bytes of a byte list. -/
def zeroBitsBelow (data : List Nat) (w : Nat) : Nat :=
  ((data.take w).map zeroBitsByte).sum

set_option maxRecDepth 4000 in
theorem nibbleFree_eq_zeroBits (b : Nat) (hb : b < 256) :
    nibbleFree b = zeroBitsByte b := by
  have h : ∀ x : Fin 256, nibbleFree x.val = zeroBitsByte x.val := by decide
  exact h ⟨b, hb⟩

theorem nibbleFree_240 : nibbleFree 240 = 4 := by decide

theorem sum_nibbleFree_eq (l : List Nat) (hb : ∀ b ∈ l, b < 256) :
    (l.map nibbleFree).sum = (l.map zeroBitsByte).sum := by
  induction l with
  | nil => rfl
  | cons x xs ih =>
      simp only [List.map_cons, List.sum_cons]
      rw [nibbleFree_eq_zeroBits x (hb x (by simp)),
        ih (fun b h => hb b (List.mem_cons_of_mem _ h))]

end Ext2

/-- C9: `count_free` counts zero bits via the 16-entry nibble table applied
to both nibbles of every byte: for every bitmap and byte width (within the
buffer), the result equals the number of zero bits in the first `width`
bytes; and for a buffer of `n` bytes all equal to `0b11110000`, the result
is exactly `4 * n`. -/
theorem C9_count_free :
    (∀ (data : List Nat) (w : Nat), (∀ b ∈ data, b < 256) → w ≤ data.length →
      Ext2.ext2_counts_free (some data) w = Ext2.zeroBitsBelow data w)
    ∧ (∀ n : Nat,
      Ext2.ext2_counts_free (some (List.replicate n 240)) n = 4 * n) := by
  constructor
  · intro data w hb _
    show ((data.take w).map Ext2.nibbleFree).sum = Ext2.zeroBitsBelow data w
    exact Ext2.sum_nibbleFree_eq (data.take w)
      (fun b h => hb b (List.mem_of_mem_take h))
  · intro n
    show ((List.take n (List.replicate n 240)).map Ext2.nibbleFree).sum = 4 * n
    rw [List.take_of_length_le (by simp)]
    induction n with
    | zero => rfl
    | succ k ih =>
        rw [List.replicate_succ, List.map_cons, List.sum_cons, ih,
          Ext2.nibbleFree_240]
        ring

/-- Witness for C9 at a concrete bitmap: `[0xF0, 0x0F]` with width 2 has
8 zero bits counted by both sides, and the all-`0xF0` instance at `n = 3`
yields 12. -/
theorem C9_count_free_witness :
    Ext2.ext2_counts_free (some [240, 15]) 2 = Ext2.zeroBitsBelow [240, 15] 2
    ∧ Ext2.ext2_counts_free (some (List.replicate 3 240)) 3 = 4 * 3 :=
  ⟨C9_count_free.1 [240, 15] 2 (by decide) (by decide), C9_count_free.2 3⟩

namespace Ext2

/-- Modelled from the spec: `EXT2_NDIR_BLOCKS` — the ext2 header defining it
is not under `src/`; spec §3 fixes "Up to 15 block pointers (12 direct,
1 single-indirect, 1 double-indirect, 1 triple-indirect)". -/
def EXT2_NDIR_BLOCKS : Nat := 12

/-- Modelled from the spec: index of the single-indirect pointer slot. -/
def EXT2_IND_BLOCK : Nat := 12

/-- Modelled from the spec: index of the double-indirect pointer slot. -/
def EXT2_DIND_BLOCK : Nat := 13

/-- Modelled from the spec: index of the triple-indirect pointer slot. -/
def EXT2_TIND_BLOCK : Nat := 14

/-- Which branch of the `ext2_inode` block-resolution chain (ext2.c lines
2049-2270) produced the final block number handed to `load_block`. -/
inductive BlockPath where
  | direct
  | ind
  | dind
  | tind
  | fall
deriving DecidableEq, Repr

/-- The block-resolution chain of `ext2_inode` (ext2.c lines 2049-2270).
`apb` is `addr_per_block`; `i_data` is the inode's 15-slot block-pointer
array `u.ext2_i.i_data`; `disk b k` is the `k`-th pointer word of disk block
`b` (`bread` then indexing `b_data` as `unsigned long *`, the buffer being
released right after the word is extracted).  The C code repeatedly
executes `block -= ...`; every subtraction is guarded by the preceding
comparison, so `Nat` subtraction is exact here.  Note two faithful
renderings of the source as written: the triple-indirect branch tests
`(block -= addr_per_block * addr_per_block) > 0` (so a remainder of `0`
skips the walk and falls through, tag `.fall`), and its first fetch is
`bread(inode->i_dev, EXT2_TIND_BLOCK, ...)` — the literal constant 14, not
`i_data[EXT2_TIND_BLOCK]`. -/
def ext2_block_path (apb : Nat) (i_data : Nat → Nat) (disk : Nat → Nat → Nat)
    (block : Nat) : BlockPath × Nat :=
  if block < EXT2_NDIR_BLOCKS then
    (.direct, i_data block)
  else if block - EXT2_NDIR_BLOCKS < apb then
    (.ind, disk (i_data EXT2_IND_BLOCK) (block - EXT2_NDIR_BLOCKS))
  else if block - EXT2_NDIR_BLOCKS - apb < apb * apb then
    (.dind, disk (disk (i_data EXT2_DIND_BLOCK)
        ((block - EXT2_NDIR_BLOCKS - apb) / apb))
      ((block - EXT2_NDIR_BLOCKS - apb) % apb))
  else if block - EXT2_NDIR_BLOCKS - apb - apb * apb > 0 then
    (.tind, disk (disk (disk EXT2_TIND_BLOCK
          ((block - EXT2_NDIR_BLOCKS - apb - apb * apb) / (apb * apb)))
        ((block - EXT2_NDIR_BLOCKS - apb - apb * apb) / apb % apb))
      ((block - EXT2_NDIR_BLOCKS - apb - apb * apb) % apb))
  else
    (.fall, block - EXT2_NDIR_BLOCKS - apb - apb * apb)

/-- The triple-indirect lookup as the specification words it ("treat the
remainder as an index into the triple-indirect structure (three lookup
levels)", starting from the inode's triple-indirect pointer slot): given
the remainder `rem` past the double-indirect range, fetch the block stored
in `i_data[14]`, then index through a double-indirect and an indirect
level. -/
def resolve_tind_spec (apb : Nat) (i_data : Nat → Nat)
    (disk : Nat → Nat → Nat) (rem : Nat) : Nat :=
  disk (disk (disk (i_data EXT2_TIND_BLOCK) (rem / (apb * apb)))
    (rem / apb % apb)) (rem % apb)

/-- Sample block-pointer array for exercising the resolver: slot 14 (the
triple-indirect pointer) holds block 900. -/
def sampData : Nat → Nat := fun i => 100 + i

/-- Sample pointer-word oracle: word `k` of block `b` is `3000 + 7 * b + k`,
chosen so that distinct fetch chains give distinct results. -/
def sampDisk : Nat → Nat → Nat := fun b k => 3000 + 7 * b + k

end Ext2

/-- C3: the claim says the triple-indirect range is resolved by a
three-level lookup starting from the block number stored in the inode's
triple-indirect pointer slot (`i_data[14]`), and that in particular the
first block of the range (remainder 0) goes through these three levels.
The code does neither: at remainder 0 (logical block 12 + 256 + 256² =
65804 for `addr_per_block = 256`) the test `(block -= addr_per_block *
addr_per_block) > 0` fails and the chain falls through with block number 0
(no lookup at all), and for remainder ≥ 1 the first fetch reads literal
disk block `EXT2_TIND_BLOCK` = 14, not `i_data[14]`.  This theorem
evaluates the embedded code at these failing inputs and contrasts it with
the spec-worded three-level resolution. -/
theorem C3_triple_indirect_code_bug :
    Ext2.ext2_block_path 256 Ext2.sampData Ext2.sampDisk 65804
      = (Ext2.BlockPath.fall, 0)
    ∧ Ext2.resolve_tind_spec 256 Ext2.sampData Ext2.sampDisk 0 ≠ 0
    ∧ (Ext2.ext2_block_path 256 Ext2.sampData Ext2.sampDisk 65805).1
      = Ext2.BlockPath.tind
    ∧ (Ext2.ext2_block_path 256 Ext2.sampData Ext2.sampDisk 65805).2
      ≠ Ext2.resolve_tind_spec 256 Ext2.sampData Ext2.sampDisk 1 := by
  refine ⟨by decide, by decide, by decide, by decide⟩

/-- C5: block-resolution boundaries for `addr_per_block = 256`: logical
block 11 resolves through direct pointer slot 11; block 12 through the
single-indirect block (`i_data[12]`) at offset 0; block 267 at offset 255;
block 268 through the double-indirect block (`i_data[13]`) with
indirect-index 0 and offset 0; block 65803 takes the double-indirect path,
and no block index above 65803 does. -/
theorem C5_resolution_boundaries :
    ∀ (i_data : Nat → Nat) (disk : Nat → Nat → Nat),
      Ext2.ext2_block_path 256 i_data disk 11 = (.direct, i_data 11)
      ∧ Ext2.ext2_block_path 256 i_data disk 12 = (.ind, disk (i_data 12) 0)
      ∧ Ext2.ext2_block_path 256 i_data disk 267 = (.ind, disk (i_data 12) 255)
      ∧ Ext2.ext2_block_path 256 i_data disk 268
        = (.dind, disk (disk (i_data 13) 0) 0)
      ∧ (Ext2.ext2_block_path 256 i_data disk 65803).1 = .dind
      ∧ ∀ b, 65803 < b → (Ext2.ext2_block_path 256 i_data disk b).1 ≠ .dind := by
  intro i_data disk
  refine ⟨?_, ?_, ?_, ?_, ?_, ?_⟩
  · simp [Ext2.ext2_block_path, Ext2.EXT2_NDIR_BLOCKS]
  · simp [Ext2.ext2_block_path, Ext2.EXT2_NDIR_BLOCKS, Ext2.EXT2_IND_BLOCK]
  · simp [Ext2.ext2_block_path, Ext2.EXT2_NDIR_BLOCKS, Ext2.EXT2_IND_BLOCK]
  · simp [Ext2.ext2_block_path, Ext2.EXT2_NDIR_BLOCKS, Ext2.EXT2_DIND_BLOCK]
  · simp [Ext2.ext2_block_path, Ext2.EXT2_NDIR_BLOCKS]
  · intro b hb
    unfold Ext2.ext2_block_path
    rw [if_neg (by simp only [Ext2.EXT2_NDIR_BLOCKS]; omega),
      if_neg (by simp only [Ext2.EXT2_NDIR_BLOCKS]; omega),
      if_neg (by simp only [Ext2.EXT2_NDIR_BLOCKS]; omega)]
    split <;> simp

/-- Witness for C5 at the concrete sample pointer array and disk oracle,
instantiating the bound-quantified part at block 70000. -/
theorem C5_resolution_boundaries_witness :
    Ext2.ext2_block_path 256 Ext2.sampData Ext2.sampDisk 11
      = (Ext2.BlockPath.direct, Ext2.sampData 11)
    ∧ (Ext2.ext2_block_path 256 Ext2.sampData Ext2.sampDisk 70000).1
      ≠ Ext2.BlockPath.dind :=
  ⟨(C5_resolution_boundaries Ext2.sampData Ext2.sampDisk).1,
    (C5_resolution_boundaries Ext2.sampData Ext2.sampDisk).2.2.2.2.2 70000
      (by omega)⟩

namespace Ext2

/-- Modelled from the spec: `EXT2_MAX_GROUP_LOADED`, the bitmap cache's
capacity — the ext2 header defining it is not under `src/`; spec §3 gives
"at most N (fixed small constant) resident simultaneously" (8 in the
reference layout). -/
def EXT2_MAX_GROUP_LOADED : Nat := 8

/-- Point update of a `Nat`-indexed array model. -/
def upd {α : Type} (f : Nat → α) (i : Nat) (v : α) : Nat → α :=
  fun j => if j = i then v else f j

/-- The move-to-front copy loop `for (j = i; j > 0; j--) a[j] = a[j-1];`:
every read is of the original array (the loop runs top-down, sources are
below the already-written range). -/
def shiftDown {α : Type} (f : Nat → α) (i : Nat) : Nat → α :=
  fun j => if 1 ≤ j ∧ j ≤ i then f (j - 1) else f j

/-- `struct ext2_group_desc` — the fields read by the routines in scope. -/
structure GroupDesc where
  bg_block_bitmap : Nat
  bg_inode_bitmap : Nat
  bg_inode_table : Nat
  bg_free_blocks_count : Nat
  bg_free_inodes_count : Nat
deriving DecidableEq, Repr

/-- The on-disk `struct ext2_super_block` fields reached through `s_es`. -/
structure Ext2Es where
  s_free_blocks_count : Nat
  s_free_inodes_count : Nat
  s_first_data_block : Nat
deriving DecidableEq, Repr

/-- The in-core super block (`struct super_block` with its `u.ext2_sb`
union member) restricted to the fields the embedded routines touch.  The
`EXT2_DESC_PER_BLOCK` / `EXT2_BLOCKS_PER_GROUP` / `EXT2_INODES_PER_GROUP`
macros read `u.ext2_sb` fields, modelled directly as fields.  A
`s_group_desc` buffer is viewed through its cast
`(struct ext2_group_desc *)bh->b_data` as a descriptor array.  `bdisk b`
is the payload `bread(sb->s_dev, b, sb->s_blocksize)` returns (the buffer
cache is an external total oracle).  `msgs` records `printk` output and
`released` records the buffers passed to `brelse` by cache eviction, so
that diagnostic-only behaviour and eviction are observable. -/
structure Ext2Sb where
  s_lock : Bool
  s_blocksize : Nat
  s_groups_count : Nat
  s_desc_per_block : Nat
  s_itb_per_group : Nat
  s_inodes_per_group : Nat
  s_blocks_per_group : Nat
  s_es : Ext2Es
  s_group_desc : Nat → Option (Nat → GroupDesc)
  s_block_bitmap_number : Nat → Nat
  s_block_bitmap : Nat → Option Buf
  s_loaded_block_bitmaps : Nat
  s_inode_bitmap_number : Nat → Nat
  s_inode_bitmap : Nat → Option Buf
  s_loaded_inode_bitmaps : Nat
  bdisk : Nat → Buf
  msgs : List String
  released : List (Option Buf)

/-- `get_group_desc(sb, block_group, NULL)` (ext2.c lines 749-769): panics
past `s_groups_count` or on an unloaded descriptor block, else returns
descriptor `block_group % EXT2_DESC_PER_BLOCK` of descriptor block
`block_group / EXT2_DESC_PER_BLOCK`.  (All calls in scope pass `bh =
NULL`, so the buffer out-parameter is dropped.) -/
def get_group_desc (sb : Ext2Sb) (block_group : Nat) : Res GroupDesc :=
  if block_group ≥ sb.s_groups_count then
    Res.panic ("get_group_desc: block_group > groups_count")
  else
    match sb.s_group_desc (block_group / sb.s_desc_per_block) with
    | none => Res.panic ("Group descriptor not loaded")
    | some arr => Res.ok (arr (block_group % sb.s_desc_per_block))

/-- `read_block_bitmap(sb, block_group, bitmap_nr)` (ext2.c lines 783-795):
fetch the group's descriptor, `bread` its `bg_block_bitmap` block and
install it in cache slot `bitmap_nr`.  (`bread` is a total oracle here, so
the NULL-buffer `printk` branch is never taken.) -/
def read_block_bitmap (sb : Ext2Sb) (block_group bitmap_nr : Nat) :
    Res Ext2Sb :=
  (get_group_desc sb block_group).bind fun gdp =>
    Res.ok { sb with
      s_block_bitmap_number := upd sb.s_block_bitmap_number bitmap_nr block_group,
      s_block_bitmap :=
        upd sb.s_block_bitmap bitmap_nr (some (sb.bdisk gdp.bg_block_bitmap)) }

/-- `read_inode_bitmap(sb, block_group, bitmap_nr)` (ext2.c lines
1064-1076); the NULL-buffer branch panics, never taken under the total
`bread` oracle. -/
def read_inode_bitmap (sb : Ext2Sb) (block_group bitmap_nr : Nat) :
    Res Ext2Sb :=
  (get_group_desc sb block_group).bind fun gdp =>
    Res.ok { sb with
      s_inode_bitmap_number := upd sb.s_inode_bitmap_number bitmap_nr block_group,
      s_inode_bitmap :=
        upd sb.s_inode_bitmap bitmap_nr (some (sb.bdisk gdp.bg_inode_bitmap)) }

/-- The linear cache scan
`for (i = 0; i < loaded && number[i] != g; i++);`
starting from index `k`: first index `≥ k` below `loaded` holding `g`,
else `loaded`. -/
def lruScan (number : Nat → Nat) (loaded g k : Nat) : Nat :=
  if k < loaded then
    if number k = g then k else lruScan number loaded g (k + 1)
  else k
termination_by loaded - k

/-- Move-to-front on a hit at index `i` of the block-bitmap cache: the
`for (j = i; j > 0; j--)` copy loop followed by the writes of the saved
entry to index 0 (ext2.c lines 837-846). -/
def lruHitB (sb : Ext2Sb) (i : Nat) : Ext2Sb :=
  { sb with
    s_block_bitmap_number :=
      upd (shiftDown sb.s_block_bitmap_number i) 0 (sb.s_block_bitmap_number i),
    s_block_bitmap :=
      upd (shiftDown sb.s_block_bitmap i) 0 (sb.s_block_bitmap i) }

/-- Miss bookkeeping of the block-bitmap cache (ext2.c lines 848-851): grow
the resident count while below capacity, else `brelse` the tail buffer
(recorded in the `released` log). -/
def lruGrowB (sb : Ext2Sb) : Ext2Sb :=
  if sb.s_loaded_block_bitmaps < EXT2_MAX_GROUP_LOADED then
    { sb with s_loaded_block_bitmaps := sb.s_loaded_block_bitmaps + 1 }
  else
    { sb with released :=
        sb.s_block_bitmap (EXT2_MAX_GROUP_LOADED - 1) :: sb.released }

/-- The miss-path shift loop of the block-bitmap cache
(`for (j = s_loaded_block_bitmaps - 1; j > 0; j--)`, ext2.c lines 852-857). -/
def lruShiftB (sb : Ext2Sb) : Ext2Sb :=
  { sb with
    s_block_bitmap_number :=
      shiftDown sb.s_block_bitmap_number (sb.s_loaded_block_bitmaps - 1),
    s_block_bitmap :=
      shiftDown sb.s_block_bitmap (sb.s_loaded_block_bitmaps - 1) }

/-- The LRU tail of `load__block_bitmap` (ext2.c lines 831-860): scan for
the group; on hit move it to the front, on miss grow/evict, shift, and read
the bitmap into slot 0. -/
def lruLoadB (sb : Ext2Sb) (block_group : Nat) : Res (Ext2Sb × Nat) :=
  if lruScan sb.s_block_bitmap_number sb.s_loaded_block_bitmaps block_group 0
        < sb.s_loaded_block_bitmaps ∧
      sb.s_block_bitmap_number
        (lruScan sb.s_block_bitmap_number sb.s_loaded_block_bitmaps
          block_group 0) = block_group then
    Res.ok (lruHitB sb
      (lruScan sb.s_block_bitmap_number sb.s_loaded_block_bitmaps
        block_group 0), 0)
  else
    (read_block_bitmap (lruShiftB (lruGrowB sb)) block_group 0).bind fun sb3 =>
      Res.ok (sb3, 0)

/-- Move-to-front on a hit in the inode-bitmap cache (ext2.c lines
1118-1129). -/
def lruHitI (sb : Ext2Sb) (i : Nat) : Ext2Sb :=
  { sb with
    s_inode_bitmap_number :=
      upd (shiftDown sb.s_inode_bitmap_number i) 0 (sb.s_inode_bitmap_number i),
    s_inode_bitmap :=
      upd (shiftDown sb.s_inode_bitmap i) 0 (sb.s_inode_bitmap i) }

/-- Miss bookkeeping of the inode-bitmap cache (ext2.c lines 1131-1134). -/
def lruGrowI (sb : Ext2Sb) : Ext2Sb :=
  if sb.s_loaded_inode_bitmaps < EXT2_MAX_GROUP_LOADED then
    { sb with s_loaded_inode_bitmaps := sb.s_loaded_inode_bitmaps + 1 }
  else
    { sb with released :=
        sb.s_inode_bitmap (EXT2_MAX_GROUP_LOADED - 1) :: sb.released }

/-- The miss-path shift loop of the inode-bitmap cache (ext2.c lines
1135-1140). -/
def lruShiftI (sb : Ext2Sb) : Ext2Sb :=
  { sb with
    s_inode_bitmap_number :=
      shiftDown sb.s_inode_bitmap_number (sb.s_loaded_inode_bitmaps - 1),
    s_inode_bitmap :=
      shiftDown sb.s_inode_bitmap (sb.s_loaded_inode_bitmaps - 1) }

/-- The LRU tail of `load_inode_bitmap` (ext2.c lines 1114-1142). -/
def lruLoadI (sb : Ext2Sb) (block_group : Nat) : Res (Ext2Sb × Nat) :=
  if lruScan sb.s_inode_bitmap_number sb.s_loaded_inode_bitmaps block_group 0
        < sb.s_loaded_inode_bitmaps ∧
      sb.s_inode_bitmap_number
        (lruScan sb.s_inode_bitmap_number sb.s_loaded_inode_bitmaps
          block_group 0) = block_group then
    Res.ok (lruHitI sb
      (lruScan sb.s_inode_bitmap_number sb.s_loaded_inode_bitmaps
        block_group 0), 0)
  else
    (read_inode_bitmap (lruShiftI (lruGrowI sb)) block_group 0).bind fun sb3 =>
      Res.ok (sb3, 0)

/-- `load__block_bitmap(sb, block_group)` (ext2.c lines 809-861): the slow
path of the block-bitmap cache.  Direct-mapped when the file system has at
most `EXT2_MAX_GROUP_LOADED` groups; otherwise an LRU move-to-front list:
on hit the entry is shifted to index 0, on miss the tail entry is released
(when the cache is full) or the cache grows, entries shift down one, and
the bitmap is read into index 0. -/
def load__block_bitmap (sb : Ext2Sb) (block_group : Nat) :
    Res (Ext2Sb × Nat) :=
  if block_group ≥ sb.s_groups_count then
    Res.panic ("block_group >= groups_count")
  else if sb.s_groups_count ≤ EXT2_MAX_GROUP_LOADED then
    match sb.s_block_bitmap block_group with
    | some _ =>
      if sb.s_block_bitmap_number block_group ≠ block_group then
        Res.panic ("block_group != block_bitmap_number")
      else
        Res.ok (sb, block_group)
    | none =>
      (read_block_bitmap sb block_group block_group).bind fun sb1 =>
        Res.ok (sb1, block_group)
  else
    lruLoadB sb block_group

/-- `load_block_bitmap(sb, block_group)` (ext2.c lines 863-876): fast-path
wrapper — front hit returns 0 immediately; a valid direct-mapped slot
returns `block_group`; otherwise fall through to `load__block_bitmap`. -/
def load_block_bitmap (sb : Ext2Sb) (block_group : Nat) :
    Res (Ext2Sb × Nat) :=
  if sb.s_loaded_block_bitmaps > 0 ∧
      sb.s_block_bitmap_number 0 = block_group then
    Res.ok (sb, 0)
  else if sb.s_groups_count ≤ EXT2_MAX_GROUP_LOADED ∧
      sb.s_block_bitmap_number block_group = block_group ∧
      (sb.s_block_bitmap block_group).isSome then
    Res.ok (sb, block_group)
  else
    load__block_bitmap sb block_group

/-- Body of `load_inode_bitmap` after its out-of-range `printk` (ext2.c
lines 1098-1143): front-hit check, direct-mapped path for small file
systems, else the LRU tail. -/
def load_inode_bitmap_body (sb : Ext2Sb) (block_group : Nat) :
    Res (Ext2Sb × Nat) :=
  if sb.s_loaded_inode_bitmaps > 0 ∧
      sb.s_inode_bitmap_number 0 = block_group then
    Res.ok (sb, 0)
  else if sb.s_groups_count ≤ EXT2_MAX_GROUP_LOADED then
    match sb.s_inode_bitmap block_group with
    | some _ =>
      if sb.s_inode_bitmap_number block_group ≠ block_group then
        Res.panic ("block_group != inode_bitmap_number")
      else
        Res.ok (sb, block_group)
    | none =>
      (read_inode_bitmap sb block_group block_group).bind fun sb1 =>
        Res.ok (sb1, block_group)
  else
    lruLoadI sb block_group

/-- `load_inode_bitmap(sb, block_group)` (ext2.c lines 1089-1144): the
inode-bitmap cache.  Same structure as the block side, except that the
out-of-range check only `printk`s (and continues), and the front-hit check
is inlined at the top. -/
def load_inode_bitmap (sb : Ext2Sb) (block_group : Nat) :
    Res (Ext2Sb × Nat) :=
  load_inode_bitmap_body
    (if block_group ≥ sb.s_groups_count then
      { sb with msgs := ("block_group >= groups_count") :: sb.msgs }
    else sb) block_group

end Ext2

namespace Ext2

theorem lruScan_first (number : Nat → Nat) (loaded g : Nat) :
    ∀ (d k i : Nat), i - k = d → k ≤ i → i < loaded → number i = g →
      (∀ j, k ≤ j → j < i → number j ≠ g) →
      lruScan number loaded g k = i := by
  intro d
  induction d with
  | zero =>
      intro k i hd hk hi hg _
      have hki : k = i := by omega
      subst hki
      rw [lruScan]
      simp [hi, hg]
  | succ n ih =>
      intro k i hd hk hi hg hmin
      have hklt : k < i := by omega
      have hkl : k < loaded := by omega
      have hne : number k ≠ g := hmin k le_rfl hklt
      rw [lruScan]
      simp only [hkl, if_true, hne, if_false, if_pos, if_neg]
      exact ih (k + 1) i (by omega) (by omega) hi hg
        (fun j hj1 hj2 => hmin j (by omega) hj2)

theorem lruScan_miss (number : Nat → Nat) (loaded g : Nat) :
    ∀ (d k : Nat), loaded - k = d → k ≤ loaded →
      (∀ j, k ≤ j → j < loaded → number j ≠ g) →
      lruScan number loaded g k = loaded := by
  intro d
  induction d with
  | zero =>
      intro k hd hk _
      have : k = loaded := by omega
      subst this
      rw [lruScan]
      simp
  | succ n ih =>
      intro k hd hk hmin
      have hkl : k < loaded := by omega
      have hne : number k ≠ g := hmin k le_rfl hkl
      rw [lruScan]
      simp only [hkl, if_true, hne, if_false, if_pos, if_neg]
      exact ih (k + 1) (by omega) (by omega)
        (fun j hj1 hj2 => hmin j (by omega) hj2)

/-- All metadata fields (geometry, superblock record, descriptors, disk
oracle) coincide: what a diagnostic-only routine must preserve besides the
caches. -/
def MetaEq (sb sb' : Ext2Sb) : Prop :=
  sb'.s_blocksize = sb.s_blocksize ∧
  sb'.s_groups_count = sb.s_groups_count ∧
  sb'.s_desc_per_block = sb.s_desc_per_block ∧
  sb'.s_itb_per_group = sb.s_itb_per_group ∧
  sb'.s_inodes_per_group = sb.s_inodes_per_group ∧
  sb'.s_blocks_per_group = sb.s_blocks_per_group ∧
  sb'.s_es = sb.s_es ∧
  sb'.s_group_desc = sb.s_group_desc ∧
  sb'.bdisk = sb.bdisk

/-- The inode-bitmap cache is untouched. -/
def ICacheEq (sb sb' : Ext2Sb) : Prop :=
  sb'.s_inode_bitmap_number = sb.s_inode_bitmap_number ∧
  sb'.s_inode_bitmap = sb.s_inode_bitmap ∧
  sb'.s_loaded_inode_bitmaps = sb.s_loaded_inode_bitmaps

/-- The block-bitmap cache is untouched. -/
def BCacheEq (sb sb' : Ext2Sb) : Prop :=
  sb'.s_block_bitmap_number = sb.s_block_bitmap_number ∧
  sb'.s_block_bitmap = sb.s_block_bitmap ∧
  sb'.s_loaded_block_bitmaps = sb.s_loaded_block_bitmaps

theorem MetaEq_refl (sb : Ext2Sb) : MetaEq sb sb :=
  ⟨rfl, rfl, rfl, rfl, rfl, rfl, rfl, rfl, rfl⟩

theorem MetaEq_trans {a b c : Ext2Sb} (h1 : MetaEq a b) (h2 : MetaEq b c) :
    MetaEq a c := by
  obtain ⟨x1, x2, x3, x4, x5, x6, x7, x8, x9⟩ := h1
  obtain ⟨y1, y2, y3, y4, y5, y6, y7, y8, y9⟩ := h2
  exact ⟨y1.trans x1, y2.trans x2, y3.trans x3, y4.trans x4, y5.trans x5,
    y6.trans x6, y7.trans x7, y8.trans x8, y9.trans x9⟩

theorem ICacheEq_refl (sb : Ext2Sb) : ICacheEq sb sb := ⟨rfl, rfl, rfl⟩

theorem ICacheEq_trans {a b c : Ext2Sb} (h1 : ICacheEq a b)
    (h2 : ICacheEq b c) : ICacheEq a c :=
  ⟨h2.1.trans h1.1, h2.2.1.trans h1.2.1, h2.2.2.trans h1.2.2⟩

theorem BCacheEq_refl (sb : Ext2Sb) : BCacheEq sb sb := ⟨rfl, rfl, rfl⟩

theorem BCacheEq_trans {a b c : Ext2Sb} (h1 : BCacheEq a b)
    (h2 : BCacheEq b c) : BCacheEq a c :=
  ⟨h2.1.trans h1.1, h2.2.1.trans h1.2.1, h2.2.2.trans h1.2.2⟩

theorem read_block_bitmap_ok {sb : Ext2Sb} {g nr : Nat} {sb1 : Ext2Sb}
    (h : read_block_bitmap sb g nr = .ok sb1) :
    ∃ gdp, get_group_desc sb g = .ok gdp ∧
      sb1 = { sb with
        s_block_bitmap_number := upd sb.s_block_bitmap_number nr g,
        s_block_bitmap :=
          upd sb.s_block_bitmap nr (some (sb.bdisk gdp.bg_block_bitmap)) } := by
  unfold read_block_bitmap at h
  cases hg : get_group_desc sb g with
  | ok gdp =>
      rw [hg] at h
      simp only [Res.bind_ok, Res.ok.injEq] at h
      exact ⟨gdp, rfl, h.symm⟩
  | panic m => rw [hg] at h; simp [Res.bind] at h
  | stuck => rw [hg] at h; simp [Res.bind] at h

theorem read_inode_bitmap_ok {sb : Ext2Sb} {g nr : Nat} {sb1 : Ext2Sb}
    (h : read_inode_bitmap sb g nr = .ok sb1) :
    ∃ gdp, get_group_desc sb g = .ok gdp ∧
      sb1 = { sb with
        s_inode_bitmap_number := upd sb.s_inode_bitmap_number nr g,
        s_inode_bitmap :=
          upd sb.s_inode_bitmap nr (some (sb.bdisk gdp.bg_inode_bitmap)) } := by
  unfold read_inode_bitmap at h
  cases hg : get_group_desc sb g with
  | ok gdp =>
      rw [hg] at h
      simp only [Res.bind_ok, Res.ok.injEq] at h
      exact ⟨gdp, rfl, h.symm⟩
  | panic m => rw [hg] at h; simp [Res.bind] at h
  | stuck => rw [hg] at h; simp [Res.bind] at h

end Ext2

namespace Ext2

theorem lruGrowB_facts (sb : Ext2Sb) :
    MetaEq sb (lruGrowB sb) ∧ ICacheEq sb (lruGrowB sb) ∧
    (lruGrowB sb).s_lock = sb.s_lock ∧ (lruGrowB sb).msgs = sb.msgs ∧
    (lruGrowB sb).s_block_bitmap_number = sb.s_block_bitmap_number ∧
    (lruGrowB sb).s_block_bitmap = sb.s_block_bitmap ∧
    ((lruGrowB sb).s_loaded_block_bitmaps = sb.s_loaded_block_bitmaps ∨
      (sb.s_loaded_block_bitmaps < EXT2_MAX_GROUP_LOADED ∧
        (lruGrowB sb).s_loaded_block_bitmaps
          = sb.s_loaded_block_bitmaps + 1)) := by
  unfold lruGrowB
  split
  · exact ⟨⟨rfl, rfl, rfl, rfl, rfl, rfl, rfl, rfl, rfl⟩, ⟨rfl, rfl, rfl⟩,
      rfl, rfl, rfl, rfl, Or.inr ⟨‹_›, rfl⟩⟩
  · exact ⟨⟨rfl, rfl, rfl, rfl, rfl, rfl, rfl, rfl, rfl⟩, ⟨rfl, rfl, rfl⟩,
      rfl, rfl, rfl, rfl, Or.inl rfl⟩

theorem lruGrowI_facts (sb : Ext2Sb) :
    MetaEq sb (lruGrowI sb) ∧ BCacheEq sb (lruGrowI sb) ∧
    (lruGrowI sb).s_lock = sb.s_lock ∧ (lruGrowI sb).msgs = sb.msgs ∧
    (lruGrowI sb).s_inode_bitmap_number = sb.s_inode_bitmap_number ∧
    (lruGrowI sb).s_inode_bitmap = sb.s_inode_bitmap ∧
    ((lruGrowI sb).s_loaded_inode_bitmaps = sb.s_loaded_inode_bitmaps ∨
      (sb.s_loaded_inode_bitmaps < EXT2_MAX_GROUP_LOADED ∧
        (lruGrowI sb).s_loaded_inode_bitmaps
          = sb.s_loaded_inode_bitmaps + 1)) := by
  unfold lruGrowI
  split
  · exact ⟨⟨rfl, rfl, rfl, rfl, rfl, rfl, rfl, rfl, rfl⟩, ⟨rfl, rfl, rfl⟩,
      rfl, rfl, rfl, rfl, Or.inr ⟨‹_›, rfl⟩⟩
  · exact ⟨⟨rfl, rfl, rfl, rfl, rfl, rfl, rfl, rfl, rfl⟩, ⟨rfl, rfl, rfl⟩,
      rfl, rfl, rfl, rfl, Or.inl rfl⟩

theorem lruLoadB_shape {sb : Ext2Sb} {g : Nat} {sb' : Ext2Sb} {r : Nat}
    (h : lruLoadB sb g = .ok (sb', r)) :
    MetaEq sb sb' ∧ ICacheEq sb sb' ∧ sb'.s_lock = sb.s_lock ∧
    sb'.msgs = sb.msgs ∧
    (sb'.s_loaded_block_bitmaps = sb.s_loaded_block_bitmaps ∨
      (sb.s_loaded_block_bitmaps < EXT2_MAX_GROUP_LOADED ∧
        sb'.s_loaded_block_bitmaps = sb.s_loaded_block_bitmaps + 1)) := by
  unfold lruLoadB at h
  split at h
  · simp only [Res.ok.injEq, Prod.mk.injEq] at h
    obtain ⟨h1, _⟩ := h
    subst h1
    exact ⟨⟨rfl, rfl, rfl, rfl, rfl, rfl, rfl, rfl, rfl⟩, ⟨rfl, rfl, rfl⟩,
      rfl, rfl, Or.inl rfl⟩
  · cases hr : read_block_bitmap (lruShiftB (lruGrowB sb)) g 0 with
    | ok sb3 =>
        rw [hr] at h
        simp only [Res.bind_ok, Res.ok.injEq, Prod.mk.injEq] at h
        obtain ⟨h1, _⟩ := h
        subst h1
        obtain ⟨gdp, _, hup⟩ := read_block_bitmap_ok hr
        subst hup
        obtain ⟨hm, hi, hk, hg, _, _, hor⟩ := lruGrowB_facts sb
        refine ⟨MetaEq_trans hm ?_, ICacheEq_trans hi ?_, hk, hg, ?_⟩
        · exact ⟨rfl, rfl, rfl, rfl, rfl, rfl, rfl, rfl, rfl⟩
        · exact ⟨rfl, rfl, rfl⟩
        · exact hor
    | panic m => rw [hr] at h; simp [Res.bind] at h
    | stuck => rw [hr] at h; simp [Res.bind] at h

theorem lruLoadI_shape {sb : Ext2Sb} {g : Nat} {sb' : Ext2Sb} {r : Nat}
    (h : lruLoadI sb g = .ok (sb', r)) :
    MetaEq sb sb' ∧ BCacheEq sb sb' ∧ sb'.s_lock = sb.s_lock ∧
    sb'.msgs = sb.msgs ∧
    (sb'.s_loaded_inode_bitmaps = sb.s_loaded_inode_bitmaps ∨
      (sb.s_loaded_inode_bitmaps < EXT2_MAX_GROUP_LOADED ∧
        sb'.s_loaded_inode_bitmaps = sb.s_loaded_inode_bitmaps + 1)) := by
  unfold lruLoadI at h
  split at h
  · simp only [Res.ok.injEq, Prod.mk.injEq] at h
    obtain ⟨h1, _⟩ := h
    subst h1
    exact ⟨⟨rfl, rfl, rfl, rfl, rfl, rfl, rfl, rfl, rfl⟩, ⟨rfl, rfl, rfl⟩,
      rfl, rfl, Or.inl rfl⟩
  · cases hr : read_inode_bitmap (lruShiftI (lruGrowI sb)) g 0 with
    | ok sb3 =>
        rw [hr] at h
        simp only [Res.bind_ok, Res.ok.injEq, Prod.mk.injEq] at h
        obtain ⟨h1, _⟩ := h
        subst h1
        obtain ⟨gdp, _, hup⟩ := read_inode_bitmap_ok hr
        subst hup
        obtain ⟨hm, hi, hk, hg, _, _, hor⟩ := lruGrowI_facts sb
        refine ⟨MetaEq_trans hm ?_, BCacheEq_trans hi ?_, hk, hg, ?_⟩
        · exact ⟨rfl, rfl, rfl, rfl, rfl, rfl, rfl, rfl, rfl⟩
        · exact ⟨rfl, rfl, rfl⟩
        · exact hor
    | panic m => rw [hr] at h; simp [Res.bind] at h
    | stuck => rw [hr] at h; simp [Res.bind] at h

end Ext2

namespace Ext2

theorem load__block_bitmap_shape {sb : Ext2Sb} {g : Nat} {sb' : Ext2Sb}
    {r : Nat} (h : load__block_bitmap sb g = .ok (sb', r)) :
    MetaEq sb sb' ∧ ICacheEq sb sb' ∧ sb'.s_lock = sb.s_lock ∧
    sb'.msgs = sb.msgs ∧
    (sb'.s_loaded_block_bitmaps = sb.s_loaded_block_bitmaps ∨
      (sb.s_loaded_block_bitmaps < EXT2_MAX_GROUP_LOADED ∧
        sb'.s_loaded_block_bitmaps = sb.s_loaded_block_bitmaps + 1)) := by
  unfold load__block_bitmap at h
  split at h
  · exact absurd h (by simp)
  · split at h
    · split at h
      · split at h
        · exact absurd h (by simp)
        · simp only [Res.ok.injEq, Prod.mk.injEq] at h
          obtain ⟨h1, _⟩ := h
          subst h1
          exact ⟨MetaEq_refl sb, ICacheEq_refl sb, rfl, rfl, Or.inl rfl⟩
      · cases hr : read_block_bitmap sb g g with
        | ok sb1 =>
            rw [hr] at h
            simp only [Res.bind_ok, Res.ok.injEq, Prod.mk.injEq] at h
            obtain ⟨h1, _⟩ := h
            subst h1
            obtain ⟨gdp, _, hup⟩ := read_block_bitmap_ok hr
            subst hup
            exact ⟨⟨rfl, rfl, rfl, rfl, rfl, rfl, rfl, rfl, rfl⟩,
              ⟨rfl, rfl, rfl⟩, rfl, rfl, Or.inl rfl⟩
        | panic m => rw [hr] at h; simp [Res.bind] at h
        | stuck => rw [hr] at h; simp [Res.bind] at h
    · exact lruLoadB_shape h

theorem load_block_bitmap_shape {sb : Ext2Sb} {g : Nat} {sb' : Ext2Sb}
    {r : Nat} (h : load_block_bitmap sb g = .ok (sb', r)) :
    MetaEq sb sb' ∧ ICacheEq sb sb' ∧ sb'.s_lock = sb.s_lock ∧
    sb'.msgs = sb.msgs ∧
    (sb'.s_loaded_block_bitmaps = sb.s_loaded_block_bitmaps ∨
      (sb.s_loaded_block_bitmaps < EXT2_MAX_GROUP_LOADED ∧
        sb'.s_loaded_block_bitmaps = sb.s_loaded_block_bitmaps + 1)) := by
  unfold load_block_bitmap at h
  split at h
  · simp only [Res.ok.injEq, Prod.mk.injEq] at h
    obtain ⟨h1, _⟩ := h
    subst h1
    exact ⟨MetaEq_refl sb, ICacheEq_refl sb, rfl, rfl, Or.inl rfl⟩
  · split at h
    · simp only [Res.ok.injEq, Prod.mk.injEq] at h
      obtain ⟨h1, _⟩ := h
      subst h1
      exact ⟨MetaEq_refl sb, ICacheEq_refl sb, rfl, rfl, Or.inl rfl⟩
    · exact load__block_bitmap_shape h

theorem load_inode_bitmap_body_shape {sb : Ext2Sb} {g : Nat} {sb' : Ext2Sb}
    {r : Nat} (h : load_inode_bitmap_body sb g = .ok (sb', r)) :
    MetaEq sb sb' ∧ BCacheEq sb sb' ∧ sb'.s_lock = sb.s_lock ∧
    sb'.msgs = sb.msgs ∧
    (sb'.s_loaded_inode_bitmaps = sb.s_loaded_inode_bitmaps ∨
      (sb.s_loaded_inode_bitmaps < EXT2_MAX_GROUP_LOADED ∧
        sb'.s_loaded_inode_bitmaps = sb.s_loaded_inode_bitmaps + 1)) := by
  unfold load_inode_bitmap_body at h
  split at h
  · simp only [Res.ok.injEq, Prod.mk.injEq] at h
    obtain ⟨h1, _⟩ := h
    subst h1
    exact ⟨MetaEq_refl sb, BCacheEq_refl sb, rfl, rfl, Or.inl rfl⟩
  · split at h
    · split at h
      · split at h
        · exact absurd h (by simp)
        · simp only [Res.ok.injEq, Prod.mk.injEq] at h
          obtain ⟨h1, _⟩ := h
          subst h1
          exact ⟨MetaEq_refl sb, BCacheEq_refl sb, rfl, rfl, Or.inl rfl⟩
      · cases hr : read_inode_bitmap sb g g with
        | ok sb1 =>
            rw [hr] at h
            simp only [Res.bind_ok, Res.ok.injEq, Prod.mk.injEq] at h
            obtain ⟨h1, _⟩ := h
            subst h1
            obtain ⟨gdp, _, hup⟩ := read_inode_bitmap_ok hr
            subst hup
            exact ⟨⟨rfl, rfl, rfl, rfl, rfl, rfl, rfl, rfl, rfl⟩,
              ⟨rfl, rfl, rfl⟩, rfl, rfl, Or.inl rfl⟩
        | panic m => rw [hr] at h; simp [Res.bind] at h
        | stuck => rw [hr] at h; simp [Res.bind] at h
    · exact lruLoadI_shape h

theorem load_inode_bitmap_shape {sb : Ext2Sb} {g : Nat} {sb' : Ext2Sb}
    {r : Nat} (h : load_inode_bitmap sb g = .ok (sb', r)) :
    MetaEq sb sb' ∧ BCacheEq sb sb' ∧ sb'.s_lock = sb.s_lock ∧
    (sb'.s_loaded_inode_bitmaps = sb.s_loaded_inode_bitmaps ∨
      (sb.s_loaded_inode_bitmaps < EXT2_MAX_GROUP_LOADED ∧
        sb'.s_loaded_inode_bitmaps = sb.s_loaded_inode_bitmaps + 1)) := by
  unfold load_inode_bitmap at h
  split at h
  · obtain ⟨hm, hb, hk, _, hor⟩ := load_inode_bitmap_body_shape h
    exact ⟨MetaEq_trans ⟨rfl, rfl, rfl, rfl, rfl, rfl, rfl, rfl, rfl⟩ hm,
      BCacheEq_trans ⟨rfl, rfl, rfl⟩ hb, hk, hor⟩
  · obtain ⟨hm, hb, hk, _, hor⟩ := load_inode_bitmap_body_shape h
    exact ⟨hm, hb, hk, hor⟩

end Ext2

namespace Ext2

theorem upd_at {α : Type} (f : Nat → α) (i : Nat) (v : α) : upd f i v i = v := by
  simp [upd]

theorem upd_ne {α : Type} (f : Nat → α) {i j : Nat} (v : α) (h : j ≠ i) :
    upd f i v j = f j := by
  simp [upd, h]

theorem shiftDown_in {α : Type} (f : Nat → α) {i j : Nat} (h1 : 1 ≤ j)
    (h2 : j ≤ i) : shiftDown f i j = f (j - 1) := by
  simp [shiftDown, h1, h2]

theorem shiftDown_out {α : Type} (f : Nat → α) {i j : Nat}
    (h : ¬(1 ≤ j ∧ j ≤ i)) : shiftDown f i j = f j := by
  simp only [shiftDown, if_neg h]

/-- A hit in the block-bitmap LRU cache (first matching index `i`): the
entry moves to index 0, entries before it shift down one, entries after it
and the resident count are untouched, and nothing is released. -/
theorem load_block_bitmap_hit {sb : Ext2Sb} {g i : Nat}
    (hG : EXT2_MAX_GROUP_LOADED < sb.s_groups_count)
    (hgl : g < sb.s_groups_count)
    (hi : i < sb.s_loaded_block_bitmaps)
    (hg : sb.s_block_bitmap_number i = g)
    (hmin : ∀ j, j < i → sb.s_block_bitmap_number j ≠ g) :
    ∃ sb', load_block_bitmap sb g = .ok (sb', 0)
      ∧ sb'.s_loaded_block_bitmaps = sb.s_loaded_block_bitmaps
      ∧ sb'.s_block_bitmap_number 0 = g
      ∧ sb'.s_block_bitmap 0 = sb.s_block_bitmap i
      ∧ (∀ j, 1 ≤ j → j ≤ i →
          sb'.s_block_bitmap_number j = sb.s_block_bitmap_number (j - 1)
          ∧ sb'.s_block_bitmap j = sb.s_block_bitmap (j - 1))
      ∧ (∀ j, i < j → sb'.s_block_bitmap_number j = sb.s_block_bitmap_number j
          ∧ sb'.s_block_bitmap j = sb.s_block_bitmap j)
      ∧ sb'.released = sb.released := by
  by_cases hi0 : i = 0
  · subst hi0
    refine ⟨sb, ?_, rfl, hg, rfl, ?_, ?_, rfl⟩
    · unfold load_block_bitmap
      rw [if_pos ⟨by omega, hg⟩]
    · intro j h1 h2; omega
    · intro j _; exact ⟨rfl, rfl⟩
  · have hscan : lruScan sb.s_block_bitmap_number sb.s_loaded_block_bitmaps
        g 0 = i :=
      lruScan_first sb.s_block_bitmap_number sb.s_loaded_block_bitmaps g i 0 i
        rfl (Nat.zero_le i) hi hg (fun j _ hj2 => hmin j hj2)
    refine ⟨lruHitB sb i, ?_, rfl, ?_, ?_, ?_, ?_, rfl⟩
    · unfold load_block_bitmap
      rw [if_neg (fun hc => hmin 0 (by omega) hc.2),
        if_neg (fun hc => absurd hc.1 (by omega))]
      unfold load__block_bitmap
      rw [if_neg (by omega), if_neg (by omega)]
      unfold lruLoadB
      rw [hscan, if_pos ⟨hi, hg⟩]
    · show upd (shiftDown sb.s_block_bitmap_number i) 0
        (sb.s_block_bitmap_number i) 0 = g
      rw [upd_at, hg]
    · show upd (shiftDown sb.s_block_bitmap i) 0 (sb.s_block_bitmap i) 0
        = sb.s_block_bitmap i
      rw [upd_at]
    · intro j h1 h2
      constructor
      · show upd (shiftDown sb.s_block_bitmap_number i) 0
          (sb.s_block_bitmap_number i) j = sb.s_block_bitmap_number (j - 1)
        rw [upd_ne _ _ (by omega), shiftDown_in _ h1 h2]
      · show upd (shiftDown sb.s_block_bitmap i) 0 (sb.s_block_bitmap i) j
          = sb.s_block_bitmap (j - 1)
        rw [upd_ne _ _ (by omega), shiftDown_in _ h1 h2]
    · intro j hj
      constructor
      · show upd (shiftDown sb.s_block_bitmap_number i) 0
          (sb.s_block_bitmap_number i) j = sb.s_block_bitmap_number j
        rw [upd_ne _ _ (by omega), shiftDown_out _ (by omega)]
      · show upd (shiftDown sb.s_block_bitmap i) 0 (sb.s_block_bitmap i) j
          = sb.s_block_bitmap j
        rw [upd_ne _ _ (by omega), shiftDown_out _ (by omega)]

end Ext2

namespace Ext2

/-- A miss in the full block-bitmap LRU cache: the tail buffer is released,
entries shift down one, the requested group's bitmap is installed at index
0, and the resident count stays at capacity. -/
theorem load_block_bitmap_miss {sb : Ext2Sb} {g : Nat}
    {arr : Nat → GroupDesc}
    (hG : EXT2_MAX_GROUP_LOADED < sb.s_groups_count)
    (hgl : g < sb.s_groups_count)
    (hfull : sb.s_loaded_block_bitmaps = EXT2_MAX_GROUP_LOADED)
    (hmiss : ∀ j, j < sb.s_loaded_block_bitmaps →
      sb.s_block_bitmap_number j ≠ g)
    (hdesc : sb.s_group_desc (g / sb.s_desc_per_block) = some arr) :
    ∃ sb', load_block_bitmap sb g = .ok (sb', 0)
      ∧ sb'.s_loaded_block_bitmaps = EXT2_MAX_GROUP_LOADED
      ∧ sb'.released
        = sb.s_block_bitmap (EXT2_MAX_GROUP_LOADED - 1) :: sb.released
      ∧ sb'.s_block_bitmap_number 0 = g
      ∧ sb'.s_block_bitmap 0
        = some (sb.bdisk (arr (g % sb.s_desc_per_block)).bg_block_bitmap)
      ∧ (∀ j, 1 ≤ j → j ≤ EXT2_MAX_GROUP_LOADED - 1 →
          sb'.s_block_bitmap_number j = sb.s_block_bitmap_number (j - 1)
          ∧ sb'.s_block_bitmap j = sb.s_block_bitmap (j - 1)) := by
  have hpos : 0 < EXT2_MAX_GROUP_LOADED := by decide
  have hscan : lruScan sb.s_block_bitmap_number sb.s_loaded_block_bitmaps
      g 0 = sb.s_loaded_block_bitmaps :=
    lruScan_miss sb.s_block_bitmap_number sb.s_loaded_block_bitmaps g
      sb.s_loaded_block_bitmaps 0 rfl (Nat.zero_le _)
      (fun j _ hj2 => hmiss j hj2)
  have hgrow : lruGrowB sb
      = { sb with released :=
            sb.s_block_bitmap (EXT2_MAX_GROUP_LOADED - 1) :: sb.released } := by
    unfold lruGrowB
    rw [if_neg (by omega)]
  refine ⟨{ sb with
      s_block_bitmap_number :=
        upd (shiftDown sb.s_block_bitmap_number
          (sb.s_loaded_block_bitmaps - 1)) 0 g,
      s_block_bitmap :=
        upd (shiftDown sb.s_block_bitmap (sb.s_loaded_block_bitmaps - 1)) 0
          (some (sb.bdisk (arr (g % sb.s_desc_per_block)).bg_block_bitmap)),
      released :=
        sb.s_block_bitmap (EXT2_MAX_GROUP_LOADED - 1) :: sb.released },
    ?_, hfull, rfl, ?_, ?_, ?_⟩
  · unfold load_block_bitmap
    rw [if_neg (fun hc => hmiss 0 (by omega) hc.2),
      if_neg (fun hc => absurd hc.1 (by omega))]
    unfold load__block_bitmap
    rw [if_neg (by omega), if_neg (by omega)]
    unfold lruLoadB
    rw [hscan, if_neg (by omega)]
    rw [hgrow]
    unfold lruShiftB read_block_bitmap get_group_desc
    dsimp only
    rw [if_neg (by omega), hdesc]
    rfl
  · show upd (shiftDown sb.s_block_bitmap_number
      (sb.s_loaded_block_bitmaps - 1)) 0 g 0 = g
    rw [upd_at]
  · show upd (shiftDown sb.s_block_bitmap (sb.s_loaded_block_bitmaps - 1)) 0
      (some (sb.bdisk (arr (g % sb.s_desc_per_block)).bg_block_bitmap)) 0
      = some (sb.bdisk (arr (g % sb.s_desc_per_block)).bg_block_bitmap)
    rw [upd_at]
  · intro j h1 h2
    constructor
    · show upd (shiftDown sb.s_block_bitmap_number
        (sb.s_loaded_block_bitmaps - 1)) 0 g j
        = sb.s_block_bitmap_number (j - 1)
      rw [upd_ne _ _ (by omega), shiftDown_in _ h1 (by omega)]
    · show upd (shiftDown sb.s_block_bitmap (sb.s_loaded_block_bitmaps - 1))
        0 (some (sb.bdisk (arr (g % sb.s_desc_per_block)).bg_block_bitmap)) j
        = sb.s_block_bitmap (j - 1)
      rw [upd_ne _ _ (by omega), shiftDown_in _ h1 (by omega)]

end Ext2

namespace Ext2

/-- A hit in the inode-bitmap LRU cache: dual of
`load_block_bitmap_hit`. -/
theorem load_inode_bitmap_hit {sb : Ext2Sb} {g i : Nat}
    (hG : EXT2_MAX_GROUP_LOADED < sb.s_groups_count)
    (hgl : g < sb.s_groups_count)
    (hi : i < sb.s_loaded_inode_bitmaps)
    (hg : sb.s_inode_bitmap_number i = g)
    (hmin : ∀ j, j < i → sb.s_inode_bitmap_number j ≠ g) :
    ∃ sb', load_inode_bitmap sb g = .ok (sb', 0)
      ∧ sb'.s_loaded_inode_bitmaps = sb.s_loaded_inode_bitmaps
      ∧ sb'.s_inode_bitmap_number 0 = g
      ∧ sb'.s_inode_bitmap 0 = sb.s_inode_bitmap i
      ∧ (∀ j, 1 ≤ j → j ≤ i →
          sb'.s_inode_bitmap_number j = sb.s_inode_bitmap_number (j - 1)
          ∧ sb'.s_inode_bitmap j = sb.s_inode_bitmap (j - 1))
      ∧ (∀ j, i < j → sb'.s_inode_bitmap_number j = sb.s_inode_bitmap_number j
          ∧ sb'.s_inode_bitmap j = sb.s_inode_bitmap j)
      ∧ sb'.released = sb.released := by
  have hpre : load_inode_bitmap sb g = load_inode_bitmap_body sb g := by
    unfold load_inode_bitmap
    rw [if_neg (by omega)]
  by_cases hi0 : i = 0
  · subst hi0
    refine ⟨sb, ?_, rfl, hg, rfl, ?_, ?_, rfl⟩
    · rw [hpre]
      unfold load_inode_bitmap_body
      rw [if_pos ⟨by omega, hg⟩]
    · intro j h1 h2; omega
    · intro j _; exact ⟨rfl, rfl⟩
  · have hscan : lruScan sb.s_inode_bitmap_number sb.s_loaded_inode_bitmaps
        g 0 = i :=
      lruScan_first sb.s_inode_bitmap_number sb.s_loaded_inode_bitmaps g i 0 i
        rfl (Nat.zero_le i) hi hg (fun j _ hj2 => hmin j hj2)
    refine ⟨lruHitI sb i, ?_, rfl, ?_, ?_, ?_, ?_, rfl⟩
    · rw [hpre]
      unfold load_inode_bitmap_body
      rw [if_neg (fun hc => hmin 0 (by omega) hc.2),
        if_neg (by omega)]
      unfold lruLoadI
      rw [hscan, if_pos ⟨hi, hg⟩]
    · show upd (shiftDown sb.s_inode_bitmap_number i) 0
        (sb.s_inode_bitmap_number i) 0 = g
      rw [upd_at, hg]
    · show upd (shiftDown sb.s_inode_bitmap i) 0 (sb.s_inode_bitmap i) 0
        = sb.s_inode_bitmap i
      rw [upd_at]
    · intro j h1 h2
      constructor
      · show upd (shiftDown sb.s_inode_bitmap_number i) 0
          (sb.s_inode_bitmap_number i) j = sb.s_inode_bitmap_number (j - 1)
        rw [upd_ne _ _ (by omega), shiftDown_in _ h1 h2]
      · show upd (shiftDown sb.s_inode_bitmap i) 0 (sb.s_inode_bitmap i) j
          = sb.s_inode_bitmap (j - 1)
        rw [upd_ne _ _ (by omega), shiftDown_in _ h1 h2]
    · intro j hj
      constructor
      · show upd (shiftDown sb.s_inode_bitmap_number i) 0
          (sb.s_inode_bitmap_number i) j = sb.s_inode_bitmap_number j
        rw [upd_ne _ _ (by omega), shiftDown_out _ (by omega)]
      · show upd (shiftDown sb.s_inode_bitmap i) 0 (sb.s_inode_bitmap i) j
          = sb.s_inode_bitmap j
        rw [upd_ne _ _ (by omega), shiftDown_out _ (by omega)]

/-- A miss in the full inode-bitmap LRU cache: dual of
`load_block_bitmap_miss`. -/
theorem load_inode_bitmap_miss {sb : Ext2Sb} {g : Nat}
    {arr : Nat → GroupDesc}
    (hG : EXT2_MAX_GROUP_LOADED < sb.s_groups_count)
    (hgl : g < sb.s_groups_count)
    (hfull : sb.s_loaded_inode_bitmaps = EXT2_MAX_GROUP_LOADED)
    (hmiss : ∀ j, j < sb.s_loaded_inode_bitmaps →
      sb.s_inode_bitmap_number j ≠ g)
    (hdesc : sb.s_group_desc (g / sb.s_desc_per_block) = some arr) :
    ∃ sb', load_inode_bitmap sb g = .ok (sb', 0)
      ∧ sb'.s_loaded_inode_bitmaps = EXT2_MAX_GROUP_LOADED
      ∧ sb'.released
        = sb.s_inode_bitmap (EXT2_MAX_GROUP_LOADED - 1) :: sb.released
      ∧ sb'.s_inode_bitmap_number 0 = g
      ∧ sb'.s_inode_bitmap 0
        = some (sb.bdisk (arr (g % sb.s_desc_per_block)).bg_inode_bitmap)
      ∧ (∀ j, 1 ≤ j → j ≤ EXT2_MAX_GROUP_LOADED - 1 →
          sb'.s_inode_bitmap_number j = sb.s_inode_bitmap_number (j - 1)
          ∧ sb'.s_inode_bitmap j = sb.s_inode_bitmap (j - 1)) := by
  have hpos : 0 < EXT2_MAX_GROUP_LOADED := by decide
  have hpre : load_inode_bitmap sb g = load_inode_bitmap_body sb g := by
    unfold load_inode_bitmap
    rw [if_neg (by omega)]
  have hscan : lruScan sb.s_inode_bitmap_number sb.s_loaded_inode_bitmaps
      g 0 = sb.s_loaded_inode_bitmaps :=
    lruScan_miss sb.s_inode_bitmap_number sb.s_loaded_inode_bitmaps g
      sb.s_loaded_inode_bitmaps 0 rfl (Nat.zero_le _)
      (fun j _ hj2 => hmiss j hj2)
  have hgrow : lruGrowI sb
      = { sb with released :=
            sb.s_inode_bitmap (EXT2_MAX_GROUP_LOADED - 1) :: sb.released } := by
    unfold lruGrowI
    rw [if_neg (by omega)]
  refine ⟨{ sb with
      s_inode_bitmap_number :=
        upd (shiftDown sb.s_inode_bitmap_number
          (sb.s_loaded_inode_bitmaps - 1)) 0 g,
      s_inode_bitmap :=
        upd (shiftDown sb.s_inode_bitmap (sb.s_loaded_inode_bitmaps - 1)) 0
          (some (sb.bdisk (arr (g % sb.s_desc_per_block)).bg_inode_bitmap)),
      released :=
        sb.s_inode_bitmap (EXT2_MAX_GROUP_LOADED - 1) :: sb.released },
    ?_, hfull, rfl, ?_, ?_, ?_⟩
  · rw [hpre]
    unfold load_inode_bitmap_body
    rw [if_neg (fun hc => hmiss 0 (by omega) hc.2),
      if_neg (by omega)]
    unfold lruLoadI
    rw [hscan, if_neg (by omega)]
    rw [hgrow]
    unfold lruShiftI read_inode_bitmap get_group_desc
    dsimp only
    rw [if_neg (by omega), hdesc]
    rfl
  · show upd (shiftDown sb.s_inode_bitmap_number
      (sb.s_loaded_inode_bitmaps - 1)) 0 g 0 = g
    rw [upd_at]
  · show upd (shiftDown sb.s_inode_bitmap (sb.s_loaded_inode_bitmaps - 1)) 0
      (some (sb.bdisk (arr (g % sb.s_desc_per_block)).bg_inode_bitmap)) 0
      = some (sb.bdisk (arr (g % sb.s_desc_per_block)).bg_inode_bitmap)
    rw [upd_at]
  · intro j h1 h2
    constructor
    · show upd (shiftDown sb.s_inode_bitmap_number
        (sb.s_loaded_inode_bitmaps - 1)) 0 g j
        = sb.s_inode_bitmap_number (j - 1)
      rw [upd_ne _ _ (by omega), shiftDown_in _ h1 (by omega)]
    · show upd (shiftDown sb.s_inode_bitmap (sb.s_loaded_inode_bitmaps - 1))
        0 (some (sb.bdisk (arr (g % sb.s_desc_per_block)).bg_inode_bitmap)) j
        = sb.s_inode_bitmap (j - 1)
      rw [upd_ne _ _ (by omega), shiftDown_in _ h1 (by omega)]

end Ext2

namespace Ext2

/-- A request against one of the two bitmap caches of a mounted file
system. -/
inductive BitmapReq where
  | blockReq (g : Nat)
  | inodeReq (g : Nat)
deriving Repr

/-- Thread a sequence of `load_block_bitmap` / `load_inode_bitmap` calls
through the superblock (the returned cache index is dropped). -/
def runLoads (sb : Ext2Sb) : List BitmapReq → Res Ext2Sb
  | [] => .ok sb
  | .blockReq g :: rest =>
      (load_block_bitmap sb g).bind fun p => runLoads p.1 rest
  | .inodeReq g :: rest =>
      (load_inode_bitmap sb g).bind fun p => runLoads p.1 rest

theorem runLoads_bound :
    ∀ (reqs : List BitmapReq) (sb sb' : Ext2Sb),
      runLoads sb reqs = .ok sb' →
      sb.s_loaded_block_bitmaps ≤ EXT2_MAX_GROUP_LOADED →
      sb.s_loaded_inode_bitmaps ≤ EXT2_MAX_GROUP_LOADED →
      sb'.s_loaded_block_bitmaps ≤ EXT2_MAX_GROUP_LOADED ∧
      sb'.s_loaded_inode_bitmaps ≤ EXT2_MAX_GROUP_LOADED := by
  intro reqs
  induction reqs with
  | nil =>
      intro sb sb' h hb hi
      unfold runLoads at h
      obtain h1 := Res.ok.inj h
      subst h1
      exact ⟨hb, hi⟩
  | cons req rest ih =>
      intro sb sb' h hb hi
      cases req with
      | blockReq g =>
          unfold runLoads at h
          cases hr : load_block_bitmap sb g with
          | ok p =>
              obtain ⟨sb1, r1⟩ := p
              rw [hr] at h
              simp only [Res.bind_ok] at h
              obtain ⟨_, hic, _, _, hor⟩ := load_block_bitmap_shape hr
              exact ih sb1 sb' h (by omega) (by rw [hic.2.2]; exact hi)
          | panic m => rw [hr] at h; simp [Res.bind] at h
          | stuck => rw [hr] at h; simp [Res.bind] at h
      | inodeReq g =>
          unfold runLoads at h
          cases hr : load_inode_bitmap sb g with
          | ok p =>
              obtain ⟨sb1, r1⟩ := p
              rw [hr] at h
              simp only [Res.bind_ok] at h
              obtain ⟨_, hbc, _, hor⟩ := load_inode_bitmap_shape hr
              exact ih sb1 sb' h (by rw [hbc.2.2]; exact hb) (by omega)
          | panic m => rw [hr] at h; simp [Res.bind] at h
          | stuck => rw [hr] at h; simp [Res.bind] at h

end Ext2

/-- C8: bitmap cache bound and move-to-front order when the group count
exceeds the capacity.  (1) For every sequence of `load_block_bitmap` /
`load_inode_bitmap` calls, at most `EXT2_MAX_GROUP_LOADED` bitmaps are
resident per cache.  (2)/(4) A hit at (first matching) index `i` moves the
entry to index 0, shifting the entries before it down by one and leaving
the rest and the resident count unchanged.  (3)/(5) A miss on a full cache
releases the tail entry and installs the requested group's bitmap at index
0, shifting the rest down by one. -/
theorem C8_bitmap_cache_lru :
    (∀ (reqs : List Ext2.BitmapReq) (sb sb' : Ext2.Ext2Sb),
      Ext2.runLoads sb reqs = .ok sb' →
      sb.s_loaded_block_bitmaps ≤ Ext2.EXT2_MAX_GROUP_LOADED →
      sb.s_loaded_inode_bitmaps ≤ Ext2.EXT2_MAX_GROUP_LOADED →
      sb'.s_loaded_block_bitmaps ≤ Ext2.EXT2_MAX_GROUP_LOADED ∧
      sb'.s_loaded_inode_bitmaps ≤ Ext2.EXT2_MAX_GROUP_LOADED)
    ∧ (∀ (sb : Ext2.Ext2Sb) (g i : Nat),
      Ext2.EXT2_MAX_GROUP_LOADED < sb.s_groups_count →
      g < sb.s_groups_count →
      i < sb.s_loaded_block_bitmaps →
      sb.s_block_bitmap_number i = g →
      (∀ j, j < i → sb.s_block_bitmap_number j ≠ g) →
      ∃ sb', Ext2.load_block_bitmap sb g = .ok (sb', 0)
        ∧ sb'.s_loaded_block_bitmaps = sb.s_loaded_block_bitmaps
        ∧ sb'.s_block_bitmap_number 0 = g
        ∧ sb'.s_block_bitmap 0 = sb.s_block_bitmap i
        ∧ (∀ j, 1 ≤ j → j ≤ i →
            sb'.s_block_bitmap_number j = sb.s_block_bitmap_number (j - 1)
            ∧ sb'.s_block_bitmap j = sb.s_block_bitmap (j - 1))
        ∧ (∀ j, i < j →
            sb'.s_block_bitmap_number j = sb.s_block_bitmap_number j
            ∧ sb'.s_block_bitmap j = sb.s_block_bitmap j)
        ∧ sb'.released = sb.released)
    ∧ (∀ (sb : Ext2.Ext2Sb) (g : Nat) (arr : Nat → Ext2.GroupDesc),
      Ext2.EXT2_MAX_GROUP_LOADED < sb.s_groups_count →
      g < sb.s_groups_count →
      sb.s_loaded_block_bitmaps = Ext2.EXT2_MAX_GROUP_LOADED →
      (∀ j, j < sb.s_loaded_block_bitmaps →
        sb.s_block_bitmap_number j ≠ g) →
      sb.s_group_desc (g / sb.s_desc_per_block) = some arr →
      ∃ sb', Ext2.load_block_bitmap sb g = .ok (sb', 0)
        ∧ sb'.s_loaded_block_bitmaps = Ext2.EXT2_MAX_GROUP_LOADED
        ∧ sb'.released
          = sb.s_block_bitmap (Ext2.EXT2_MAX_GROUP_LOADED - 1) :: sb.released
        ∧ sb'.s_block_bitmap_number 0 = g
        ∧ sb'.s_block_bitmap 0
          = some (sb.bdisk (arr (g % sb.s_desc_per_block)).bg_block_bitmap)
        ∧ (∀ j, 1 ≤ j → j ≤ Ext2.EXT2_MAX_GROUP_LOADED - 1 →
            sb'.s_block_bitmap_number j = sb.s_block_bitmap_number (j - 1)
            ∧ sb'.s_block_bitmap j = sb.s_block_bitmap (j - 1)))
    ∧ (∀ (sb : Ext2.Ext2Sb) (g i : Nat),
      Ext2.EXT2_MAX_GROUP_LOADED < sb.s_groups_count →
      g < sb.s_groups_count →
      i < sb.s_loaded_inode_bitmaps →
      sb.s_inode_bitmap_number i = g →
      (∀ j, j < i → sb.s_inode_bitmap_number j ≠ g) →
      ∃ sb', Ext2.load_inode_bitmap sb g = .ok (sb', 0)
        ∧ sb'.s_loaded_inode_bitmaps = sb.s_loaded_inode_bitmaps
        ∧ sb'.s_inode_bitmap_number 0 = g
        ∧ sb'.s_inode_bitmap 0 = sb.s_inode_bitmap i
        ∧ (∀ j, 1 ≤ j → j ≤ i →
            sb'.s_inode_bitmap_number j = sb.s_inode_bitmap_number (j - 1)
            ∧ sb'.s_inode_bitmap j = sb.s_inode_bitmap (j - 1))
        ∧ (∀ j, i < j →
            sb'.s_inode_bitmap_number j = sb.s_inode_bitmap_number j
            ∧ sb'.s_inode_bitmap j = sb.s_inode_bitmap j)
        ∧ sb'.released = sb.released)
    ∧ (∀ (sb : Ext2.Ext2Sb) (g : Nat) (arr : Nat → Ext2.GroupDesc),
      Ext2.EXT2_MAX_GROUP_LOADED < sb.s_groups_count →
      g < sb.s_groups_count →
      sb.s_loaded_inode_bitmaps = Ext2.EXT2_MAX_GROUP_LOADED →
      (∀ j, j < sb.s_loaded_inode_bitmaps →
        sb.s_inode_bitmap_number j ≠ g) →
      sb.s_group_desc (g / sb.s_desc_per_block) = some arr →
      ∃ sb', Ext2.load_inode_bitmap sb g = .ok (sb', 0)
        ∧ sb'.s_loaded_inode_bitmaps = Ext2.EXT2_MAX_GROUP_LOADED
        ∧ sb'.released
          = sb.s_inode_bitmap (Ext2.EXT2_MAX_GROUP_LOADED - 1) :: sb.released
        ∧ sb'.s_inode_bitmap_number 0 = g
        ∧ sb'.s_inode_bitmap 0
          = some (sb.bdisk (arr (g % sb.s_desc_per_block)).bg_inode_bitmap)
        ∧ (∀ j, 1 ≤ j → j ≤ Ext2.EXT2_MAX_GROUP_LOADED - 1 →
            sb'.s_inode_bitmap_number j = sb.s_inode_bitmap_number (j - 1)
            ∧ sb'.s_inode_bitmap j = sb.s_inode_bitmap (j - 1))) :=
  ⟨Ext2.runLoads_bound,
    fun _ _ _ h1 h2 h3 h4 h5 => Ext2.load_block_bitmap_hit h1 h2 h3 h4 h5,
    fun _ _ _ h1 h2 h3 h4 h5 => Ext2.load_block_bitmap_miss h1 h2 h3 h4 h5,
    fun _ _ _ h1 h2 h3 h4 h5 => Ext2.load_inode_bitmap_hit h1 h2 h3 h4 h5,
    fun _ _ _ h1 h2 h3 h4 h5 => Ext2.load_inode_bitmap_miss h1 h2 h3 h4 h5⟩

namespace Ext2

/-- A sample group descriptor for exercising the cache. -/
def gdW : GroupDesc :=
  { bg_block_bitmap := 3, bg_inode_bitmap := 4, bg_inode_table := 5,
    bg_free_blocks_count := 0, bg_free_inodes_count := 0 }

/-- A concrete mounted superblock with 9 block groups (more than the cache
capacity 8) and both caches full, used to exercise the LRU paths. -/
def sbW : Ext2Sb :=
  { s_lock := false
    s_blocksize := 1024
    s_groups_count := 9
    s_desc_per_block := 8
    s_itb_per_group := 3
    s_inodes_per_group := 16
    s_blocks_per_group := 8192
    s_es := { s_free_blocks_count := 0, s_free_inodes_count := 0,
              s_first_data_block := 1 }
    s_group_desc := fun _ => some (fun _ => gdW)
    s_block_bitmap_number := fun j => if j = 2 then 5 else 0
    s_block_bitmap := fun _ => some [240]
    s_loaded_block_bitmaps := 8
    s_inode_bitmap_number := fun j => if j = 1 then 7 else 0
    s_inode_bitmap := fun _ => some [15]
    s_loaded_inode_bitmaps := 8
    bdisk := fun _ => [255]
    msgs := []
    released := [] }

end Ext2

/-- Witness for C8 at the concrete superblock `sbW`: the empty request
sequence keeps the bound, a block-cache hit on group 5 (cached at index 2)
moves it to the front, a block-cache miss on group 3 evicts the tail, and
dually for the inode cache with groups 7 (hit at index 1) and 6 (miss). -/
theorem C8_bitmap_cache_lru_witness :
    (Ext2.sbW.s_loaded_block_bitmaps ≤ Ext2.EXT2_MAX_GROUP_LOADED ∧
      Ext2.sbW.s_loaded_inode_bitmaps ≤ Ext2.EXT2_MAX_GROUP_LOADED)
    ∧ (∃ sb', Ext2.load_block_bitmap Ext2.sbW 5 = .ok (sb', 0)
        ∧ sb'.s_block_bitmap_number 0 = 5)
    ∧ (∃ sb', Ext2.load_block_bitmap Ext2.sbW 3 = .ok (sb', 0)
        ∧ sb'.released = Ext2.sbW.s_block_bitmap
            (Ext2.EXT2_MAX_GROUP_LOADED - 1) :: Ext2.sbW.released
        ∧ sb'.s_block_bitmap_number 0 = 3)
    ∧ (∃ sb', Ext2.load_inode_bitmap Ext2.sbW 7 = .ok (sb', 0)
        ∧ sb'.s_inode_bitmap_number 0 = 7)
    ∧ (∃ sb', Ext2.load_inode_bitmap Ext2.sbW 6 = .ok (sb', 0)
        ∧ sb'.released = Ext2.sbW.s_inode_bitmap
            (Ext2.EXT2_MAX_GROUP_LOADED - 1) :: Ext2.sbW.released
        ∧ sb'.s_inode_bitmap_number 0 = 6) := by
  refine ⟨C8_bitmap_cache_lru.1 [] Ext2.sbW Ext2.sbW rfl (by decide)
    (by decide), ?_, ?_, ?_, ?_⟩
  · obtain ⟨sb', h1, _, h3, _⟩ := C8_bitmap_cache_lru.2.1 Ext2.sbW 5 2
      (by decide) (by decide) (by decide) (by decide) (by decide)
    exact ⟨sb', h1, h3⟩
  · obtain ⟨sb', h1, _, h3, h4, _⟩ := C8_bitmap_cache_lru.2.2.1 Ext2.sbW 3
      (fun _ => Ext2.gdW) (by decide) (by decide) (by decide) (by decide) rfl
    exact ⟨sb', h1, h3, h4⟩
  · obtain ⟨sb', h1, _, h3, _⟩ := C8_bitmap_cache_lru.2.2.2.1 Ext2.sbW 7 1
      (by decide) (by decide) (by decide) (by decide) (by decide)
    exact ⟨sb', h1, h3⟩
  · obtain ⟨sb', h1, _, h3, h4, _⟩ := C8_bitmap_cache_lru.2.2.2.2 Ext2.sbW 6
      (fun _ => Ext2.gdW) (by decide) (by decide) (by decide) (by decide) rfl
    exact ⟨sb', h1, h3, h4⟩

namespace Ext2

/-- `lock_super` (sleeps while `s_lock` is set, then takes it): in the
sequential model a held lock cannot be released by anyone else, so waiting
on it is `stuck`. -/
def lock_super (sb : Ext2Sb) : Res Ext2Sb :=
  if sb.s_lock then Res.stuck else Res.ok { sb with s_lock := true }

/-- `unlock_super`: clear the lock and wake waiters. -/
def unlock_super (sb : Ext2Sb) : Res Ext2Sb :=
  Res.ok { sb with s_lock := false }

/-- Modelled from the spec: `test_bit(nr, addr)` from the asm bitops header
(not under `src/`) — tests bit `nr` of the bitmap, i.e. bit `nr % 8` of
byte `nr / 8` (spec §GLOSSARY: "Bitmap: one bit per block/inode in a group
indicating allocation status"). -/
def test_bit (nr : Nat) (data : Buf) : Bool :=
  (data.getD (nr / 8) 0).testBit (nr % 8)

/-- `block_in_use(block, sb, map)` (ext2.c lines 878-883). -/
def block_in_use (block : Nat) (sb : Ext2Sb) (map : Buf) : Bool :=
  test_bit ((block - sb.s_es.s_first_data_block) % sb.s_blocks_per_group) map

/-- The diagnostics one iteration of the `ext2_check_block_bitmap` group
loop prints (ext2.c lines 944-966), in program order. -/
def checkBBmsgs (sb : Ext2Sb) (gdp : GroupDesc) (bh : Buf)
    (desc_blocks : Nat) : List String :=
  (if test_bit 0 bh then [] else ["Superblock in group is marked free"])
  ++ ((List.range desc_blocks).filterMap fun j =>
      if test_bit (j + 1) bh then none
      else some ("Descriptor block in group is marked free"))
  ++ (if block_in_use gdp.bg_block_bitmap sb bh then []
      else ["Block bitmap for group is marked free"])
  ++ (if block_in_use gdp.bg_inode_bitmap sb bh then []
      else ["Inode bitmap for group is marked free"])
  ++ ((List.range sb.s_itb_per_group).filterMap fun j =>
      if block_in_use (gdp.bg_inode_table + j) sb bh then none
      else some ("Block of the inode table is marked free"))
  ++ (if gdp.bg_free_blocks_count = ext2_counts_free (some bh) sb.s_blocksize
      then [] else ["Wrong free blocks count for group"])

/-- The group loop of `ext2_check_block_bitmap` (ext2.c lines 924-969):
`n` groups remain, `i` is the current group, `bitmap_count` accumulates the
per-group free counts.  The group's descriptor is fetched, its block
bitmap loaded through the cache (a cache mutation), the reserved-block
bits and the free count are checked, diagnostics are prepended to the
`printk` log. -/
def checkBBLoop : Nat → Ext2Sb → Nat → Nat → Nat → Res (Ext2Sb × Nat)
  | 0, sb, _, _, bitmap_count => Res.ok (sb, bitmap_count)
  | n + 1, sb, desc_blocks, i, bitmap_count =>
    (get_group_desc sb i).bind fun gdp =>
    (load_block_bitmap sb i).bind fun p =>
    match p.1.s_block_bitmap p.2 with
    | none => Res.panic ("NULL block bitmap buffer")
    | some bh =>
      checkBBLoop n
        { p.1 with msgs := checkBBmsgs p.1 gdp bh desc_blocks ++ p.1.msgs }
        desc_blocks (i + 1)
        (bitmap_count + ext2_counts_free (some bh) p.1.s_blocksize)

/-- `ext2_check_block_bitmap(sb)` (ext2.c lines 906-973). -/
def ext2_check_block_bitmap (sb : Ext2Sb) : Res Ext2Sb :=
  (lock_super sb).bind fun sb0 =>
  (checkBBLoop sb0.s_groups_count sb0
      ((sb0.s_groups_count + sb0.s_desc_per_block - 1) / sb0.s_desc_per_block)
      0 0).bind fun p =>
  unlock_super
    (if p.1.s_es.s_free_blocks_count ≠ p.2 then
      { p.1 with msgs := ("Wrong free blocks count in super block") :: p.1.msgs }
    else p.1)

/-- The group loop of `ext2_check_inode_bitmap` (ext2.c lines 1159-1169).
Note the C passes the possibly-NULL cache slot straight to
`ext2_counts_free`, which returns 0 for NULL, so no dereference panic
arises here. -/
def checkIBLoop : Nat → Ext2Sb → Nat → Nat → Res (Ext2Sb × Nat)
  | 0, sb, _, bitmap_count => Res.ok (sb, bitmap_count)
  | n + 1, sb, i, bitmap_count =>
    (get_group_desc sb i).bind fun gdp =>
    (load_inode_bitmap sb i).bind fun p =>
    checkIBLoop n
      { p.1 with msgs :=
          (if gdp.bg_free_inodes_count
              = ext2_counts_free (p.1.s_inode_bitmap p.2)
                (p.1.s_inodes_per_group / 8) then []
           else ["Wrong free inodes count in group"]) ++ p.1.msgs }
      (i + 1)
      (bitmap_count + ext2_counts_free (p.1.s_inode_bitmap p.2)
        (p.1.s_inodes_per_group / 8))

/-- `ext2_check_inode_bitmap(sb)` (ext2.c lines 1146-1173). -/
def ext2_check_inode_bitmap (sb : Ext2Sb) : Res Ext2Sb :=
  (lock_super sb).bind fun sb0 =>
  (checkIBLoop sb0.s_groups_count sb0 0 0).bind fun p =>
  unlock_super
    (if p.1.s_es.s_free_inodes_count ≠ p.2 then
      { p.1 with msgs := ("Wrong free inodes count in super block") :: p.1.msgs }
    else p.1)

/-- The group loop of `ext2_check_descriptors` (ext2.c lines 986-1060):
the walk is linear from group 0, so the `desc_block++` / `gdp++` pointer
pair is equivalent to indexing descriptor `i % EXT2_DESC_PER_BLOCK` of
descriptor block `i / EXT2_DESC_PER_BLOCK`; `block` is the first block of
the current group.  Out-of-range bitmap/table pointers print a diagnostic
and return 0 immediately. -/
def checkDescLoop : Nat → Ext2Sb → Nat → Nat → Res (Ext2Sb × Nat)
  | 0, sb, _, _ => Res.ok (sb, 1)
  | n + 1, sb, i, block =>
    match sb.s_group_desc (i / sb.s_desc_per_block) with
    | none => Res.panic ("NULL group descriptor block")
    | some arr =>
      if (arr (i % sb.s_desc_per_block)).bg_block_bitmap < block ∨
          block + sb.s_blocks_per_group
            ≤ (arr (i % sb.s_desc_per_block)).bg_block_bitmap then
        Res.ok ({ sb with msgs :=
          ("EXT2-fs: block bitmap for group no in group") :: sb.msgs }, 0)
      else if (arr (i % sb.s_desc_per_block)).bg_inode_bitmap < block ∨
          block + sb.s_blocks_per_group
            ≤ (arr (i % sb.s_desc_per_block)).bg_inode_bitmap then
        Res.ok ({ sb with msgs :=
          ("EXT2-fs: inode bitmap for group no in group") :: sb.msgs }, 0)
      else if (arr (i % sb.s_desc_per_block)).bg_inode_table < block ∨
          block + sb.s_blocks_per_group
            ≤ (arr (i % sb.s_desc_per_block)).bg_inode_table then
        Res.ok ({ sb with msgs :=
          ("EXT2-fs: inode table for group no in group") :: sb.msgs }, 0)
      else
        checkDescLoop n sb (i + 1) (block + sb.s_blocks_per_group)

/-- `ext2_check_descriptors(sb)` (ext2.c lines 979-1062): returns 1 when
every group's bitmap/table blocks lie within the group's own block range,
0 at the first violation.  No lock is taken and no cache is touched. -/
def ext2_check_descriptors (sb : Ext2Sb) : Res (Ext2Sb × Nat) :=
  checkDescLoop sb.s_groups_count sb 0 sb.s_es.s_first_data_block

end Ext2

namespace Ext2

theorem checkBBLoop_frame :
    ∀ (n : Nat) (sb : Ext2Sb) (db i bc : Nat) (sb' : Ext2Sb) (bc' : Nat),
      checkBBLoop n sb db i bc = .ok (sb', bc') →
      MetaEq sb sb' ∧ ICacheEq sb sb' ∧ sb'.s_lock = sb.s_lock := by
  intro n
  induction n with
  | zero =>
      intro sb db i bc sb' bc' h
      unfold checkBBLoop at h
      simp only [Res.ok.injEq, Prod.mk.injEq] at h
      obtain ⟨h1, _⟩ := h
      subst h1
      exact ⟨MetaEq_refl sb, ICacheEq_refl sb, rfl⟩
  | succ n ih =>
      intro sb db i bc sb' bc' h
      unfold checkBBLoop at h
      cases hg : get_group_desc sb i with
      | ok gdp =>
          rw [hg] at h
          simp only [Res.bind_ok] at h
          cases hl : load_block_bitmap sb i with
          | ok p =>
              obtain ⟨sb1, r1⟩ := p
              rw [hl] at h
              simp only [Res.bind_ok] at h
              obtain ⟨hm, hic, hk, _, _⟩ := load_block_bitmap_shape hl
              cases hb : sb1.s_block_bitmap r1 with
              | none => rw [hb] at h; exact absurd h (by simp)
              | some bh =>
                  rw [hb] at h
                  obtain ⟨hm2, hic2, hk2⟩ := ih _ _ _ _ _ _ h
                  refine ⟨MetaEq_trans hm (MetaEq_trans ?_ hm2),
                    ICacheEq_trans hic (ICacheEq_trans ?_ hic2),
                    hk2.trans hk⟩
                  · exact ⟨rfl, rfl, rfl, rfl, rfl, rfl, rfl, rfl, rfl⟩
                  · exact ⟨rfl, rfl, rfl⟩
          | panic m => rw [hl] at h; simp [Res.bind] at h
          | stuck => rw [hl] at h; simp [Res.bind] at h
      | panic m => rw [hg] at h; simp [Res.bind] at h
      | stuck => rw [hg] at h; simp [Res.bind] at h

theorem checkIBLoop_frame :
    ∀ (n : Nat) (sb : Ext2Sb) (i bc : Nat) (sb' : Ext2Sb) (bc' : Nat),
      checkIBLoop n sb i bc = .ok (sb', bc') →
      MetaEq sb sb' ∧ BCacheEq sb sb' ∧ sb'.s_lock = sb.s_lock := by
  intro n
  induction n with
  | zero =>
      intro sb i bc sb' bc' h
      unfold checkIBLoop at h
      simp only [Res.ok.injEq, Prod.mk.injEq] at h
      obtain ⟨h1, _⟩ := h
      subst h1
      exact ⟨MetaEq_refl sb, BCacheEq_refl sb, rfl⟩
  | succ n ih =>
      intro sb i bc sb' bc' h
      unfold checkIBLoop at h
      cases hg : get_group_desc sb i with
      | ok gdp =>
          rw [hg] at h
          simp only [Res.bind_ok] at h
          cases hl : load_inode_bitmap sb i with
          | ok p =>
              obtain ⟨sb1, r1⟩ := p
              rw [hl] at h
              simp only [Res.bind_ok] at h
              obtain ⟨hm, hbc, hk, _⟩ := load_inode_bitmap_shape hl
              obtain ⟨hm2, hbc2, hk2⟩ := ih _ _ _ _ _ h
              refine ⟨MetaEq_trans hm (MetaEq_trans ?_ hm2),
                BCacheEq_trans hbc (BCacheEq_trans ?_ hbc2),
                hk2.trans hk⟩
              · exact ⟨rfl, rfl, rfl, rfl, rfl, rfl, rfl, rfl, rfl⟩
              · exact ⟨rfl, rfl, rfl⟩
          | panic m => rw [hl] at h; simp [Res.bind] at h
          | stuck => rw [hl] at h; simp [Res.bind] at h
      | panic m => rw [hg] at h; simp [Res.bind] at h
      | stuck => rw [hg] at h; simp [Res.bind] at h

theorem checkDescLoop_frame :
    ∀ (n : Nat) (sb : Ext2Sb) (i b : Nat) (sb' : Ext2Sb) (r : Nat),
      checkDescLoop n sb i b = .ok (sb', r) →
      MetaEq sb sb' ∧ BCacheEq sb sb' ∧ ICacheEq sb sb' ∧
      sb'.s_lock = sb.s_lock ∧ sb'.released = sb.released := by
  intro n
  induction n with
  | zero =>
      intro sb i b sb' r h
      unfold checkDescLoop at h
      simp only [Res.ok.injEq, Prod.mk.injEq] at h
      obtain ⟨h1, _⟩ := h
      subst h1
      exact ⟨MetaEq_refl sb, BCacheEq_refl sb, ICacheEq_refl sb, rfl, rfl⟩
  | succ n ih =>
      intro sb i b sb' r h
      unfold checkDescLoop at h
      cases hg : sb.s_group_desc (i / sb.s_desc_per_block) with
      | none => rw [hg] at h; exact absurd h (by simp)
      | some arr =>
          rw [hg] at h
          dsimp only at h
          by_cases c1 : (arr (i % sb.s_desc_per_block)).bg_block_bitmap < b ∨
            b + sb.s_blocks_per_group
              ≤ (arr (i % sb.s_desc_per_block)).bg_block_bitmap
          · rw [if_pos c1] at h
            simp only [Res.ok.injEq, Prod.mk.injEq] at h
            obtain ⟨h1, _⟩ := h
            subst h1
            exact ⟨⟨rfl, rfl, rfl, rfl, rfl, rfl, rfl, rfl, rfl⟩,
              ⟨rfl, rfl, rfl⟩, ⟨rfl, rfl, rfl⟩, rfl, rfl⟩
          · rw [if_neg c1] at h
            by_cases c2 : (arr (i % sb.s_desc_per_block)).bg_inode_bitmap < b ∨
              b + sb.s_blocks_per_group
                ≤ (arr (i % sb.s_desc_per_block)).bg_inode_bitmap
            · rw [if_pos c2] at h
              simp only [Res.ok.injEq, Prod.mk.injEq] at h
              obtain ⟨h1, _⟩ := h
              subst h1
              exact ⟨⟨rfl, rfl, rfl, rfl, rfl, rfl, rfl, rfl, rfl⟩,
                ⟨rfl, rfl, rfl⟩, ⟨rfl, rfl, rfl⟩, rfl, rfl⟩
            · rw [if_neg c2] at h
              by_cases c3 : (arr (i % sb.s_desc_per_block)).bg_inode_table < b ∨
                b + sb.s_blocks_per_group
                  ≤ (arr (i % sb.s_desc_per_block)).bg_inode_table
              · rw [if_pos c3] at h
                simp only [Res.ok.injEq, Prod.mk.injEq] at h
                obtain ⟨h1, _⟩ := h
                subst h1
                exact ⟨⟨rfl, rfl, rfl, rfl, rfl, rfl, rfl, rfl, rfl⟩,
                  ⟨rfl, rfl, rfl⟩, ⟨rfl, rfl, rfl⟩, rfl, rfl⟩
              · rw [if_neg c3] at h
                exact ih _ _ _ _ _ h

end Ext2

namespace Ext2

/-- A minimal one-group file system whose bitmap caches are empty: running
a bitmap checker on it loads a bitmap into the cache. -/
def cexSb : Ext2Sb :=
  { s_lock := false
    s_blocksize := 1
    s_groups_count := 1
    s_desc_per_block := 1
    s_itb_per_group := 1
    s_inodes_per_group := 16
    s_blocks_per_group := 8
    s_es := { s_free_blocks_count := 0, s_free_inodes_count := 0,
              s_first_data_block := 1 }
    s_group_desc := fun _ => some (fun _ =>
      { bg_block_bitmap := 3, bg_inode_bitmap := 4, bg_inode_table := 5,
        bg_free_blocks_count := 0, bg_free_inodes_count := 0 })
    s_block_bitmap_number := fun _ => 0
    s_block_bitmap := fun _ => none
    s_loaded_block_bitmaps := 0
    s_inode_bitmap_number := fun _ => 0
    s_inode_bitmap := fun _ => none
    s_loaded_inode_bitmaps := 0
    bdisk := fun _ => [255]
    msgs := []
    released := [] }

end Ext2

/-- C4 counterexample: the checkers are not pure observers of all in-core
state.  On the concrete superblock `cexSb` the inode-bitmap cache's slot 0
is empty before `ext2_check_inode_bitmap` and resident afterwards (the
checker loads the bitmap through the cache), contradicting the claim that
a check leaves the bitmap cache's resident set unchanged. -/
theorem C4_checker_mutates_cache :
    (Ext2.cexSb.s_inode_bitmap 0).isSome = false
    ∧ (match Ext2.ext2_check_inode_bitmap Ext2.cexSb with
       | .ok sb' => (sb'.s_inode_bitmap 0).isSome
       | _ => false) = true :=
  ⟨rfl, rfl⟩

/-- C4 (amended): the consistency checkers write nothing to disk and leave
all file-system metadata (superblock record, geometry, group descriptors,
disk contents) unchanged; `ext2_check_descriptors` touches no in-core
state at all beyond its diagnostics; but `ext2_check_block_bitmap` and
`ext2_check_inode_bitmap` load bitmaps through the LRU cache, so the
respective bitmap cache's resident set and order may change (the other
cache is untouched and the superblock lock is restored).  Mismatches are
reported only through `printk` diagnostics. -/
theorem C4_checkers_frame :
    (∀ sb : Ext2.Ext2Sb,
      match Ext2.ext2_check_descriptors sb with
      | .ok p => Ext2.MetaEq sb p.1 ∧ Ext2.BCacheEq sb p.1 ∧
          Ext2.ICacheEq sb p.1 ∧ p.1.s_lock = sb.s_lock ∧
          p.1.released = sb.released
      | _ => True)
    ∧ (∀ sb : Ext2.Ext2Sb,
      match Ext2.ext2_check_block_bitmap sb with
      | .ok sb' => Ext2.MetaEq sb sb' ∧ Ext2.ICacheEq sb sb' ∧
          sb'.s_lock = sb.s_lock
      | _ => True)
    ∧ (∀ sb : Ext2.Ext2Sb,
      match Ext2.ext2_check_inode_bitmap sb with
      | .ok sb' => Ext2.MetaEq sb sb' ∧ Ext2.BCacheEq sb sb' ∧
          sb'.s_lock = sb.s_lock
      | _ => True) := by
  refine ⟨?_, ?_, ?_⟩
  · intro sb
    cases hd : Ext2.ext2_check_descriptors sb with
    | ok p =>
        obtain ⟨sb1, r1⟩ := p
        exact Ext2.checkDescLoop_frame _ _ _ _ _ _ hd
    | panic m => trivial
    | stuck => trivial
  · intro sb
    cases hc : Ext2.ext2_check_block_bitmap sb with
    | ok sbf =>
        unfold Ext2.ext2_check_block_bitmap Ext2.lock_super at hc
        by_cases hlock : sb.s_lock
        · rw [if_pos hlock] at hc
          exact absurd hc (by simp [Res.bind])
        · rw [if_neg hlock] at hc
          simp only [Res.bind_ok] at hc
          cases hloop : Ext2.checkBBLoop
              ({ sb with s_lock := true } : Ext2.Ext2Sb).s_groups_count
              { sb with s_lock := true }
              ((({ sb with s_lock := true } : Ext2.Ext2Sb).s_groups_count
                  + ({ sb with s_lock := true } : Ext2.Ext2Sb).s_desc_per_block
                  - 1)
                / ({ sb with s_lock := true } : Ext2.Ext2Sb).s_desc_per_block)
              0 0 with
          | ok p =>
              obtain ⟨sbL, bc⟩ := p
              rw [hloop] at hc
              simp only [Res.bind_ok] at hc
              obtain ⟨hm, hic, _⟩ :=
                Ext2.checkBBLoop_frame _ _ _ _ _ _ _ hloop
              have hm0 : Ext2.MetaEq sb { sb with s_lock := true } :=
                ⟨rfl, rfl, rfl, rfl, rfl, rfl, rfl, rfl, rfl⟩
              have hic0 : Ext2.ICacheEq sb { sb with s_lock := true } :=
                ⟨rfl, rfl, rfl⟩
              unfold Ext2.unlock_super at hc
              by_cases hmsg : sbL.s_es.s_free_blocks_count ≠ bc
              · rw [if_pos hmsg] at hc
                obtain h1 := Res.ok.inj hc
                subst h1
                refine ⟨Ext2.MetaEq_trans hm0 (Ext2.MetaEq_trans hm ?_),
                  Ext2.ICacheEq_trans hic0 (Ext2.ICacheEq_trans hic ?_),
                  by simpa using (Eq.symm (eq_false hlock))⟩
                · exact ⟨rfl, rfl, rfl, rfl, rfl, rfl, rfl, rfl, rfl⟩
                · exact ⟨rfl, rfl, rfl⟩
              · rw [if_neg hmsg] at hc
                obtain h1 := Res.ok.inj hc
                subst h1
                refine ⟨Ext2.MetaEq_trans hm0 (Ext2.MetaEq_trans hm ?_),
                  Ext2.ICacheEq_trans hic0 (Ext2.ICacheEq_trans hic ?_),
                  by simpa using (Eq.symm (eq_false hlock))⟩
                · exact ⟨rfl, rfl, rfl, rfl, rfl, rfl, rfl, rfl, rfl⟩
                · exact ⟨rfl, rfl, rfl⟩
          | panic m => rw [hloop] at hc; exact absurd hc (by simp [Res.bind])
          | stuck => rw [hloop] at hc; exact absurd hc (by simp [Res.bind])
    | panic m => trivial
    | stuck => trivial
  · intro sb
    cases hc : Ext2.ext2_check_inode_bitmap sb with
    | ok sbf =>
        unfold Ext2.ext2_check_inode_bitmap Ext2.lock_super at hc
        by_cases hlock : sb.s_lock
        · rw [if_pos hlock] at hc
          exact absurd hc (by simp [Res.bind])
        · rw [if_neg hlock] at hc
          simp only [Res.bind_ok] at hc
          cases hloop : Ext2.checkIBLoop
              ({ sb with s_lock := true } : Ext2.Ext2Sb).s_groups_count
              { sb with s_lock := true } 0 0 with
          | ok p =>
              obtain ⟨sbL, bc⟩ := p
              rw [hloop] at hc
              simp only [Res.bind_ok] at hc
              obtain ⟨hm, hbc, _⟩ :=
                Ext2.checkIBLoop_frame _ _ _ _ _ _ hloop
              have hm0 : Ext2.MetaEq sb { sb with s_lock := true } :=
                ⟨rfl, rfl, rfl, rfl, rfl, rfl, rfl, rfl, rfl⟩
              have hbc0 : Ext2.BCacheEq sb { sb with s_lock := true } :=
                ⟨rfl, rfl, rfl⟩
              unfold Ext2.unlock_super at hc
              by_cases hmsg : sbL.s_es.s_free_inodes_count ≠ bc
              · rw [if_pos hmsg] at hc
                obtain h1 := Res.ok.inj hc
                subst h1
                refine ⟨Ext2.MetaEq_trans hm0 (Ext2.MetaEq_trans hm ?_),
                  Ext2.BCacheEq_trans hbc0 (Ext2.BCacheEq_trans hbc ?_),
                  by simpa using (Eq.symm (eq_false hlock))⟩
                · exact ⟨rfl, rfl, rfl, rfl, rfl, rfl, rfl, rfl, rfl⟩
                · exact ⟨rfl, rfl, rfl⟩
              · rw [if_neg hmsg] at hc
                obtain h1 := Res.ok.inj hc
                subst h1
                refine ⟨Ext2.MetaEq_trans hm0 (Ext2.MetaEq_trans hm ?_),
                  Ext2.BCacheEq_trans hbc0 (Ext2.BCacheEq_trans hbc ?_),
                  by simpa using (Eq.symm (eq_false hlock))⟩
                · exact ⟨rfl, rfl, rfl, rfl, rfl, rfl, rfl, rfl, rfl⟩
                · exact ⟨rfl, rfl, rfl⟩
          | panic m => rw [hloop] at hc; exact absurd hc (by simp [Res.bind])
          | stuck => rw [hloop] at hc; exact absurd hc (by simp [Res.bind])
    | panic m => trivial
    | stuck => trivial

namespace KernelFS

/-- Modelled from the spec: `INODES_PER_BLOCK` = BLOCK_SIZE / sizeof(struct
d_inode) — the fs header defining it is not under `src/`; its value does
not affect the claims (it only shapes the inode-table block number). -/
def INODES_PER_BLOCK : Nat := 32

/-- Modelled from the spec: `ROOT_INO`, the root inode number used by the
mount redirection of `iget` (spec §4.4: "restart acquire against that
superblock's root inode number"). -/
def ROOT_INO : Nat := 1

/-- The on-disk inode record `struct d_inode`: exactly the prefix of
`struct m_inode` that `read_inode` / `write_inode` copy by the
`*(struct d_inode *)inode` cast. -/
structure DInode where
  i_mode : Nat
  i_uid : Nat
  i_size : Nat
  i_mtime : Nat
  i_gid : Nat
  i_nlinks : Nat
  i_zone : List Nat
deriving DecidableEq, Repr

/-- The all-zero on-disk record (`memset` image). -/
def DInode.zero : DInode :=
  { i_mode := 0, i_uid := 0, i_size := 0, i_mtime := 0, i_gid := 0,
    i_nlinks := 0, i_zone := List.replicate 9 0 }

/-- The in-core inode `struct m_inode`: the on-disk prefix plus the
in-memory bookkeeping fields used in fs/inode.c.  `i_count` is an `Int` so
that "never decremented below zero" is a statement about the reachable
states, not an artifact of an unsigned type. -/
structure MInode where
  d : DInode
  i_dev : Nat
  i_num : Nat
  i_count : Int
  i_lock : Bool
  i_dirt : Bool
  i_pipe : Bool
  i_mount : Bool
deriving DecidableEq, Repr

/-- The all-zero slot (`inode_table[NR_INODE] = {{0, }, }`). -/
def MInode.zero : MInode :=
  { d := DInode.zero, i_dev := 0, i_num := 0, i_count := 0, i_lock := false,
    i_dirt := false, i_pipe := false, i_mount := false }

/-- The fields of `struct super_block` consumed by fs/inode.c: the device,
the bitmap block counts locating the inode table, and the mount anchor
`s_imount` (index of the mount-point inode slot, `none` for NULL). -/
structure SuperBlock where
  s_dev : Nat
  s_imap_blocks : Nat
  s_zmap_blocks : Nat
  s_imount : Option Nat
deriving DecidableEq, Repr

/-- The in-core state touched by fs/inode.c plus oracle and logs: `table`
is `inode_table[NR_INODE]`; `last_pos` the static `last_inode` cursor of
`get_empty_inode`; `supers` the `super_block[]` array (read-only in this
file); `disk` the buffer-cache view of the on-disk inode records (device →
inode number → record); `writes` logs each `write_inode` block write as
`(device, block_number)`; `syncs` logs `sync_dev` calls; `msgs` the
`printk` log. -/
structure FsState where
  table : List MInode
  last_pos : Nat
  supers : List SuperBlock
  disk : Nat → Nat → DInode
  writes : List (Nat × Nat)
  syncs : List Nat
  msgs : List String

/-- Slot read; out-of-range reads yield the zero slot (never exercised by
the modelled code, whose loops stay within `NR_INODE`). -/
def getSlot (st : FsState) (i : Nat) : MInode :=
  st.table.getD i MInode.zero

/-- Slot write (no-op out of range, matching the bounded C loops). -/
def setSlot (st : FsState) (i : Nat) (v : MInode) : FsState :=
  { st with table := st.table.set i v }

/-- Read-modify-write of one slot. -/
def modSlot (st : FsState) (i : Nat) (f : MInode → MInode) : FsState :=
  setSlot st i (f (getSlot st i))

/-- `wait_on_inode` (fs/inode.c lines 19-25): sleeps while the slot is
locked.  Sequentially a held lock can never be released by another thread
of control, so waiting on it is `stuck`; otherwise the wait returns at
once with the state unchanged. -/
def wait_on_inode (st : FsState) (i : Nat) : Res FsState :=
  if (getSlot st i).i_lock then Res.stuck else Res.ok st

/-- `lock_inode` (lines 27-34): wait for the lock, then take it. -/
def lock_inode (st : FsState) (i : Nat) : Res FsState :=
  if (getSlot st i).i_lock then Res.stuck
  else Res.ok (modSlot st i fun m => { m with i_lock := true })

/-- `unlock_inode` (lines 36-40): release the lock and wake waiters. -/
def unlock_inode (st : FsState) (i : Nat) : Res FsState :=
  Res.ok (modSlot st i fun m => { m with i_lock := false })

/-- `get_super(dev)` (fs/super.c, consumed as an external interface):
first superblock whose `s_dev` matches. -/
def get_super (st : FsState) (dev : Nat) : Option SuperBlock :=
  st.supers.find? (fun s => s.s_dev = dev)

/-- The inode-table block holding inode `num` of superblock `sb`:
`2 + s_imap_blocks + s_zmap_blocks + (num - 1)/INODES_PER_BLOCK`
(fs/inode.c lines 115-116 and 184-185). -/
def inodeBlock (sb : SuperBlock) (num : Nat) : Nat :=
  2 + sb.s_imap_blocks + sb.s_zmap_blocks + (num - 1) / INODES_PER_BLOCK

/-- The effect of the actual block write inside `write_inode` (lines
117-123): the in-core record is copied into the inode-table block of the
buffer cache and the buffer marked dirty (modelled: the `disk` view now
returns this inode's record and the write is logged), and `i_dirt` is
cleared. -/
def doWriteInode (st : FsState) (i : Nat) (sb : SuperBlock) : FsState :=
  { st with
    disk := fun d n =>
      if d = (getSlot st i).i_dev ∧ n = (getSlot st i).i_num then
        (getSlot st i).d
      else st.disk d n,
    writes :=
      ((getSlot st i).i_dev, inodeBlock sb (getSlot st i).i_num) :: st.writes,
    table := st.table.set i { getSlot st i with i_dirt := false } }

/-- `write_inode` (fs/inode.c lines 102-126): lock; nothing to do if clean
or deviceless; otherwise find the superblock (panic if missing), `bread`
the inode-table block (the buffer-cache oracle is total, so the read-panic
branch is dead), perform the write (`doWriteInode`), release the buffer,
unlock. -/
def write_inode (st : FsState) (i : Nat) : Res FsState :=
  (lock_inode st i).bind fun st1 =>
  if (getSlot st1 i).i_dirt = false ∨ (getSlot st1 i).i_dev = 0 then
    unlock_inode st1 i
  else
    match get_super st1 (getSlot st1 i).i_dev with
    | none => Res.panic ("trying to write inode without device")
    | some sb => unlock_inode (doWriteInode st1 i sb) i

/-- `read_inode` (fs/inode.c lines 175-193): lock; find the superblock
(panic if missing); `bread` the inode-table block (total oracle) and copy
the on-disk record into the in-core slot; release; unlock. -/
def read_inode (st : FsState) (i : Nat) : Res FsState :=
  (lock_inode st i).bind fun st1 =>
  match get_super st1 (getSlot st1 i).i_dev with
  | none => Res.panic ("tring to read inode without dev")
  | some _ =>
    unlock_inode
      (setSlot st1 i
        { getSlot st1 i with
          d := st1.disk (getSlot st1 i).i_dev (getSlot st1 i).i_num }) i

/-- `invalidate_inodes` walk (fs/inode.c lines 48-55): wait on each slot;
for a matching device report a referenced slot via `printk` and clear the
`i_dev`/`i_dirt` fields (the clear is unconditional within the device
match, for referenced and unreferenced slots alike). -/
def invLoop (dev : Nat) : Nat → FsState → Nat → Res FsState
  | 0, st, _ => Res.ok st
  | n + 1, st, i =>
    (wait_on_inode st i).bind fun st1 =>
    if (getSlot st1 i).i_dev = dev then
      invLoop dev n
        (modSlot
          (if (getSlot st1 i).i_count ≠ 0 then
            { st1 with msgs := ("inode in use on removed disk") :: st1.msgs }
          else st1)
          i (fun m => { m with i_dev := 0, i_dirt := false }))
        (i + 1)
    else
      invLoop dev n st1 (i + 1)

/-- `invalidate_inodes(dev)` (fs/inode.c lines 42-56). -/
def invalidate_inodes (st : FsState) (dev : Nat) : Res FsState :=
  invLoop dev st.table.length st 0

/-- Modelled from the spec: `truncate` (fs/truncate.c, not under `src/`) —
"truncate (release all data blocks)" (spec §4.4): the inode's data blocks
are released, its size zeroed, and the inode marked dirty. -/
def truncate (st : FsState) (i : Nat) : FsState :=
  modSlot st i fun m =>
    { m with
      d := { m.d with i_size := 0, i_zone := List.replicate 9 0 },
      i_dirt := true }

/-- Modelled from the spec: `free_inode` (fs/bitmap.c, not under `src/`) —
"mark the slot reclaimable" (spec §4.4, §3: "reaching 0 makes the entry
eligible for reclamation"): the on-disk inode is released and the in-core
slot cleared to the free state. -/
def free_inode (st : FsState) (i : Nat) : FsState :=
  setSlot st i MInode.zero

/-- Modelled from the spec: `S_ISBLK` from sys/stat.h (not under `src/`):
the file-type bits (bits 12-15 of `i_mode`) equal the block-special code
6. -/
def S_ISBLK (mode : Nat) : Bool :=
  mode / 4096 % 16 = 6

/-- The `repeat:` tail of `iput` (fs/inode.c lines 83-99): drop one of
several references; reclaim a zero-link inode; write a dirty inode back
and re-check (another waiter may have re-dirtied it), else decrement to
zero.  Sequentially one write-back pass clears `i_dirt` whenever it can
return at all (the device is non-zero on entry to the loop), so fuel 2
covers every terminating execution of the C loop; the fuel-out marker
`stuck` is unreachable through `ok` paths. -/
def iputRepeat : Nat → FsState → Nat → Res FsState
  | 0, _, _ => Res.stuck
  | fuel + 1, st, i =>
    if 1 < (getSlot st i).i_count then
      Res.ok (modSlot st i fun m => { m with i_count := m.i_count - 1 })
    else if (getSlot st i).d.i_nlinks = 0 then
      Res.ok (free_inode (truncate st i) i)
    else if (getSlot st i).i_dirt then
      (write_inode st i).bind fun st1 =>
      (wait_on_inode st1 i).bind fun st2 =>
      iputRepeat fuel st2 i
    else
      Res.ok (modSlot st i fun m => { m with i_count := m.i_count - 1 })

/-- `iput(inode)` (fs/inode.c lines 58-100): a NULL handle returns at
once; wait for the lock; releasing a free inode panics; a pipe inode
drops a reference and frees its page at zero; a deviceless inode just
drops a reference; a block device is synced first; then the `repeat:`
tail. -/
def iput (st : FsState) (h : Option Nat) : Res FsState :=
  match h with
  | none => Res.ok st
  | some i =>
    (wait_on_inode st i).bind fun st0 =>
    if (getSlot st0 i).i_count = 0 then
      Res.panic ("iput: trying to free free inode")
    else if (getSlot st0 i).i_pipe then
      if (getSlot st0 i).i_count - 1 ≠ 0 then
        Res.ok (modSlot st0 i fun m => { m with i_count := m.i_count - 1 })
      else
        Res.ok (modSlot st0 i fun m =>
          { m with i_count := 0, i_dirt := false, i_pipe := false })
    else if (getSlot st0 i).i_dev = 0 then
      Res.ok (modSlot st0 i fun m => { m with i_count := m.i_count - 1 })
    else
      (if S_ISBLK (getSlot st0 i).d.i_mode then
        (wait_on_inode
          { st0 with syncs := (getSlot st0 i).d.i_zone.getD 0 0 :: st0.syncs }
          i)
      else Res.ok st0).bind fun st1 =>
      iputRepeat 2 st1 i

/-- The walk of `sync_inodes` (fs/inode.c lines 133-138): wait on each
slot and write back the dirty non-pipe inodes. -/
def syncLoop : Nat → FsState → Nat → Res FsState
  | 0, st, _ => Res.ok st
  | n + 1, st, i =>
    (wait_on_inode st i).bind fun st1 =>
    (if (getSlot st1 i).i_dirt ∧ (getSlot st1 i).i_pipe = false then
      write_inode st1 i
    else Res.ok st1).bind fun st2 =>
    syncLoop n st2 (i + 1)

/-- `sync_inodes()` (fs/inode.c lines 128-139). -/
def sync_inodes (st : FsState) : Res FsState :=
  syncLoop st.table.length st 0

end KernelFS

namespace KernelFS

/-- The candidate scan of `get_empty_inode` (fs/inode.c lines 147-157):
starting from the persistent cursor, advance cyclically (`++last_inode`,
wrapping); remember the last free (`i_count == 0`) slot seen; break early
at a free slot that is also clean and unlocked.  Returns the final cursor
position and the chosen candidate (`none` when no slot is free). -/
def geiScan (st : FsState) : Nat → Nat → Option Nat → (Nat × Option Nat)
  | 0, c, cand => (c, cand)
  | n + 1, c, cand =>
    let c' := if c + 1 ≥ st.table.length then 0 else c + 1
    if (getSlot st c').i_count = 0 then
      if (getSlot st c').i_dirt = false ∧ (getSlot st c').i_lock = false then
        (c', some c')
      else geiScan st n c' (some c')
    else geiScan st n c' cand

/-- The `while (inode->i_dirt)` write-back of `get_empty_inode` (lines
165-168).  `write_inode` leaves `i_dirt` set only for a deviceless inode,
in which case the C loop spins forever (`stuck`); otherwise one pass
clears the flag. -/
def geiDirtyLoop (st : FsState) (i : Nat) : Res FsState :=
  if (getSlot st i).i_dirt then
    (write_inode st i).bind fun st1 =>
    (wait_on_inode st1 i).bind fun st2 =>
    if (getSlot st2 i).i_dirt then Res.stuck else Res.ok st2
  else Res.ok st

/-- `get_empty_inode()` (fs/inode.c lines 141-173): scan for a free slot
(panic when none — the diagnostic dump of all slots precedes the panic and
is dropped since the panic aborts), wait for its lock, write it back while
dirty, re-check `i_count` (the outer `do ... while (inode->i_count)`:
sequentially the candidate's count cannot change, so a non-zero count here
would rescan forever — `stuck`), then zero the slot and set `i_count = 1`. -/
def get_empty_inode (st : FsState) : Res (FsState × Nat) :=
  match geiScan st st.table.length st.last_pos none with
  | (c', none) => Res.panic ("No free inodes in mem")
  | (c', some k) =>
    (wait_on_inode { st with last_pos := c' } k).bind fun st1 =>
    (geiDirtyLoop st1 k).bind fun st2 =>
    if (getSlot st2 k).i_count ≠ 0 then Res.stuck
    else Res.ok (setSlot st2 k { MInode.zero with i_count := 1 }, k)

/-- The scan loop of `iget` (fs/inode.c lines 202-235): advance over the
table; at a key match wait for the lock and re-validate (restart from the
table start if the identity changed while asleep); bump `i_count`; chase a
mount point through the superblock table (releasing the just-taken
reference and restarting against the mounted device's root inode — `fuel`
bounds these restarts, and one round suffices whenever no mount flag is
set); otherwise release the spare slot and return.  When the scan falls
off the table, install the key in the spare slot and read it from disk
(`get_empty_inode` never returns NULL — it panics instead — so the
`if (!empty) return NULL;` branch is dead in the model). -/
def igetLoop : Nat → FsState → Nat → Nat → Nat → Nat → Res (FsState × Option Nat)
  | 0, _, _, _, _, _ => Res.stuck
  | fuel + 1, st, dev, nr, empty, i =>
    if i < st.table.length then
      if (getSlot st i).i_dev ≠ dev ∨ (getSlot st i).i_num ≠ nr then
        igetLoop (fuel + 1) st dev nr empty (i + 1)
      else
        (wait_on_inode st i).bind fun st1 =>
        if (getSlot st1 i).i_dev ≠ dev ∨ (getSlot st1 i).i_num ≠ nr then
          igetLoop fuel st1 dev nr empty 0
        else
          if (getSlot st1 i).i_mount then
            match (modSlot st1 i fun m =>
                { m with i_count := m.i_count + 1 }).supers.findIdx?
                (fun s => s.s_imount = some i) with
            | none =>
              (iput { (modSlot st1 i fun m =>
                  { m with i_count := m.i_count + 1 }) with
                  msgs := ("Mounted inode hasn't got sb") ::
                    (modSlot st1 i fun m =>
                      { m with i_count := m.i_count + 1 }).msgs }
                (some empty)).bind fun st3 =>
              Res.ok (st3, some i)
            | some sbi =>
              (iput (modSlot st1 i fun m => { m with i_count := m.i_count + 1 })
                (some i)).bind fun st3 =>
              igetLoop fuel st3
                ((st3.supers.getD sbi
                  { s_dev := 0, s_imap_blocks := 0, s_zmap_blocks := 0,
                    s_imount := none }).s_dev)
                ROOT_INO empty 0
          else
            (iput (modSlot st1 i fun m => { m with i_count := m.i_count + 1 })
              (some empty)).bind fun st3 =>
            Res.ok (st3, some i)
    else
      (read_inode
        (modSlot st empty fun m => { m with i_dev := dev, i_num := nr })
        empty).bind fun st3 =>
      Res.ok (st3, some empty)
termination_by fuel st dev nr empty i => (fuel, st.table.length - i)
decreasing_by
  all_goals simp_wf
  · right
    omega
  · left
    omega
  · left
    omega

/-- `iget(dev, nr)` (fs/inode.c lines 195-243): panic on device 0,
pre-allocate a spare slot, then scan.  The fuel only bounds
mount-redirection restarts; any positive fuel gives the same result when
no slot has `i_mount` set. -/
def iget (st : FsState) (dev nr : Nat) : Res (FsState × Option Nat) :=
  if dev = 0 then Res.panic ("iget with dev==0")
  else
    (get_empty_inode st).bind fun p =>
    igetLoop (p.1.supers.length + 2) p.1 dev nr p.2 0

end KernelFS

namespace KernelFS

theorem getSlot_set_self {st : FsState} {i : Nat} (v : MInode)
    (hi : i < st.table.length) : getSlot (setSlot st i v) i = v := by
  simp [getSlot, setSlot, List.getD, List.getElem?_set_self', hi]

theorem getSlot_set_ne {st : FsState} {i j : Nat} (v : MInode)
    (hij : j ≠ i) : getSlot (setSlot st i v) j = getSlot st j := by
  simp [getSlot, setSlot, List.getD, List.getElem?_set_ne (Ne.symm hij)]

theorem getSlot_oob {st : FsState} {i : Nat}
    (hi : st.table.length ≤ i) : getSlot st i = MInode.zero := by
  simp [getSlot, List.getD, List.getElem?_eq_none hi]

theorem setSlot_length (st : FsState) (i : Nat) (v : MInode) :
    (setSlot st i v).table.length = st.table.length := by
  simp [setSlot]

theorem getSlot_mod_self {st : FsState} {i : Nat} (f : MInode → MInode)
    (hi : i < st.table.length) :
    getSlot (modSlot st i f) i = f (getSlot st i) :=
  getSlot_set_self _ hi

theorem getSlot_mod_ne {st : FsState} {i j : Nat} (f : MInode → MInode)
    (hij : j ≠ i) : getSlot (modSlot st i f) j = getSlot st j :=
  getSlot_set_ne _ hij

theorem wait_on_inode_ok {st : FsState} {i : Nat} {st' : FsState}
    (h : wait_on_inode st i = .ok st') :
    st' = st ∧ (getSlot st i).i_lock = false := by
  unfold wait_on_inode at h
  by_cases hl : (getSlot st i).i_lock
  · rw [if_pos hl] at h; exact absurd h (by simp)
  · rw [if_neg hl] at h
    exact ⟨(Res.ok.inj h).symm, by simpa using hl⟩

theorem wait_on_inode_free {st : FsState} {i : Nat}
    (h : (getSlot st i).i_lock = false) : wait_on_inode st i = .ok st := by
  unfold wait_on_inode
  rw [h]
  rfl

end KernelFS

namespace KernelFS

theorem MInode.cancel_lock {m : MInode} (h : m.i_lock = false) :
    ({ m with i_lock := false } : MInode) = m := by
  cases m
  simp_all

theorem MInode.cancel_lock_dirt {m : MInode} (h : m.i_lock = false) :
    ({ m with i_dirt := false, i_lock := false } : MInode)
      = { m with i_dirt := false } := by
  cases m
  simp_all

theorem lt_len_of_slot_ne {st : FsState} {i : Nat}
    (h : getSlot st i ≠ MInode.zero) : i < st.table.length := by
  by_contra hb
  exact h (getSlot_oob (by omega))

end KernelFS

namespace KernelFS

theorem getSlot_doWrite_ne {st : FsState} {i : Nat} {sb : SuperBlock}
    {j : Nat} (hj : j ≠ i) :
    getSlot (doWriteInode st i sb) j = getSlot st j := by
  simp [getSlot, doWriteInode, List.getD, List.getElem?_set_ne (Ne.symm hj)]

theorem getSlot_doWrite_self {st : FsState} {i : Nat} {sb : SuperBlock}
    (hi : i < st.table.length) :
    getSlot (doWriteInode st i sb) i = { getSlot st i with i_dirt := false } := by
  simp [getSlot, doWriteInode, List.getD, List.getElem?_set_self', hi]

theorem doWrite_length (st : FsState) (i : Nat) (sb : SuperBlock) :
    (doWriteInode st i sb).table.length = st.table.length := by
  simp [doWriteInode]

theorem write_inode_ok {st : FsState} {i : Nat} {st' : FsState}
    (hi : i < st.table.length) (h : write_inode st i = .ok st') :
    (getSlot st i).i_lock = false ∧
    st'.table.length = st.table.length ∧
    st'.supers = st.supers ∧
    st'.last_pos = st.last_pos ∧
    (∀ j, j ≠ i → getSlot st' j = getSlot st j) ∧
    (getSlot st' i = { getSlot st i with i_lock := false } ∨
      getSlot st' i = { getSlot st i with i_dirt := false, i_lock := false }) ∧
    ((getSlot st i).i_dirt = true → (getSlot st i).i_dev ≠ 0 →
      getSlot st' i
        = { getSlot st i with i_dirt := false, i_lock := false }) := by
  unfold write_inode lock_inode at h
  by_cases hl : (getSlot st i).i_lock
  · rw [if_pos hl] at h
    exact absurd h (by simp [Res.bind])
  · rw [if_neg hl] at h
    simp only [Res.bind_ok] at h
    rw [show getSlot (modSlot st i fun m => { m with i_lock := true }) i
        = { getSlot st i with i_lock := true } from getSlot_mod_self _ hi] at h
    by_cases hcl : ({ getSlot st i with i_lock := true } : MInode).i_dirt
        = false ∨ ({ getSlot st i with i_lock := true } : MInode).i_dev = 0
    · rw [if_pos hcl] at h
      unfold unlock_inode at h
      obtain h1 := Res.ok.inj h
      subst h1
      have hlen1 : (modSlot st i fun m =>
          { m with i_lock := true }).table.length = st.table.length := by
        simp [modSlot, setSlot]
      refine ⟨by simpa using hl, by simp [modSlot, setSlot],
        rfl, rfl, ?_, ?_, ?_⟩
      · intro j hj
        rw [getSlot_mod_ne _ hj, getSlot_mod_ne _ hj]
      · left
        rw [getSlot_mod_self _ (by rw [hlen1]; exact hi),
          getSlot_mod_self _ hi]
      · intro hd hdev
        simp only at hcl
        exact absurd hcl (by simp [hd, hdev])
    · rw [if_neg hcl] at h
      cases hs : get_super (modSlot st i fun m => { m with i_lock := true })
          ({ getSlot st i with i_lock := true } : MInode).i_dev with
      | none => rw [hs] at h; exact absurd h (by simp)
      | some sb =>
          rw [hs] at h
          unfold unlock_inode at h
          obtain h1 := Res.ok.inj h
          subst h1
          have hlen1 : (modSlot st i fun m =>
              { m with i_lock := true }).table.length = st.table.length := by
            simp [modSlot, setSlot]
          have hlen2 : (doWriteInode (modSlot st i fun m =>
              { m with i_lock := true }) i sb).table.length
              = st.table.length := by
            rw [doWrite_length, hlen1]
          refine ⟨by simpa using hl, by simp [modSlot, setSlot, doWriteInode],
            rfl, rfl, ?_, ?_, ?_⟩
          · intro j hj
            rw [getSlot_mod_ne _ hj, getSlot_doWrite_ne hj, getSlot_mod_ne _ hj]
          · right
            rw [getSlot_mod_self _ (by rw [hlen2]; exact hi),
              getSlot_doWrite_self (by rw [hlen1]; exact hi),
              getSlot_mod_self _ hi]
          · intro _ _
            rw [getSlot_mod_self _ (by rw [hlen2]; exact hi),
              getSlot_doWrite_self (by rw [hlen1]; exact hi),
              getSlot_mod_self _ hi]

end KernelFS

namespace KernelFS

theorem modSlot_writes (st : FsState) (i : Nat) (f : MInode → MInode) :
    (modSlot st i f).writes = st.writes := rfl

theorem doWrite_writes (st : FsState) (i : Nat) (sb : SuperBlock) :
    (doWriteInode st i sb).writes
      = ((getSlot st i).i_dev, inodeBlock sb (getSlot st i).i_num)
        :: st.writes := rfl

/-- Exact evaluation of `write_inode` on a dirty inode with a device whose
superblock is present: the inode-table block write is logged, the record
lands in the buffer-cache view, and `i_dirt` is cleared. -/
theorem write_inode_spec {st : FsState} {i : Nat} {sb : SuperBlock}
    (hi : i < st.table.length)
    (hl : (getSlot st i).i_lock = false)
    (hd : (getSlot st i).i_dirt = true)
    (hdev : (getSlot st i).i_dev ≠ 0)
    (hs : get_super st (getSlot st i).i_dev = some sb) :
    ∃ st', write_inode st i = .ok st'
      ∧ st'.writes = ((getSlot st i).i_dev,
          inodeBlock sb (getSlot st i).i_num) :: st.writes
      ∧ getSlot st' i = { getSlot st i with i_dirt := false, i_lock := false }
      ∧ (∀ j, j ≠ i → getSlot st' j = getSlot st j)
      ∧ st'.table.length = st.table.length
      ∧ st'.supers = st.supers
      ∧ st'.last_pos = st.last_pos
      ∧ st'.syncs = st.syncs := by
  have hlen1 : (modSlot st i fun m =>
      { m with i_lock := true }).table.length = st.table.length := by
    simp [modSlot, setSlot]
  have hlen2 : (doWriteInode (modSlot st i fun m =>
      { m with i_lock := true }) i sb).table.length = st.table.length := by
    rw [doWrite_length, hlen1]
  refine ⟨modSlot (doWriteInode (modSlot st i fun m =>
      { m with i_lock := true }) i sb) i
      (fun m => { m with i_lock := false }), ?_, ?_, ?_, ?_, ?_, ?_, ?_, ?_⟩
  · unfold write_inode lock_inode
    rw [if_neg (by simp [hl])]
    simp only [Res.bind_ok]
    rw [show getSlot (modSlot st i fun m => { m with i_lock := true }) i
        = { getSlot st i with i_lock := true } from getSlot_mod_self _ hi]
    rw [if_neg (by simp [hd, hdev])]
    rw [show get_super (modSlot st i fun m => { m with i_lock := true })
        ({ getSlot st i with i_lock := true } : MInode).i_dev
        = some sb from hs]
    rfl
  · rw [modSlot_writes, doWrite_writes, getSlot_mod_self _ hi]
    rfl
  · rw [getSlot_mod_self _ (by rw [hlen2]; exact hi),
      getSlot_doWrite_self (by rw [hlen1]; exact hi),
      getSlot_mod_self _ hi]
  · intro j hj
    rw [getSlot_mod_ne _ hj, getSlot_doWrite_ne hj, getSlot_mod_ne _ hj]
  · rw [show (modSlot (doWriteInode (modSlot st i fun m =>
      { m with i_lock := true }) i sb) i fun m =>
        { m with i_lock := false }).table.length
      = (doWriteInode (modSlot st i fun m =>
          { m with i_lock := true }) i sb).table.length from by
        simp [modSlot, setSlot]]
    exact hlen2
  · rfl
  · rfl
  · rfl

end KernelFS

namespace KernelFS

theorem read_inode_ok {st : FsState} {i : Nat} {st' : FsState}
    (hi : i < st.table.length) (h : read_inode st i = .ok st') :
    (getSlot st i).i_lock = false ∧
    st'.table.length = st.table.length ∧
    st'.supers = st.supers ∧
    st'.last_pos = st.last_pos ∧
    (∀ j, j ≠ i → getSlot st' j = getSlot st j) ∧
    getSlot st' i = { getSlot st i with
      d := st.disk (getSlot st i).i_dev (getSlot st i).i_num,
      i_lock := false } := by
  unfold read_inode lock_inode at h
  by_cases hl : (getSlot st i).i_lock
  · rw [if_pos hl] at h
    exact absurd h (by simp [Res.bind])
  · rw [if_neg hl] at h
    simp only [Res.bind_ok] at h
    cases hs : get_super (modSlot st i fun m => { m with i_lock := true })
        (getSlot (modSlot st i fun m => { m with i_lock := true }) i).i_dev with
    | none => rw [hs] at h; exact absurd h (by simp)
    | some sb =>
        rw [hs] at h
        unfold unlock_inode at h
        obtain h1 := Res.ok.inj h
        subst h1
        have hlen1 : (modSlot st i fun m =>
            { m with i_lock := true }).table.length = st.table.length := by
          simp [modSlot, setSlot]
        have hlen2 : (setSlot (modSlot st i fun m => { m with i_lock := true })
            i { getSlot (modSlot st i fun m => { m with i_lock := true }) i with
                d := (modSlot st i fun m => { m with i_lock := true }).disk
                  (getSlot (modSlot st i fun m =>
                    { m with i_lock := true }) i).i_dev
                  (getSlot (modSlot st i fun m =>
                    { m with i_lock := true }) i).i_num }).table.length
            = st.table.length := by
          rw [setSlot_length, hlen1]
        refine ⟨by simpa using hl, by simp [modSlot, setSlot], rfl, rfl, ?_, ?_⟩
        · intro j hj
          rw [getSlot_mod_ne _ hj, getSlot_set_ne _ hj, getSlot_mod_ne _ hj]
        · rw [getSlot_mod_self _ (by rw [hlen2]; exact hi),
            getSlot_set_self _ (by rw [hlen1]; exact hi),
            getSlot_mod_self _ hi]
          rfl

end KernelFS

namespace KernelFS

theorem iputRepeat_ok :
    ∀ (fuel : Nat) (st : FsState) (i : Nat) (st' : FsState),
      iputRepeat fuel st i = .ok st' →
      st'.table.length = st.table.length ∧
      st'.supers = st.supers ∧
      st'.last_pos = st.last_pos ∧
      (∀ j, j ≠ i → getSlot st' j = getSlot st j) ∧
      (getSlot st' i = MInode.zero ∨
        ((getSlot st' i).i_dev = (getSlot st i).i_dev ∧
          (getSlot st' i).i_num = (getSlot st i).i_num ∧
          (getSlot st' i).i_mount = (getSlot st i).i_mount ∧
          (getSlot st' i).i_lock = (getSlot st i).i_lock ∧
          (getSlot st' i).i_count = (getSlot st i).i_count - 1)) := by
  intro fuel
  induction fuel with
  | zero => intro st i st' h; exact absurd h (by simp [iputRepeat])
  | succ fuel ih =>
      intro st i st' h
      unfold iputRepeat at h
      by_cases hc : 1 < (getSlot st i).i_count
      · rw [if_pos hc] at h
        have hi : i < st.table.length := lt_len_of_slot_ne (fun hz => by
          rw [hz] at hc
          exact absurd hc (by decide))
        obtain h1 := Res.ok.inj h
        subst h1
        refine ⟨by simp [modSlot, setSlot], rfl, rfl, ?_, ?_⟩
        · intro j hj
          rw [getSlot_mod_ne _ hj]
        · right
          rw [getSlot_mod_self _ hi]
          exact ⟨rfl, rfl, rfl, rfl, rfl⟩
      · rw [if_neg hc] at h
        by_cases hn : (getSlot st i).d.i_nlinks = 0
        · rw [if_pos hn] at h
          obtain h1 := Res.ok.inj h
          subst h1
          have hlen : (truncate st i).table.length = st.table.length := by
            simp [truncate, modSlot, setSlot]
          refine ⟨by simp [free_inode, truncate, modSlot, setSlot], rfl, rfl,
            ?_, ?_⟩
          · intro j hj
            unfold free_inode
            rw [getSlot_set_ne _ hj]
            unfold truncate
            rw [getSlot_mod_ne _ hj]
          · left
            by_cases hi : i < st.table.length
            · exact getSlot_set_self _ (by omega)
            · have h2 : getSlot (setSlot (truncate st i) i MInode.zero) i
                  = getSlot (truncate st i) i := by
                unfold setSlot
                show ((truncate st i).table.set i MInode.zero).getD i _ = _
                rw [List.set_eq_of_length_le (by omega)]
                rfl
              unfold free_inode
              rw [h2]
              exact getSlot_oob (by omega)
        · rw [if_neg hn] at h
          by_cases hd : (getSlot st i).i_dirt
          · rw [if_pos hd] at h
            have hi : i < st.table.length := lt_len_of_slot_ne (fun hz => by
              rw [hz] at hd
              exact absurd hd (by decide))
            cases hw : write_inode st i with
            | ok st1 =>
                rw [hw] at h
                simp only [Res.bind_ok] at h
                obtain ⟨hlk, hlen, hsup, hlp, hfr, hsl, _⟩ :=
                  write_inode_ok hi hw
                cases hwait : wait_on_inode st1 i with
                | ok st2 =>
                    rw [hwait] at h
                    simp only [Res.bind_ok] at h
                    obtain ⟨he, _⟩ := wait_on_inode_ok hwait
                    rw [he] at h
                    obtain ⟨l1, l2, l3, l4, l5⟩ := ih st1 i st' h
                    refine ⟨l1.trans hlen, l2.trans hsup, l3.trans hlp, ?_, ?_⟩
                    · intro j hj
                      rw [l4 j hj, hfr j hj]
                    · cases l5 with
                      | inl hz => exact Or.inl hz
                      | inr hr =>
                          right
                          cases hsl with
                          | inl ha =>
                              rw [ha] at hr
                              exact ⟨hr.1, hr.2.1, hr.2.2.1,
                                hr.2.2.2.1.trans hlk.symm, hr.2.2.2.2⟩
                          | inr hb =>
                              rw [hb] at hr
                              exact ⟨hr.1, hr.2.1, hr.2.2.1,
                                hr.2.2.2.1.trans hlk.symm, hr.2.2.2.2⟩
                | panic m => rw [hwait] at h; simp [Res.bind] at h
                | stuck => rw [hwait] at h; simp [Res.bind] at h
            | panic m => rw [hw] at h; simp [Res.bind] at h
            | stuck => rw [hw] at h; simp [Res.bind] at h
          · rw [if_neg hd] at h
            have hi : i < st.table.length := lt_len_of_slot_ne (fun hz => by
              rw [hz] at hn
              exact hn (by decide))
            obtain h1 := Res.ok.inj h
            subst h1
            refine ⟨by simp [modSlot, setSlot], rfl, rfl, ?_, ?_⟩
            · intro j hj
              rw [getSlot_mod_ne _ hj]
            · right
              rw [getSlot_mod_self _ hi]
              exact ⟨rfl, rfl, rfl, rfl, rfl⟩

end KernelFS

namespace KernelFS

/-- Releasing an inode whose reference count is already zero is a fatal
error: `iput` panics before any decrement (fs/inode.c lines 63-64). -/
theorem iput_panic {st : FsState} {i : Nat}
    (hc : (getSlot st i).i_count = 0)
    (hl : (getSlot st i).i_lock = false) :
    iput st (some i) = .panic ("iput: trying to free free inode") := by
  unfold iput
  dsimp only
  rw [wait_on_inode_free hl]
  simp only [Res.bind_ok]
  rw [if_pos hc]

/-- Releasing the freshly allocated spare slot (zero fields, `i_count = 1`)
takes the deviceless branch and just decrements the count. -/
theorem iput_spare {st : FsState} {e : Nat}
    (hsp : getSlot st e = { MInode.zero with i_count := 1 }) :
    iput st (some e)
      = .ok (modSlot st e fun m => { m with i_count := m.i_count - 1 }) := by
  unfold iput
  dsimp only
  rw [wait_on_inode_free (by rw [hsp]; rfl)]
  simp only [Res.bind_ok]
  rw [if_neg (by rw [hsp]; decide), if_neg (by rw [hsp]; decide),
    if_pos (by rw [hsp]; rfl)]

theorem iput_ok {st : FsState} {i : Nat} {st' : FsState}
    (h : iput st (some i) = .ok st') :
    st'.table.length = st.table.length ∧
    st'.supers = st.supers ∧
    st'.last_pos = st.last_pos ∧
    (getSlot st i).i_count ≠ 0 ∧
    (∀ j, j ≠ i → getSlot st' j = getSlot st j) ∧
    (getSlot st' i = MInode.zero ∨
      ((getSlot st' i).i_dev = (getSlot st i).i_dev ∧
        (getSlot st' i).i_num = (getSlot st i).i_num ∧
        (getSlot st' i).i_mount = (getSlot st i).i_mount ∧
        (getSlot st' i).i_lock = (getSlot st i).i_lock ∧
        (getSlot st' i).i_count = (getSlot st i).i_count - 1)) := by
  unfold iput at h
  dsimp only at h
  cases hwait : wait_on_inode st i with
  | ok st0 =>
      rw [hwait] at h
      simp only [Res.bind_ok] at h
      obtain ⟨he, _⟩ := wait_on_inode_ok hwait
      rw [he] at h
      by_cases hc : (getSlot st i).i_count = 0
      · rw [if_pos hc] at h
        exact absurd h (by simp)
      · rw [if_neg hc] at h
        have hi : i < st.table.length := lt_len_of_slot_ne (fun hz => by
          rw [hz] at hc
          exact hc rfl)
        by_cases hp : (getSlot st i).i_pipe
        · rw [if_pos hp] at h
          by_cases hc1 : (getSlot st i).i_count - 1 ≠ 0
          · rw [if_pos hc1] at h
            obtain h1 := Res.ok.inj h
            subst h1
            refine ⟨by simp [modSlot, setSlot], rfl, rfl, hc, ?_, ?_⟩
            · intro j hj
              rw [getSlot_mod_ne _ hj]
            · right
              rw [getSlot_mod_self _ hi]
              exact ⟨rfl, rfl, rfl, rfl, rfl⟩
          · rw [if_neg hc1] at h
            obtain h1 := Res.ok.inj h
            subst h1
            refine ⟨by simp [modSlot, setSlot], rfl, rfl, hc, ?_, ?_⟩
            · intro j hj
              rw [getSlot_mod_ne _ hj]
            · right
              rw [getSlot_mod_self _ hi]
              refine ⟨rfl, rfl, rfl, rfl, ?_⟩
              show (0 : Int) = (getSlot st i).i_count - 1
              omega
          -- the pipe page free is external; only the slot changes
        · rw [if_neg hp] at h
          by_cases hd0 : (getSlot st i).i_dev = 0
          · rw [if_pos hd0] at h
            obtain h1 := Res.ok.inj h
            subst h1
            refine ⟨by simp [modSlot, setSlot], rfl, rfl, hc, ?_, ?_⟩
            · intro j hj
              rw [getSlot_mod_ne _ hj]
            · right
              rw [getSlot_mod_self _ hi]
              exact ⟨rfl, rfl, rfl, rfl, rfl⟩
          · rw [if_neg hd0] at h
            by_cases hblk : S_ISBLK (getSlot st i).d.i_mode
            · rw [if_pos hblk] at h
              cases hwait2 : wait_on_inode
                  { st with syncs :=
                    (getSlot st i).d.i_zone.getD 0 0 :: st.syncs } i with
              | ok st2 =>
                  rw [hwait2] at h
                  simp only [Res.bind_ok] at h
                  obtain ⟨he2, _⟩ := wait_on_inode_ok hwait2
                  rw [he2] at h
                  obtain ⟨l1, l2, l3, l4, l5⟩ := iputRepeat_ok 2 _ i st' h
                  exact ⟨l1, l2, l3, hc, l4, l5⟩
              | panic m => rw [hwait2] at h; simp [Res.bind] at h
              | stuck => rw [hwait2] at h; simp [Res.bind] at h
            · rw [if_neg hblk] at h
              simp only [Res.bind_ok] at h
              obtain ⟨l1, l2, l3, l4, l5⟩ := iputRepeat_ok 2 _ i st' h
              exact ⟨l1, l2, l3, hc, l4, l5⟩
  | panic m => rw [hwait] at h; simp [Res.bind] at h
  | stuck => rw [hwait] at h; simp [Res.bind] at h

end KernelFS

namespace KernelFS

theorem invLoop_ok (dev : Nat) :
    ∀ (n : Nat) (st : FsState) (i0 : Nat) (st' : FsState),
      invLoop dev n st i0 = .ok st' →
      st'.table.length = st.table.length ∧
      st'.supers = st.supers ∧
      st'.last_pos = st.last_pos ∧
      st'.writes = st.writes ∧
      (∀ m, m ∈ st.msgs → m ∈ st'.msgs) ∧
      (∀ j, j < i0 → getSlot st' j = getSlot st j) ∧
      (∀ j, i0 + n ≤ j → getSlot st' j = getSlot st j) ∧
      (∀ j, i0 ≤ j → j < i0 + n → (getSlot st j).i_dev = dev →
        getSlot st' j = { getSlot st j with i_dev := 0, i_dirt := false }) ∧
      (∀ j, i0 ≤ j → j < i0 + n → (getSlot st j).i_dev ≠ dev →
        getSlot st' j = getSlot st j) ∧
      ((∃ j, i0 ≤ j ∧ j < i0 + n ∧ (getSlot st j).i_dev = dev ∧
          (getSlot st j).i_count ≠ 0) →
        ("inode in use on removed disk") ∈ st'.msgs) := by
  intro n
  induction n with
  | zero =>
      intro st i0 st' h
      obtain h1 := Res.ok.inj (by simpa [invLoop] using h)
      subst h1
      refine ⟨rfl, rfl, rfl, rfl, fun m hm => hm, fun j _ => rfl,
        fun j _ => rfl, fun j h1 h2 _ => absurd h2 (by omega),
        fun j h1 h2 _ => absurd h2 (by omega), ?_⟩
      rintro ⟨j, hj1, hj2, _, _⟩
      exact absurd hj2 (by omega)
  | succ n ih =>
      intro st i0 st' h
      unfold invLoop at h
      cases hwait : wait_on_inode st i0 with
      | ok st1 =>
          rw [hwait] at h
          simp only [Res.bind_ok] at h
          obtain ⟨he, _⟩ := wait_on_inode_ok hwait
          rw [he] at h
          by_cases hdev : (getSlot st i0).i_dev = dev
          · rw [if_pos hdev] at h
            by_cases hcnt : (getSlot st i0).i_count ≠ 0
            · rw [if_pos hcnt] at h
              obtain ⟨l1, l2, l3, l4, l5, l6, l7, l8, l9, l10⟩ := ih _ _ _ h
              have hself : ∀ j, j ≠ i0 →
                  getSlot (modSlot { st with msgs :=
                    ("inode in use on removed disk") :: st.msgs } i0
                    (fun m => { m with i_dev := 0, i_dirt := false })) j
                  = getSlot st j := by
                intro j hj
                rw [getSlot_mod_ne _ hj]
                rfl
              have hi0lt : i0 < st.table.length := lt_len_of_slot_ne
                (fun hz => by rw [hz] at hcnt; exact hcnt rfl)
              have hsel : getSlot (modSlot { st with msgs :=
                  ("inode in use on removed disk") :: st.msgs } i0
                  (fun m => { m with i_dev := 0, i_dirt := false })) i0
                  = { getSlot st i0 with i_dev := 0, i_dirt := false } := by
                rw [getSlot_mod_self _ (by simpa using hi0lt)]
                rfl
              refine ⟨by simpa [modSlot, setSlot] using l1, l2, l3, l4, ?_,
                ?_, ?_, ?_, ?_, ?_⟩
              · intro m hm
                exact l5 m (by simp [modSlot, setSlot, List.mem_cons, hm])
              · intro j hj
                rw [l6 j (by omega), hself j (by omega)]
              · intro j hj
                rw [l7 j (by omega), hself j (by omega)]
              · intro j hj1 hj2 hjdev
                by_cases hji : j = i0
                · subst hji
                  rw [l6 j (by omega), hsel]
                · rw [l8 j (by omega) (by omega) (by rw [hself j hji]; exact hjdev),
                    hself j hji]
              · intro j hj1 hj2 hjdev
                by_cases hji : j = i0
                · subst hji
                  exact absurd hdev hjdev
                · rw [l9 j (by omega) (by omega) (by rw [hself j hji]; exact hjdev),
                    hself j hji]
              · intro _
                exact l5 _ (by simp [modSlot, setSlot])
            · rw [if_neg hcnt] at h
              obtain ⟨l1, l2, l3, l4, l5, l6, l7, l8, l9, l10⟩ := ih _ _ _ h
              have hself : ∀ j, j ≠ i0 →
                  getSlot (modSlot st i0
                    (fun m => { m with i_dev := 0, i_dirt := false })) j
                  = getSlot st j := fun j hj => getSlot_mod_ne _ hj
              refine ⟨by simpa [modSlot, setSlot] using l1, l2, l3, l4, ?_,
                ?_, ?_, ?_, ?_, ?_⟩
              · intro m hm
                exact l5 m hm
              · intro j hj
                rw [l6 j (by omega), hself j (by omega)]
              · intro j hj
                rw [l7 j (by omega), hself j (by omega)]
              · intro j hj1 hj2 hjdev
                by_cases hji : j = i0
                · subst hji
                  by_cases hi0lt : j < st.table.length
                  · rw [l6 j (by omega), getSlot_mod_self _ hi0lt]
                  · rw [l6 j (by omega)]
                    rw [show getSlot (modSlot st j (fun m =>
                        { m with i_dev := 0, i_dirt := false })) j
                        = getSlot st j from by
                      unfold modSlot setSlot
                      show (st.table.set j _).getD j _ = _
                      rw [List.set_eq_of_length_le (by omega)]
                      rfl]
                    rw [getSlot_oob (by omega)] at hjdev ⊢
                    rw [show ({ MInode.zero with i_dev := 0, i_dirt := false }
                      : MInode) = MInode.zero from rfl]
                · rw [l8 j (by omega) (by omega) (by rw [hself j hji]; exact hjdev),
                    hself j hji]
              · intro j hj1 hj2 hjdev
                by_cases hji : j = i0
                · subst hji
                  exact absurd hdev hjdev
                · rw [l9 j (by omega) (by omega) (by rw [hself j hji]; exact hjdev),
                    hself j hji]
              · rintro ⟨j, hj1, hj2, hj3, hj4⟩
                by_cases hji : j = i0
                · subst hji
                  exact absurd hj4 (by simpa using hcnt)
                · exact l10 ⟨j, by omega, by omega,
                    by rw [hself j hji]; exact hj3,
                    by rw [hself j hji]; exact hj4⟩
          · rw [if_neg hdev] at h
            obtain ⟨l1, l2, l3, l4, l5, l6, l7, l8, l9, l10⟩ := ih _ _ _ h
            refine ⟨l1, l2, l3, l4, l5, ?_, ?_, ?_, ?_, ?_⟩
            · intro j hj
              exact l6 j (by omega)
            · intro j hj
              exact l7 j (by omega)
            · intro j hj1 hj2 hjdev
              by_cases hji : j = i0
              · subst hji
                exact absurd hjdev hdev
              · exact l8 j (by omega) (by omega) hjdev
            · intro j hj1 hj2 hjdev
              by_cases hji : j = i0
              · subst hji
                exact l6 j (by omega)
              · exact l9 j (by omega) (by omega) hjdev
            · rintro ⟨j, hj1, hj2, hj3, hj4⟩
              by_cases hji : j = i0
              · subst hji
                exact absurd hj3 hdev
              · exact l10 ⟨j, by omega, by omega, hj3, hj4⟩
      | panic m => rw [hwait] at h; simp [Res.bind] at h
      | stuck => rw [hwait] at h; simp [Res.bind] at h

end KernelFS

namespace KernelFS

theorem syncLoop_ok :
    ∀ (n : Nat) (st : FsState) (i0 : Nat) (st' : FsState),
      syncLoop n st i0 = .ok st' →
      st'.table.length = st.table.length ∧
      st'.supers = st.supers ∧
      st'.last_pos = st.last_pos ∧
      (∀ j, (getSlot st' j).i_dev = (getSlot st j).i_dev ∧
        (getSlot st' j).i_num = (getSlot st j).i_num ∧
        (getSlot st' j).i_count = (getSlot st j).i_count ∧
        (getSlot st' j).i_mount = (getSlot st j).i_mount ∧
        (getSlot st' j).i_lock = (getSlot st j).i_lock) := by
  intro n
  induction n with
  | zero =>
      intro st i0 st' h
      obtain h1 := Res.ok.inj (by simpa [syncLoop] using h)
      subst h1
      exact ⟨rfl, rfl, rfl, fun j => ⟨rfl, rfl, rfl, rfl, rfl⟩⟩
  | succ n ih =>
      intro st i0 st' h
      unfold syncLoop at h
      cases hwait : wait_on_inode st i0 with
      | ok st1 =>
          rw [hwait] at h
          simp only [Res.bind_ok] at h
          obtain ⟨he, _⟩ := wait_on_inode_ok hwait
          rw [he] at h
          by_cases hcond : (getSlot st i0).i_dirt
              ∧ (getSlot st i0).i_pipe = false
          · rw [if_pos hcond] at h
            cases hw : write_inode st i0 with
            | ok st2 =>
                rw [hw] at h
                simp only [Res.bind_ok] at h
                have hi0 : i0 < st.table.length := lt_len_of_slot_ne
                  (fun hz => by
                    rw [hz] at hcond
                    exact absurd hcond.1 (by decide))
                obtain ⟨hlk, hlen, hsup, hlp, hfr, hsl, _⟩ :=
                  write_inode_ok hi0 hw
                obtain ⟨l1, l2, l3, l4⟩ := ih _ _ _ h
                refine ⟨l1.trans hlen, l2.trans hsup, l3.trans hlp, ?_⟩
                intro j
                obtain ⟨f1, f2, f3, f4, f5⟩ := l4 j
                by_cases hji : j = i0
                · subst hji
                  cases hsl with
                  | inl ha =>
                      rw [f1, f2, f3, f4, f5, ha]
                      exact ⟨rfl, rfl, rfl, rfl, hlk.symm⟩
                  | inr hb =>
                      rw [f1, f2, f3, f4, f5, hb]
                      exact ⟨rfl, rfl, rfl, rfl, hlk.symm⟩
                · rw [f1, f2, f3, f4, f5, hfr j hji]
                  exact ⟨rfl, rfl, rfl, rfl, rfl⟩
            | panic m => rw [hw] at h; simp [Res.bind] at h
            | stuck => rw [hw] at h; simp [Res.bind] at h
          · rw [if_neg hcond] at h
            simp only [Res.bind_ok] at h
            exact ih _ _ _ h
      | panic m => rw [hwait] at h; simp [Res.bind] at h
      | stuck => rw [hwait] at h; simp [Res.bind] at h

end KernelFS

namespace KernelFS

theorem geiScan_cand (st : FsState) :
    ∀ (n c : Nat) (cand : Option Nat) (c' k : Nat),
      geiScan st n c cand = (c', some k) →
      (∀ k0, cand = some k0 →
        k0 < st.table.length ∧ (getSlot st k0).i_count = 0) →
      0 < st.table.length →
      k < st.table.length ∧ (getSlot st k).i_count = 0 := by
  intro n
  induction n with
  | zero =>
      intro c cand c' k h hcand _
      obtain ⟨_, h2⟩ := Prod.mk.inj
        (show ((c, cand) : Nat × Option Nat) = (c', some k) from h)
      exact hcand k h2
  | succ n ih =>
      intro c cand c' k h hcand hlen
      unfold geiScan at h
      by_cases hwrap : c + 1 ≥ st.table.length
      · rw [if_pos hwrap] at h
        by_cases hc0 : (getSlot st 0).i_count = 0
        · rw [if_pos hc0] at h
          by_cases hcl : (getSlot st 0).i_dirt = false
              ∧ (getSlot st 0).i_lock = false
          · rw [if_pos hcl] at h
            obtain ⟨_, h2⟩ := Prod.mk.inj h
            obtain h3 := Option.some.inj h2
            subst h3
            exact ⟨hlen, hc0⟩
          · rw [if_neg hcl] at h
            exact ih 0 (some 0) c' k h
              (fun k0 hk0 => by
                obtain h4 := Option.some.inj hk0
                subst h4
                exact ⟨hlen, hc0⟩) hlen
        · rw [if_neg hc0] at h
          exact ih 0 cand c' k h hcand hlen
      · rw [if_neg hwrap] at h
        by_cases hc0 : (getSlot st (c + 1)).i_count = 0
        · rw [if_pos hc0] at h
          by_cases hcl : (getSlot st (c + 1)).i_dirt = false
              ∧ (getSlot st (c + 1)).i_lock = false
          · rw [if_pos hcl] at h
            obtain ⟨_, h2⟩ := Prod.mk.inj h
            obtain h3 := Option.some.inj h2
            subst h3
            exact ⟨by omega, hc0⟩
          · rw [if_neg hcl] at h
            exact ih (c + 1) (some (c + 1)) c' k h
              (fun k0 hk0 => by
                obtain h4 := Option.some.inj hk0
                subst h4
                exact ⟨by omega, hc0⟩) hlen
        · rw [if_neg hc0] at h
          exact ih (c + 1) cand c' k h hcand hlen

theorem geiDirtyLoop_ok {st : FsState} {i : Nat} {st' : FsState}
    (hi : i < st.table.length) (h : geiDirtyLoop st i = .ok st') :
    st'.table.length = st.table.length ∧
    st'.supers = st.supers ∧
    st'.last_pos = st.last_pos ∧
    (∀ j, j ≠ i → getSlot st' j = getSlot st j) ∧
    (getSlot st' i).i_count = (getSlot st i).i_count := by
  unfold geiDirtyLoop at h
  by_cases hd : (getSlot st i).i_dirt
  · rw [if_pos hd] at h
    cases hw : write_inode st i with
    | ok st1 =>
        rw [hw] at h
        simp only [Res.bind_ok] at h
        obtain ⟨_, hlen, hsup, hlp, hfr, hsl, _⟩ := write_inode_ok hi hw
        cases hwait : wait_on_inode st1 i with
        | ok st2 =>
            rw [hwait] at h
            simp only [Res.bind_ok] at h
            obtain ⟨he, _⟩ := wait_on_inode_ok hwait
            rw [he] at h
            by_cases hd2 : (getSlot st1 i).i_dirt
            · rw [if_pos hd2] at h
              exact absurd h (by simp)
            · rw [if_neg hd2] at h
              obtain h1 := Res.ok.inj h
              subst h1
              refine ⟨hlen, hsup, hlp, hfr, ?_⟩
              cases hsl with
              | inl ha => rw [ha]
              | inr hb => rw [hb]
        | panic m => rw [hwait] at h; simp [Res.bind] at h
        | stuck => rw [hwait] at h; simp [Res.bind] at h
    | panic m => rw [hw] at h; simp [Res.bind] at h
    | stuck => rw [hw] at h; simp [Res.bind] at h
  · rw [if_neg hd] at h
    obtain h1 := Res.ok.inj h
    subst h1
    exact ⟨rfl, rfl, rfl, fun j _ => rfl, rfl⟩

theorem get_empty_inode_ok {st : FsState} {st' : FsState} {k : Nat}
    (h : get_empty_inode st = .ok (st', k)) :
    k < st.table.length ∧
    (getSlot st k).i_count = 0 ∧
    st'.table.length = st.table.length ∧
    st'.supers = st.supers ∧
    (∀ j, j ≠ k → getSlot st' j = getSlot st j) ∧
    getSlot st' k = { MInode.zero with i_count := 1 } := by
  unfold get_empty_inode at h
  rcases hscan : geiScan st st.table.length st.last_pos none with ⟨c', cand⟩
  rw [hscan] at h
  cases cand with
  | none => exact absurd h (by simp)
  | some k0 =>
      have hlen : 0 < st.table.length := by
        by_contra hl0
        have hz : st.table.length = 0 := by omega
        rw [hz] at hscan
        obtain ⟨_, h2⟩ := Prod.mk.inj
          (show ((st.last_pos, none) : Nat × Option Nat)
            = (c', some k0) from hscan)
        exact absurd h2 (by simp)
      obtain ⟨hk0, hcnt0⟩ := geiScan_cand st st.table.length st.last_pos none
        c' k0 hscan (fun _ hk => by simp at hk) hlen
      dsimp only at h
      cases hwait : wait_on_inode { st with last_pos := c' } k0 with
      | ok st1 =>
          rw [hwait] at h
          simp only [Res.bind_ok] at h
          obtain ⟨he, hlk⟩ := wait_on_inode_ok hwait
          rw [he] at h
          cases hdl : geiDirtyLoop { st with last_pos := c' } k0 with
          | ok st2 =>
              rw [hdl] at h
              simp only [Res.bind_ok] at h
              obtain ⟨hlen2, hsup2, hlp2, hfr2, hcnt2⟩ :=
                geiDirtyLoop_ok
                  (show k0 < ({ st with last_pos := c' } : FsState).table.length
                    from hk0) hdl
              rw [if_neg (by
                rw [hcnt2]
                show ¬(getSlot st k0).i_count ≠ 0
                simpa using hcnt0)] at h
              obtain h1 := Res.ok.inj h
              obtain ⟨hst, hkk⟩ := Prod.mk.inj h1.symm
              subst hst
              obtain hkk' := hkk.symm
              subst hkk'
              refine ⟨hk0, hcnt0, ?_, ?_, ?_, ?_⟩
              · rw [setSlot_length]
                exact hlen2
              · exact hsup2
              · intro j hj
                rw [getSlot_set_ne _ hj, hfr2 j hj]
                rfl
              · exact getSlot_set_self _ (by rw [hlen2]; exact hk0)
          | panic m => rw [hdl] at h; simp [Res.bind] at h
          | stuck => rw [hdl] at h; simp [Res.bind] at h
      | panic m => rw [hwait] at h; simp [Res.bind] at h
      | stuck => rw [hwait] at h; simp [Res.bind] at h

end KernelFS

namespace KernelFS

/-- No slot is locked: holds between top-level operations. -/
def LocksFree (st : FsState) : Prop := ∀ i, (getSlot st i).i_lock = false

/-- No slot is a mount point: nothing in fs/inode.c sets `i_mount`, so this
holds in every state reachable through the operations modelled here. -/
def NoMounts (st : FsState) : Prop := ∀ i, (getSlot st i).i_mount = false

/-- Every reference count is non-negative. -/
def NonnegCounts (st : FsState) : Prop := ∀ i, 0 ≤ (getSlot st i).i_count

/-- Distinct slots with a non-zero device never carry the same
`(device, inode number)` key. -/
def UniqueKeys (st : FsState) : Prop :=
  ∀ i j, i ≠ j → (getSlot st i).i_dev ≠ 0 →
    (getSlot st i).i_dev = (getSlot st j).i_dev →
    (getSlot st i).i_num ≠ (getSlot st j).i_num

theorem igetLoop_ok :
    ∀ (d fuel : Nat) (st : FsState) (dev nr empty i : Nat)
      (st' : FsState) (r : Option Nat),
      st.table.length - i = d →
      igetLoop (fuel + 1) st dev nr empty i = .ok (st', r) →
      LocksFree st → NoMounts st → dev ≠ 0 →
      getSlot st empty = { MInode.zero with i_count := 1 } →
      empty < st.table.length →
      (∀ j, j < i → ¬((getSlot st j).i_dev = dev ∧
        (getSlot st j).i_num = nr)) →
      st'.table.length = st.table.length ∧
      st'.supers = st.supers ∧
      ((∃ jf, r = some jf ∧ jf < st.table.length ∧ jf ≠ empty ∧
          (getSlot st jf).i_dev = dev ∧ (getSlot st jf).i_num = nr ∧
          getSlot st' jf = { getSlot st jf with
            i_count := (getSlot st jf).i_count + 1 } ∧
          getSlot st' empty = MInode.zero ∧
          (∀ k, k ≠ jf → k ≠ empty → getSlot st' k = getSlot st k))
        ∨ (r = some empty ∧
          (∀ j, j < st.table.length →
            ¬((getSlot st j).i_dev = dev ∧ (getSlot st j).i_num = nr)) ∧
          getSlot st' empty = { MInode.zero with
            i_count := 1
            i_dev := dev
            i_num := nr
            d := st.disk dev nr } ∧
          (∀ k, k ≠ empty → getSlot st' k = getSlot st k))) := by
  intro d
  induction d with
  | zero =>
      intro fuel st dev nr empty i st' r hd h hLF hNM hdev hsp hel hpre
      unfold igetLoop at h
      rw [if_neg (by omega)] at h
      cases hr : read_inode (modSlot st empty fun m =>
          { m with i_dev := dev, i_num := nr }) empty with
      | ok st3 =>
          rw [hr] at h
          simp only [Res.bind_ok] at h
          obtain h1 := Res.ok.inj h
          obtain ⟨hst, hrr⟩ := Prod.mk.inj h1
          subst hst
          have hel2 : empty < (modSlot st empty fun m =>
              { m with i_dev := dev, i_num := nr }).table.length := by
            simpa [modSlot, setSlot] using hel
          obtain ⟨_, rlen, rsup, _, rfr, rslf⟩ := read_inode_ok hel2 hr
          refine ⟨by simpa [modSlot, setSlot] using rlen,
            rsup, Or.inr ⟨hrr.symm, ?_, ?_, ?_⟩⟩
          · intro j hjl
            exact hpre j (by omega)
          · rw [rslf, getSlot_mod_self _ hel, hsp]
            rfl
          · intro k hk
            rw [rfr k hk, getSlot_mod_ne _ hk]
      | panic m => rw [hr] at h; simp [Res.bind] at h
      | stuck => rw [hr] at h; simp [Res.bind] at h
  | succ dd ihd =>
      intro fuel st dev nr empty i st' r hd h hLF hNM hdev hsp hel hpre
      have hil : i < st.table.length := by omega
      unfold igetLoop at h
      rw [if_pos hil] at h
      by_cases hcond : (getSlot st i).i_dev ≠ dev ∨ (getSlot st i).i_num ≠ nr
      · rw [if_pos hcond] at h
        exact ihd fuel st dev nr empty (i + 1) st' r (by omega) h hLF hNM
          hdev hsp hel (fun j hj => by
            by_cases hji : j = i
            · subst hji
              intro ⟨h1, h2⟩
              exact hcond.elim (fun hh => hh h1) (fun hh => hh h2)
            · exact hpre j (by omega))
      · rw [if_neg hcond] at h
        push_neg at hcond
        obtain ⟨hceq1, hceq2⟩ := hcond
        rw [wait_on_inode_free (hLF i)] at h
        simp only [Res.bind_ok] at h
        rw [if_neg (by
          push_neg
          exact ⟨hceq1, hceq2⟩)] at h
        rw [if_neg (by simp [hNM i])] at h
        have hie : i ≠ empty := by
          intro hh
          rw [hh, hsp] at hceq1
          exact hdev hceq1.symm
        have hsp2 : getSlot (modSlot st i fun m =>
            { m with i_count := m.i_count + 1 }) empty
            = { MInode.zero with i_count := 1 } := by
          rw [getSlot_mod_ne _ (Ne.symm hie)]
          exact hsp
        rw [iput_spare hsp2] at h
        simp only [Res.bind_ok] at h
        obtain h1 := Res.ok.inj h
        obtain ⟨hst, hrr⟩ := Prod.mk.inj h1
        subst hst
        have hlen1 : (modSlot st i fun m =>
            { m with i_count := m.i_count + 1 }).table.length
            = st.table.length := by simp [modSlot, setSlot]
        refine ⟨by simp [modSlot, setSlot], rfl,
          Or.inl ⟨i, hrr.symm, hil, hie, hceq1, hceq2, ?_, ?_, ?_⟩⟩
        · rw [getSlot_mod_ne _ hie, getSlot_mod_self _ hil]
        · rw [getSlot_mod_self _ (by rw [hlen1]; exact hel), hsp2]
          simp [MInode.zero]
        · intro k hk1 hk2
          rw [getSlot_mod_ne _ hk2, getSlot_mod_ne _ hk1]

end KernelFS

namespace KernelFS

/-- The public operations of the inode-cache manager (fs/inode.c):
acquire (`iget`), release (`iput` on a table slot), device invalidation
(`invalidate_inodes`), table write-back (`sync_inodes`), and raw slot
allocation (`get_empty_inode`). -/
inductive Op where
  | acquire (dev nr : Nat)
  | release (i : Nat)
  | invalidate (dev : Nat)
  | sync
  | getEmpty

/-- One interface step: the state component of the operation's result. -/
def applyOp (op : Op) (st : FsState) : Res FsState :=
  match op with
  | .acquire dev nr => (iget st dev nr).bind fun p => Res.ok p.1
  | .release i => iput st (some i)
  | .invalidate dev => invalidate_inodes st dev
  | .sync => sync_inodes st
  | .getEmpty => (get_empty_inode st).bind fun p => Res.ok p.1

/-- Boot state: `inode_table[NR_INODE] = {{0, }, }` — every slot zero, the
allocation cursor at the table base, empty logs. -/
def initState (n : Nat) (sups : List SuperBlock)
    (dsk : Nat → Nat → DInode) : FsState :=
  { table := List.replicate n MInode.zero, last_pos := 0, supers := sups,
    disk := dsk, writes := [], syncs := [], msgs := [] }

/-- The states reachable from boot through successful (non-panicking,
non-blocking) interface operations. -/
inductive Reachable (n : Nat) (sups : List SuperBlock)
    (dsk : Nat → Nat → DInode) : FsState → Prop where
  | init : Reachable n sups dsk (initState n sups dsk)
  | step {st st' : FsState} (op : Op) : Reachable n sups dsk st →
      applyOp op st = .ok st' → Reachable n sups dsk st'

/-- The inode-table invariant maintained by every interface operation. -/
def Inv (st : FsState) : Prop :=
  LocksFree st ∧ NoMounts st ∧ NonnegCounts st ∧ UniqueKeys st

theorem getSlot_init (n : Nat) (sups : List SuperBlock)
    (dsk : Nat → Nat → DInode) (i : Nat) :
    getSlot (initState n sups dsk) i = MInode.zero := by
  show (List.replicate n MInode.zero).getD i MInode.zero = MInode.zero
  rcases Nat.lt_or_ge i n with hlt | hge
  · simp [List.getD, List.getElem?_replicate, hlt]
  · simp [List.getD, List.getElem?_replicate, Nat.not_lt.2 hge]

theorem Inv_init (n : Nat) (sups : List SuperBlock)
    (dsk : Nat → Nat → DInode) : Inv (initState n sups dsk) := by
  refine ⟨fun i => ?_, fun i => ?_, fun i => ?_, fun a b hab hd _ => ?_⟩
  · rw [getSlot_init]; rfl
  · rw [getSlot_init]; rfl
  · rw [getSlot_init]; exact le_refl 0
  · exact absurd (by rw [getSlot_init]; rfl) hd

/-- When every slot either keeps its `(i_dev, i_num)` key or loses its
device binding, key uniqueness carries over. -/
theorem uniqueKeys_of_pointwise {st st' : FsState}
    (h : ∀ k, ((getSlot st' k).i_dev = (getSlot st k).i_dev ∧
        (getSlot st' k).i_num = (getSlot st k).i_num) ∨
      (getSlot st' k).i_dev = 0)
    (hu : UniqueKeys st) : UniqueKeys st' := by
  intro a b hab hd hdd
  rcases h a with ⟨ha1, ha2⟩ | ha0
  · rcases h b with ⟨hb1, hb2⟩ | hb0
    · rw [ha2, hb2]
      exact hu a b hab (by rw [ha1] at hd; exact hd)
        (by rw [ha1, hb1] at hdd; exact hdd)
    · rw [ha1] at hd hdd
      rw [hb0] at hdd
      exact absurd hdd hd
  · exact absurd ha0 hd

end KernelFS

namespace KernelFS

theorem iput_inv {st st' : FsState} {i : Nat} (hInv : Inv st)
    (h : iput st (some i) = .ok st') : Inv st' := by
  obtain ⟨hLF, hNM, hNN, hUK⟩ := hInv
  obtain ⟨hlen, hsup, hlp, hc, hfr, hsl⟩ := iput_ok h
  refine ⟨fun j => ?_, fun j => ?_, fun j => ?_, ?_⟩
  · by_cases hj : j = i
    · subst hj
      rcases hsl with hz | ⟨_, _, _, hl, _⟩
      · rw [hz]; rfl
      · rw [hl]; exact hLF j
    · rw [hfr j hj]; exact hLF j
  · by_cases hj : j = i
    · subst hj
      rcases hsl with hz | ⟨_, _, hm, _, _⟩
      · rw [hz]; rfl
      · rw [hm]; exact hNM j
    · rw [hfr j hj]; exact hNM j
  · by_cases hj : j = i
    · subst hj
      rcases hsl with hz | ⟨_, _, _, _, hcnt⟩
      · rw [hz]; exact le_refl 0
      · rw [hcnt]
        have hn := hNN j
        omega
    · rw [hfr j hj]; exact hNN j
  · refine uniqueKeys_of_pointwise (fun k => ?_) hUK
    by_cases hk : k = i
    · subst hk
      rcases hsl with hz | ⟨hdv, hnm, _, _, _⟩
      · right; rw [hz]; rfl
      · left; exact ⟨hdv, hnm⟩
    · left; rw [hfr k hk]; exact ⟨rfl, rfl⟩

theorem invalidate_inv {st st' : FsState} {dev : Nat} (hInv : Inv st)
    (h : invalidate_inodes st dev = .ok st') : Inv st' := by
  obtain ⟨hLF, hNM, hNN, hUK⟩ := hInv
  have h' : invLoop dev st.table.length st 0 = .ok st' := h
  obtain ⟨hlen, hsup, hlp, hw, hmsg, hlt, hge, hmat, hnomat, hrep⟩ :=
    invLoop_ok dev st.table.length st 0 st' h'
  have hslot : ∀ j, getSlot st' j = getSlot st j ∨
      getSlot st' j = { getSlot st j with i_dev := 0, i_dirt := false } := by
    intro j
    by_cases hj : j < st.table.length
    · by_cases hdj : (getSlot st j).i_dev = dev
      · right; exact hmat j (Nat.zero_le j) (by omega) hdj
      · left; exact hnomat j (Nat.zero_le j) (by omega) hdj
    · left; exact hge j (by omega)
  refine ⟨fun j => ?_, fun j => ?_, fun j => ?_, ?_⟩
  · rcases hslot j with he | he <;> rw [he] <;> exact hLF j
  · rcases hslot j with he | he <;> rw [he] <;> exact hNM j
  · rcases hslot j with he | he <;> rw [he] <;> exact hNN j
  · refine uniqueKeys_of_pointwise (fun k => ?_) hUK
    rcases hslot k with he | he
    · left; rw [he]; exact ⟨rfl, rfl⟩
    · right; rw [he]

theorem sync_inv {st st' : FsState} (hInv : Inv st)
    (h : sync_inodes st = .ok st') : Inv st' := by
  obtain ⟨hLF, hNM, hNN, hUK⟩ := hInv
  have h' : syncLoop st.table.length st 0 = .ok st' := h
  obtain ⟨hlen, hsup, hlp, hpt⟩ := syncLoop_ok st.table.length st 0 st' h'
  refine ⟨fun j => ?_, fun j => ?_, fun j => ?_, ?_⟩
  · rw [(hpt j).2.2.2.2]; exact hLF j
  · rw [(hpt j).2.2.2.1]; exact hNM j
  · rw [(hpt j).2.2.1]; exact hNN j
  · exact uniqueKeys_of_pointwise
      (fun k => Or.inl ⟨(hpt k).1, (hpt k).2.1⟩) hUK

theorem get_empty_inv {st st' : FsState} {k : Nat} (hInv : Inv st)
    (h : get_empty_inode st = .ok (st', k)) : Inv st' := by
  obtain ⟨hLF, hNM, hNN, hUK⟩ := hInv
  obtain ⟨hk, hc0, hlen, hsup, hfr, hsl⟩ := get_empty_inode_ok h
  refine ⟨fun j => ?_, fun j => ?_, fun j => ?_, ?_⟩
  · by_cases hj : j = k
    · subst hj; rw [hsl]; rfl
    · rw [hfr j hj]; exact hLF j
  · by_cases hj : j = k
    · subst hj; rw [hsl]; rfl
    · rw [hfr j hj]; exact hNM j
  · by_cases hj : j = k
    · subst hj; rw [hsl]; decide
    · rw [hfr j hj]; exact hNN j
  · refine uniqueKeys_of_pointwise (fun m => ?_) hUK
    by_cases hm : m = k
    · subst hm; right; rw [hsl]; rfl
    · left; rw [hfr m hm]; exact ⟨rfl, rfl⟩

end KernelFS

namespace KernelFS

theorem iget_inv {st st' : FsState} {dev nr : Nat} {r : Option Nat}
    (hInv : Inv st) (h : iget st dev nr = .ok (st', r)) : Inv st' := by
  unfold iget at h
  by_cases hdev : dev = 0
  · rw [if_pos hdev] at h; exact absurd h (by simp)
  · rw [if_neg hdev] at h
    cases hge : get_empty_inode st with
    | ok p =>
        obtain ⟨st1, k⟩ := p
        rw [hge] at h
        simp only [Res.bind_ok] at h
        obtain ⟨hk, hc0, hlen1, hsup1, hfr1, hsl1⟩ := get_empty_inode_ok hge
        obtain ⟨hLF1, hNM1, hNN1, hUK1⟩ := get_empty_inv hInv hge
        have h2 : igetLoop (st1.supers.length + 1 + 1) st1 dev nr k 0
            = .ok (st', r) := h
        obtain ⟨hlen', hsup', hcase⟩ :=
          igetLoop_ok (st1.table.length - 0) (st1.supers.length + 1)
            st1 dev nr k 0 st' r rfl h2 hLF1 hNM1 hdev hsl1
            (by rw [hlen1]; exact hk)
            (fun j hj => absurd hj (Nat.not_lt_zero j))
        rcases hcase with
          ⟨jf, hr, hjf, hjk, hdv, hnm, hslf, hspz, hfrm⟩ |
          ⟨hr, hnomatch, hsle, hfre⟩
        · refine ⟨fun j => ?_, fun j => ?_, fun j => ?_, ?_⟩
          · by_cases hj1 : j = jf
            · subst hj1; rw [hslf]; exact hLF1 j
            · by_cases hj2 : j = k
              · subst hj2; rw [hspz]; rfl
              · rw [hfrm j hj1 hj2]; exact hLF1 j
          · by_cases hj1 : j = jf
            · subst hj1; rw [hslf]; exact hNM1 j
            · by_cases hj2 : j = k
              · subst hj2; rw [hspz]; rfl
              · rw [hfrm j hj1 hj2]; exact hNM1 j
          · by_cases hj1 : j = jf
            · subst hj1
              rw [hslf]
              show 0 ≤ (getSlot st1 j).i_count + 1
              have hn := hNN1 j
              omega
            · by_cases hj2 : j = k
              · subst hj2; rw [hspz]; exact le_refl 0
              · rw [hfrm j hj1 hj2]; exact hNN1 j
          · refine uniqueKeys_of_pointwise (fun m => ?_) hUK1
            by_cases hm1 : m = jf
            · subst hm1; left; rw [hslf]; exact ⟨rfl, rfl⟩
            · by_cases hm2 : m = k
              · subst hm2; right; rw [hspz]; rfl
              · left; rw [hfrm m hm1 hm2]; exact ⟨rfl, rfl⟩
        · have hdev' : (getSlot st' k).i_dev = dev := by rw [hsle]
          have hnum' : (getSlot st' k).i_num = nr := by rw [hsle]
          refine ⟨fun j => ?_, fun j => ?_, fun j => ?_, ?_⟩
          · by_cases hj : j = k
            · subst hj; rw [hsle]; rfl
            · rw [hfre j hj]; exact hLF1 j
          · by_cases hj : j = k
            · subst hj; rw [hsle]; rfl
            · rw [hfre j hj]; exact hNM1 j
          · by_cases hj : j = k
            · subst hj
              rw [hsle]
              show (0 : Int) ≤ 1
              decide
            · rw [hfre j hj]; exact hNN1 j
          · intro a b hab hda hdd
            by_cases ha : a = k
            · rw [ha] at hab hdd ⊢
              by_cases hb : b = k
              · exact absurd hb.symm hab
              · rw [hnum', hfre b hb]
                rw [hdev', hfre b hb] at hdd
                by_cases hblt : b < st1.table.length
                · intro heq
                  exact hnomatch b hblt ⟨hdd.symm, heq.symm⟩
                · rw [getSlot_oob (by omega)] at hdd
                  exact absurd hdd hdev
            · by_cases hb : b = k
              · subst hb
                rw [hfre a ha] at hda hdd ⊢
                rw [hdev'] at hdd
                by_cases halt : a < st1.table.length
                · intro heq
                  rw [hnum'] at heq
                  exact hnomatch a halt ⟨hdd, heq⟩
                · rw [getSlot_oob (by omega)] at hda
                  exact absurd rfl hda
              · rw [hfre a ha] at hda hdd ⊢
                rw [hfre b hb] at hdd ⊢
                exact hUK1 a b hab hda hdd
    | panic m => rw [hge] at h; simp [Res.bind] at h
    | stuck => rw [hge] at h; simp [Res.bind] at h

theorem applyOp_inv {op : Op} {st st' : FsState} (hInv : Inv st)
    (h : applyOp op st = .ok st') : Inv st' := by
  cases op with
  | acquire dev nr =>
      unfold applyOp at h
      dsimp only at h
      cases hg : iget st dev nr with
      | ok p =>
          obtain ⟨st1, r⟩ := p
          rw [hg] at h
          simp only [Res.bind_ok] at h
          have h1 : st1 = st' := Res.ok.inj h
          subst h1
          exact iget_inv hInv hg
      | panic m => rw [hg] at h; simp [Res.bind] at h
      | stuck => rw [hg] at h; simp [Res.bind] at h
  | release i => exact iput_inv hInv h
  | invalidate dev => exact invalidate_inv hInv h
  | sync => exact sync_inv hInv h
  | getEmpty =>
      unfold applyOp at h
      dsimp only at h
      cases hg : get_empty_inode st with
      | ok p =>
          obtain ⟨st1, k⟩ := p
          rw [hg] at h
          simp only [Res.bind_ok] at h
          have h1 : st1 = st' := Res.ok.inj h
          subst h1
          exact get_empty_inv hInv hg
      | panic m => rw [hg] at h; simp [Res.bind] at h
      | stuck => rw [hg] at h; simp [Res.bind] at h

theorem Reachable_inv {n : Nat} {sups : List SuperBlock}
    {dsk : Nat → Nat → DInode} {st : FsState}
    (h : Reachable n sups dsk st) : Inv st := by
  induction h with
  | init => exact Inv_init n sups dsk
  | step op hr hap ih => exact applyOp_inv ih hap

end KernelFS

namespace KernelFS

/-- C10: releasing a null handle is a total no-op — `iput(NULL)` returns
immediately (fs/inode.c lines 60-61): for every state the call succeeds
and returns the state unchanged, so every slot's count, dirty flag, lock
and identity are intact. -/
theorem C10_iput_null (st : FsState) : iput st none = .ok st := rfl

/-- C6: release never drives a reference count below zero — `iput` on an
unlocked non-null slot whose count is already zero panics with
"iput: trying to free free inode" (fs/inode.c lines 63-64) rather than
decrementing, and in every state reachable from boot through the
interface operations every slot's count is non-negative. -/
theorem C6_release_nonneg :
    (∀ (st : FsState) (i : Nat),
      (getSlot st i).i_count = 0 → (getSlot st i).i_lock = false →
      iput st (some i) = .panic ("iput: trying to free free inode")) ∧
    (∀ (n : Nat) (sups : List SuperBlock) (dsk : Nat → Nat → DInode)
      (st : FsState), Reachable n sups dsk st →
      ∀ i, 0 ≤ (getSlot st i).i_count) :=
  ⟨fun _ _ hc hl => iput_panic hc hl,
   fun _ _ _ _ h i => (Reachable_inv h).2.2.1 i⟩

/-- Boot-time disk oracle used by the concrete instances below. -/
def cexDisk : Nat → Nat → DInode := fun _ _ => DInode.zero

theorem C6_release_nonneg_witness :
    iput (initState 1 [] cexDisk) (some 0)
      = .panic ("iput: trying to free free inode") ∧
    0 ≤ (getSlot (initState 1 [] cexDisk) 0).i_count :=
  ⟨C6_release_nonneg.1 (initState 1 [] cexDisk) 0 rfl rfl,
   C6_release_nonneg.2 1 [] cexDisk _ Reachable.init 0⟩

/-- A one-slot table whose slot is bound to device 1 with a live reference
(`i_count = 1`) and the dirty flag set. -/
def cexC2 : FsState :=
  { table := [{ MInode.zero with
      i_dev := 1
      i_num := 7
      i_count := 1
      i_dirt := true }]
    last_pos := 0
    supers := []
    disk := cexDisk
    writes := []
    syncs := []
    msgs := [] }

/-- The result of `invalidate_inodes cexC2 1`: the referenced matching
slot is reported AND its device/dirty fields are cleared. -/
def cexC2After : FsState :=
  { table := [{ MInode.zero with i_num := 7, i_count := 1 }]
    last_pos := 0
    supers := []
    disk := cexDisk
    writes := []
    syncs := []
    msgs := [("inode in use on removed disk")] }

/-- C2 counterexample: `invalidate_inodes` clears `i_dev`/`i_dirt`
unconditionally within the device match (fs/inode.c line 53 runs for
referenced and unreferenced slots alike), so a slot that is still
referenced (`i_count = 1`) on the invalidated device is both reported in
use and stripped of its device binding and dirty flag — contradicting the
claim that the fields are cleared only for unreferenced matching slots. -/
theorem C2_invalidate_clears_referenced :
    (getSlot cexC2 0).i_count ≠ 0 ∧ (getSlot cexC2 0).i_dev = 1 ∧
    (getSlot cexC2 0).i_dirt = true ∧
    invalidate_inodes cexC2 1 = .ok cexC2After ∧
    (getSlot cexC2After 0).i_dev = 0 ∧
    (getSlot cexC2After 0).i_dirt = false ∧
    ("inode in use on removed disk") ∈ cexC2After.msgs :=
  ⟨by decide, rfl, rfl, rfl, rfl, rfl, by exact List.Mem.head _⟩

/-- C2 (amended): a successful `invalidate_inodes st dev` writes nothing,
clears the device and dirty fields of every matching slot — referenced or
not — reports each referenced matching slot through the
"inode in use on removed disk" printk diagnostic, leaves non-matching
slots untouched, and never changes a reference count (live references are
not released, but their entries do lose their device binding). -/
theorem C2_invalidate_inodes {st st' : FsState} {dev : Nat}
    (h : invalidate_inodes st dev = .ok st') :
    st'.writes = st.writes ∧
    (∀ j, j < st.table.length → (getSlot st j).i_dev = dev →
      getSlot st' j = { getSlot st j with i_dev := 0, i_dirt := false }) ∧
    (∀ j, j < st.table.length → (getSlot st j).i_dev ≠ dev →
      getSlot st' j = getSlot st j) ∧
    (∀ j, j < st.table.length → (getSlot st j).i_dev = dev →
      (getSlot st j).i_count ≠ 0 →
      ("inode in use on removed disk") ∈ st'.msgs) ∧
    (∀ j, (getSlot st' j).i_count = (getSlot st j).i_count) := by
  have h' : invLoop dev st.table.length st 0 = .ok st' := h
  obtain ⟨hlen, hsup, hlp, hw, hmsg, hlt, hge2, hmat, hnomat, hrep⟩ :=
    invLoop_ok dev st.table.length st 0 st' h'
  refine ⟨hw, fun j hj hd => hmat j (Nat.zero_le j) (by omega) hd,
    fun j hj hd => hnomat j (Nat.zero_le j) (by omega) hd,
    fun j hj hd hc => hrep ⟨j, Nat.zero_le j, by omega, hd, hc⟩,
    fun j => ?_⟩
  by_cases hj : j < st.table.length
  · by_cases hd : (getSlot st j).i_dev = dev
    · rw [hmat j (Nat.zero_le j) (by omega) hd]
    · rw [hnomat j (Nat.zero_le j) (by omega) hd]
  · rw [hge2 j (by omega)]

theorem C2_invalidate_inodes_witness :
    cexC2After.writes = cexC2.writes ∧
    (∀ j, j < cexC2.table.length → (getSlot cexC2 j).i_dev = 1 →
      getSlot cexC2After j
        = { getSlot cexC2 j with i_dev := 0, i_dirt := false }) ∧
    (∀ j, j < cexC2.table.length → (getSlot cexC2 j).i_dev ≠ 1 →
      getSlot cexC2After j = getSlot cexC2 j) ∧
    (∀ j, j < cexC2.table.length → (getSlot cexC2 j).i_dev = 1 →
      (getSlot cexC2 j).i_count ≠ 0 →
      ("inode in use on removed disk") ∈ cexC2After.msgs) ∧
    (∀ j, (getSlot cexC2After j).i_count = (getSlot cexC2 j).i_count) :=
  C2_invalidate_inodes
    (show invalidate_inodes cexC2 1 = .ok cexC2After from rfl)

end KernelFS

namespace KernelFS

/-- One pass through the `repeat:` tail for a last-reference dirty inode
with links: the write-back clears `i_dirt`, the re-check falls through to
the final decrement. -/
theorem iputRepeat_dirty_last {st1 : FsState} {i : Nat} {sb : SuperBlock}
    (hi : i < st1.table.length)
    (hcount : (getSlot st1 i).i_count = 1)
    (hn : (getSlot st1 i).d.i_nlinks ≠ 0)
    (hdirt : (getSlot st1 i).i_dirt = true)
    (hlock : (getSlot st1 i).i_lock = false)
    (hdev : (getSlot st1 i).i_dev ≠ 0)
    (hs : get_super st1 (getSlot st1 i).i_dev = some sb) :
    ∃ st', iputRepeat 2 st1 i = .ok st' ∧
      (getSlot st' i).i_dirt = false ∧
      (getSlot st' i).i_count = 0 ∧
      (getSlot st' i).i_dev = (getSlot st1 i).i_dev ∧
      (getSlot st' i).i_num = (getSlot st1 i).i_num ∧
      st'.writes = ((getSlot st1 i).i_dev,
        inodeBlock sb (getSlot st1 i).i_num) :: st1.writes ∧
      (∀ j, j ≠ i → getSlot st' j = getSlot st1 j) := by
  obtain ⟨st2, hw, hwr, hsl2, hfr2, hlen2, hsup2, hlp2, hsy2⟩ :=
    write_inode_spec hi hlock hdirt hdev hs
  refine ⟨modSlot st2 i (fun m => { m with i_count := m.i_count - 1 }),
    ?_, ?_, ?_, ?_, ?_, ?_, ?_⟩
  · unfold iputRepeat
    rw [if_neg (by rw [hcount]; decide), if_neg hn, if_pos hdirt, hw]
    simp only [Res.bind_ok]
    rw [wait_on_inode_free (by rw [hsl2])]
    simp only [Res.bind_ok]
    unfold iputRepeat
    rw [if_neg (by
        rw [hsl2]
        show ¬(1 : Int) < (getSlot st1 i).i_count
        rw [hcount]
        decide),
      if_neg (by rw [hsl2]; exact hn),
      if_neg (by rw [hsl2]; exact Bool.false_ne_true)]
  · rw [getSlot_mod_self _ (by rw [hlen2]; exact hi), hsl2]
  · rw [getSlot_mod_self _ (by rw [hlen2]; exact hi), hsl2]
    show (getSlot st1 i).i_count - 1 = 0
    rw [hcount]
    decide
  · rw [getSlot_mod_self _ (by rw [hlen2]; exact hi), hsl2]
  · rw [getSlot_mod_self _ (by rw [hlen2]; exact hi), hsl2]
  · rw [modSlot_writes, hwr]
  · intro j hj
    rw [getSlot_mod_ne _ hj, hfr2 j hj]

/-- C7: last-reference release of a dirty inode writes it back until
clean — for a non-pipe, unlocked slot with a valid device, `i_count = 1`,
live links and `i_dirt` set, `iput` succeeds, exactly one inode-table
block write to the inode's device is logged, and on return the slot's
dirty flag is clear, its count is decremented to 0, its identity is kept
and every other slot is untouched (fs/inode.c lines 83-99 with
write_inode, lines 102-126). -/
theorem C7_dirty_release {st : FsState} {i : Nat} {sb : SuperBlock}
    (hi : i < st.table.length)
    (hp : (getSlot st i).i_pipe = false)
    (hdev : (getSlot st i).i_dev ≠ 0)
    (hcount : (getSlot st i).i_count = 1)
    (hn : (getSlot st i).d.i_nlinks ≠ 0)
    (hdirt : (getSlot st i).i_dirt = true)
    (hlock : (getSlot st i).i_lock = false)
    (hs : get_super st (getSlot st i).i_dev = some sb) :
    ∃ st', iput st (some i) = .ok st' ∧
      (getSlot st' i).i_dirt = false ∧
      (getSlot st' i).i_count = 0 ∧
      (getSlot st' i).i_dev = (getSlot st i).i_dev ∧
      (getSlot st' i).i_num = (getSlot st i).i_num ∧
      st'.writes = ((getSlot st i).i_dev,
        inodeBlock sb (getSlot st i).i_num) :: st.writes ∧
      (∀ j, j ≠ i → getSlot st' j = getSlot st j) := by
  have hstep : ∀ (stS : FsState), stS.table.length = st.table.length →
      (∀ j, getSlot stS j = getSlot st j) →
      stS.supers = st.supers → stS.writes = st.writes →
      ∃ st', iputRepeat 2 stS i = .ok st' ∧
        (getSlot st' i).i_dirt = false ∧
        (getSlot st' i).i_count = 0 ∧
        (getSlot st' i).i_dev = (getSlot st i).i_dev ∧
        (getSlot st' i).i_num = (getSlot st i).i_num ∧
        st'.writes = ((getSlot st i).i_dev,
          inodeBlock sb (getSlot st i).i_num) :: st.writes ∧
        (∀ j, j ≠ i → getSlot st' j = getSlot st j) := by
    intro stS hlS hslS hsupS hwS
    obtain ⟨st', h1, h2, h3, h4, h5, h6, h7⟩ :=
      iputRepeat_dirty_last (by rw [hlS]; exact hi)
        (by rw [hslS]; exact hcount) (by rw [hslS]; exact hn)
        (by rw [hslS]; exact hdirt) (by rw [hslS]; exact hlock)
        (by rw [hslS]; exact hdev)
        (show get_super stS (getSlot stS i).i_dev = some sb from by
          unfold get_super; rw [hsupS, hslS i]; exact hs)
    rw [hslS i] at h4 h5 h6
    rw [hwS] at h6
    exact ⟨st', h1, h2, h3, h4, h5, h6,
      fun j hj => (h7 j hj).trans (hslS j)⟩
  unfold iput
  dsimp only
  rw [wait_on_inode_free hlock]
  simp only [Res.bind_ok]
  rw [if_neg (by rw [hcount]; decide),
    if_neg (by rw [hp]; decide), if_neg hdev]
  by_cases hblk : S_ISBLK (getSlot st i).d.i_mode
  · rw [if_pos hblk,
      wait_on_inode_free
        (show (getSlot ({ st with syncs :=
            (getSlot st i).d.i_zone.getD 0 0 :: st.syncs } : FsState)
          i).i_lock = false from hlock)]
    simp only [Res.bind_ok]
    exact hstep { st with syncs := (getSlot st i).d.i_zone.getD 0 0
        :: st.syncs } rfl (fun j => rfl) rfl rfl
  · rw [if_neg hblk]
    simp only [Res.bind_ok]
    exact hstep st rfl (fun j => rfl) rfl rfl

end KernelFS

namespace KernelFS

/-- Superblock for device 1 used by the C7 witness. -/
def sbC7 : SuperBlock :=
  { s_dev := 1, s_imap_blocks := 1, s_zmap_blocks := 1, s_imount := none }

/-- A one-slot table holding a dirty, linked, last-reference inode of
device 1. -/
def cexC7 : FsState :=
  { table := [{ MInode.zero with
      d := { DInode.zero with i_nlinks := 1 }
      i_dev := 1
      i_num := 1
      i_count := 1
      i_dirt := true }]
    last_pos := 0
    supers := [sbC7]
    disk := cexDisk
    writes := []
    syncs := []
    msgs := [] }

theorem C7_dirty_release_witness :
    ∃ st', iput cexC7 (some 0) = .ok st' ∧
      (getSlot st' 0).i_dirt = false ∧
      (getSlot st' 0).i_count = 0 ∧
      (getSlot st' 0).i_dev = (getSlot cexC7 0).i_dev ∧
      (getSlot st' 0).i_num = (getSlot cexC7 0).i_num ∧
      st'.writes = ((getSlot cexC7 0).i_dev,
        inodeBlock sbC7 (getSlot cexC7 0).i_num) :: cexC7.writes ∧
      (∀ j, j ≠ 0 → getSlot st' j = getSlot cexC7 j) :=
  C7_dirty_release (by decide) rfl (by decide) rfl (by decide) rfl rfl
    (show get_super cexC7 (getSlot cexC7 0).i_dev = some sbC7 from rfl)

end KernelFS

namespace KernelFS

/-- Two slots: slot 0 holds inode (dev 1, nr 5) with two live references,
slot 1 is free. -/
def cexC1 : FsState :=
  { table := [{ MInode.zero with i_dev := 1, i_num := 5, i_count := 2 },
      MInode.zero]
    last_pos := 0
    supers := []
    disk := cexDisk
    writes := []
    syncs := []
    msgs := [] }

/-- `cexC1` after `get_empty_inode`: the cursor advanced to slot 1, which
became the spare (`i_count = 1`). -/
def cexC1Mid : FsState :=
  { table := [{ MInode.zero with i_dev := 1, i_num := 5, i_count := 2 },
      { MInode.zero with i_count := 1 }]
    last_pos := 1
    supers := []
    disk := cexDisk
    writes := []
    syncs := []
    msgs := [] }

/-- `cexC1` after `iget 1 5`: slot 0's count bumped to 3, the spare slot
released back to count 0. -/
def cexC1After : FsState :=
  { table := [{ MInode.zero with i_dev := 1, i_num := 5, i_count := 3 },
      MInode.zero]
    last_pos := 1
    supers := []
    disk := cexDisk
    writes := []
    syncs := []
    msgs := [] }

theorem iget_cexC1 : iget cexC1 1 5 = .ok (cexC1After, some 0) := by
  unfold iget
  rw [if_neg (by decide)]
  rw [show get_empty_inode cexC1 = .ok (cexC1Mid, 1) from rfl]
  simp only [Res.bind_ok]
  show igetLoop 2 cexC1Mid 1 5 1 0 = .ok (cexC1After, some 0)
  unfold igetLoop
  rw [if_pos (by decide), if_neg (by decide)]
  rw [show wait_on_inode cexC1Mid 0 = .ok cexC1Mid from rfl]
  simp only [Res.bind_ok]
  rw [if_neg (by decide), if_neg (by decide)]
  rw [show iput (modSlot cexC1Mid 0 fun m =>
      { m with i_count := m.i_count + 1 }) (some 1)
    = .ok cexC1After from rfl]
  rfl

end KernelFS

namespace KernelFS

theorem cexC1_inv : Inv cexC1 := by
  refine ⟨fun i => ?_, fun i => ?_, fun i => ?_,
    fun a b hab hd hdd => ?_⟩
  · rcases i with _ | _ | i
    · rfl
    · rfl
    · rw [getSlot_oob (show cexC1.table.length ≤ i + 2 from by
        show 2 ≤ i + 2; omega)]
      rfl
  · rcases i with _ | _ | i
    · rfl
    · rfl
    · rw [getSlot_oob (show cexC1.table.length ≤ i + 2 from by
        show 2 ≤ i + 2; omega)]
      rfl
  · rcases i with _ | _ | i
    · decide
    · decide
    · rw [getSlot_oob (show cexC1.table.length ≤ i + 2 from by
        show 2 ≤ i + 2; omega)]
      decide
  · rcases a with _ | _ | a
    · rcases b with _ | _ | b
      · exact absurd rfl hab
      · exact absurd hdd (by decide)
      · rw [getSlot_oob (show cexC1.table.length ≤ b + 2 from by
          show 2 ≤ b + 2; omega)] at hdd
        exact absurd hdd (by decide)
    · exact absurd (show (getSlot cexC1 1).i_dev = 0 from rfl) hd
    · rw [getSlot_oob (show cexC1.table.length ≤ a + 2 from by
        show 2 ≤ a + 2; omega)] at hd
      exact absurd rfl hd

/-- C1: uniqueness of the inode cache — in every state reachable from
boot through the interface operations, distinct device-bound slots
(`i_dev ≠ 0`; device 0 marks an unbound slot) never carry the same
`(device, inode number)` key; and whenever `iget` succeeds on a state
that satisfies the table invariant and already holds a live entry
(`count > 0`) for the requested key, it returns exactly that entry with
its count incremented, releases the pre-allocated spare slot back to the
free state, leaves every other slot untouched, and preserves key
uniqueness — no second entry for the key is created (fs/inode.c lines
195-243). -/
theorem C1_iget_uniqueness :
    (∀ (n : Nat) (sups : List SuperBlock) (dsk : Nat → Nat → DInode)
      (st : FsState), Reachable n sups dsk st → UniqueKeys st) ∧
    (∀ (st : FsState) (dev nr jf : Nat) (st' : FsState) (r : Option Nat),
      Inv st →
      iget st dev nr = .ok (st', r) →
      jf < st.table.length →
      (getSlot st jf).i_dev = dev →
      (getSlot st jf).i_num = nr →
      0 < (getSlot st jf).i_count →
      r = some jf ∧
      getSlot st' jf = { getSlot st jf with
        i_count := (getSlot st jf).i_count + 1 } ∧
      (∃ k, k ≠ jf ∧ (getSlot st k).i_count = 0 ∧
        getSlot st' k = MInode.zero ∧
        (∀ m, m ≠ jf → m ≠ k → getSlot st' m = getSlot st m)) ∧
      UniqueKeys st') := by
  refine ⟨fun n sups dsk st h => (Reachable_inv h).2.2.2, ?_⟩
  intro st dev nr jf st' r hInv h hjf hdv hnm hcnt
  have hUKout := (iget_inv hInv h).2.2.2
  unfold iget at h
  by_cases hdev : dev = 0
  · rw [if_pos hdev] at h; exact absurd h (by simp)
  · rw [if_neg hdev] at h
    cases hge : get_empty_inode st with
    | ok p =>
        obtain ⟨st1, k⟩ := p
        rw [hge] at h
        simp only [Res.bind_ok] at h
        obtain ⟨hk, hc0, hlen1, hsup1, hfr1, hsl1⟩ := get_empty_inode_ok hge
        obtain ⟨hLF1, hNM1, hNN1, hUK1⟩ := get_empty_inv hInv hge
        have hjfk : jf ≠ k := fun he => by
          rw [he, hc0] at hcnt
          exact absurd hcnt (by decide)
        have hsl1jf : getSlot st1 jf = getSlot st jf := hfr1 jf hjfk
        have h2 : igetLoop (st1.supers.length + 1 + 1) st1 dev nr k 0
            = .ok (st', r) := h
        obtain ⟨hlen', hsup', hcase⟩ :=
          igetLoop_ok (st1.table.length - 0) (st1.supers.length + 1)
            st1 dev nr k 0 st' r rfl h2 hLF1 hNM1 hdev hsl1
            (by rw [hlen1]; exact hk)
            (fun j hj => absurd hj (Nat.not_lt_zero j))
        rcases hcase with
          ⟨jf', hr, hjf', hjk', hdv', hnm', hslf', hspz', hfrm'⟩ |
          ⟨hr, hnomatch, hsle, hfre⟩
        · have hjeq : jf' = jf := by
            by_contra hne
            exact hUK1 jf' jf hne (by rw [hdv']; exact hdev)
              (by rw [hdv', hsl1jf, hdv]) (by rw [hnm', hsl1jf, hnm])
          subst hjeq
          rw [hsl1jf] at hslf'
          exact ⟨hr, hslf', ⟨k, Ne.symm hjk', hc0, hspz',
            fun m hm1 hm2 => (hfrm' m hm1 hm2).trans (hfr1 m hm2)⟩, hUKout⟩
        · exact absurd ⟨by rw [hsl1jf]; exact hdv, by rw [hsl1jf]; exact hnm⟩
            (hnomatch jf (by rw [hlen1]; exact hjf))
    | panic m => rw [hge] at h; simp [Res.bind] at h
    | stuck => rw [hge] at h; simp [Res.bind] at h

theorem C1_iget_uniqueness_witness :
    UniqueKeys (initState 1 [] cexDisk) ∧
    ((some 0 : Option Nat) = some 0 ∧
      getSlot cexC1After 0 = { getSlot cexC1 0 with
        i_count := (getSlot cexC1 0).i_count + 1 } ∧
      (∃ k, k ≠ 0 ∧ (getSlot cexC1 k).i_count = 0 ∧
        getSlot cexC1After k = MInode.zero ∧
        (∀ m, m ≠ 0 → m ≠ k → getSlot cexC1After m = getSlot cexC1 m)) ∧
      UniqueKeys cexC1After) :=
  ⟨C1_iget_uniqueness.1 1 [] cexDisk _ Reachable.init,
   C1_iget_uniqueness.2 cexC1 1 5 0 cexC1After (some 0) cexC1_inv
     iget_cexC1 (by decide) rfl rfl (by decide)⟩

end KernelFS
